import Mathlib

/-!
# Verification development for `drivers/hid/hid-ovr.c`

A shallow embedding of the Oculus VR hidraw-style character driver: the
per-session report ring, the fan-out of `ovr_report_event`, the consumer
`ovr_hidraw_read`, readiness (`ovr_hidraw_poll`), the control paths
(`ovr_hidraw_send_report`, `ovr_hidraw_get_report`, `ovr_hidraw_write`,
`ovr_hidraw_ioctl`) and the device table life cycle (`ovr_connect`,
`ovr_disconnect`, `ovr_hidraw_open`, `ovr_hidraw_release`).

Pointers are modelled as natural-number addresses into explicit heaps; an
operation returns `none` when the C code would dereference or free an address
that is not allocated.  Locks, wait queues and `printk` have no effect on the
sequential state and are left out.
-/

namespace HidOvr

/-! ## Constants -/

/-- Number of slots of a session ring (`#define OVR_HIDRAW_BUFFER_SIZE 64`). -/
def OVR_HIDRAW_BUFFER_SIZE : Nat := 64

/-- Number of slots of the device table (`#define OVR_HIDRAW_MAX_DEVICES 64`). -/
def OVR_HIDRAW_MAX_DEVICES : Nat := 64

/-- Number of rows of `monitor_info` (`#define MONITOR_MAX 32`). -/
def MONITOR_MAX : Nat := 32

/-- Size of the array `ovr_serial` (`#define OVR_HIDRAW_MAX_SERIAL 256`). -/
def OVR_HIDRAW_MAX_SERIAL : Nat := 256

/-- Value of `errno` code `EIO` (errno-base.h). -/
def EIO : Int := 5

/-- Value of `errno` code `EAGAIN` (errno-base.h). -/
def EAGAIN : Int := 11

/-- Value of `errno` code `ENOMEM` (errno-base.h). -/
def ENOMEM : Int := 12

/-- Value of `errno` code `EFAULT` (errno-base.h). -/
def EFAULT : Int := 14

/-- Value of `errno` code `ENODEV` (errno-base.h). -/
def ENODEV : Int := 19

/-- Value of `errno` code `EINVAL` (errno-base.h). -/
def EINVAL : Int := 22

/-- Value of `errno` code `ENOTTY` (errno-base.h). -/
def ENOTTY : Int := 25

/-- Value of the kernel-internal code `ERESTARTSYS` (linux/errno.h). -/
def ERESTARTSYS : Int := 512

/-- Poll bit `POLLIN` (asm-generic/poll.h). -/
def POLLIN : Nat := 1

/-- Poll bit `POLLERR` (asm-generic/poll.h). -/
def POLLERR : Nat := 8

/-- Poll bit `POLLHUP` (asm-generic/poll.h). -/
def POLLHUP : Nat := 16

/-- Poll bit `POLLRDNORM` (asm-generic/poll.h). -/
def POLLRDNORM : Nat := 64

/-- The value an `unsigned int` holds after `ovr_minor = -1`. -/
def MINOR_NONE : Nat := 4294967295

/-! ## Data model -/

/-- One ring slot, `struct hidraw_report`: `value` is the `kmemdup` copy
(`none` is `NULL`), `len` its recorded length. -/
structure hidraw_report where
  value : Option (List Nat)
  len : Nat
deriving DecidableEq, Repr

/-- One open session, `struct hidraw_list`: the ring `buffer[OVR_HIDRAW_BUFFER_SIZE]`,
its `head` and `tail`, and the back pointer `hidraw` to the device. -/
structure hidraw_list where
  buffer : Nat → hidraw_report
  head : Nat
  tail : Nat
  hidraw : Nat

/-- Array store `buffer[i] = r`. -/
def buffer_set (buffer : Nat → hidraw_report) (i : Nat) (r : hidraw_report) :
    Nat → hidraw_report :=
  fun j => if j = i then r else buffer j

/-- The session object right after `kzalloc` in `ovr_hidraw_open`, with
`list->hidraw` set to `dev`. -/
def hidraw_list_zero (dev : Nat) : hidraw_list :=
  { buffer := fun _ => { value := none, len := 0 }, head := 0, tail := 0, hidraw := dev }

/-- Index after `i` in the ring: `(i + 1) & (OVR_HIDRAW_BUFFER_SIZE - 1)`. -/
def ring_next (i : Nat) : Nat := (i + 1) &&& (OVR_HIDRAW_BUFFER_SIZE - 1)

/-! ## Delivery into one session (body of the loop of `ovr_report_event`) -/

/-- What the loop body did with one session. -/
inductive node_step where
  | full      -- `new_head == list->tail`: `continue`
  | nomem     -- `kmemdup` returned `NULL`: `ret = -ENOMEM; break`
  | stored    -- the copy was queued and `head` advanced
deriving DecidableEq, Repr

/-- Body of `list_for_each_entry` in `ovr_report_event` (lines 472-485) for one
session; `kmemdup_fails` says whether the `GFP_ATOMIC` copy of `data` fails. -/
def ovr_report_event_node (kmemdup_fails : Bool) (data : List Nat) (list : hidraw_list) :
    hidraw_list × node_step :=
  let new_head := ring_next list.head
  if new_head = list.tail then (list, node_step.full)
  else if kmemdup_fails then
    ({ list with buffer := buffer_set list.buffer list.head
                   { value := none, len := (list.buffer list.head).len } }, node_step.nomem)
  else
    ({ list with buffer := buffer_set list.buffer list.head
                   { value := some data, len := data.length },
                 head := new_head }, node_step.stored)

/-! ## `monitor_info` -/

/-- First row `i < MONITOR_MAX` whose column 0 equals `key`
(the `for (i=0; i<MONITOR_MAX; i++) if (monitor_info[i][0] == key) ... break` scans). -/
def monitor_find (monitor_info : Nat → Nat → Nat) (key : Nat) : Option Nat :=
  (List.range MONITOR_MAX).find? (fun i => monitor_info i 0 == key)

/-- Store `monitor_info[i][j] = v`. -/
def monitor_set (monitor_info : Nat → Nat → Nat) (i j v : Nat) : Nat → Nat → Nat :=
  fun a b => if a = i ∧ b = j then v else monitor_info a b

/-- The bookkeeping of `ovr_hidraw_read` (lines 128-138): when `opens > 0`, the
row of this `file` gets its read counter incremented and its time stamp set. -/
def monitor_note_read (opens : Int) (monitor_info : Nat → Nat → Nat) (file jiffies : Nat) :
    Nat → Nat → Nat :=
  if opens > 0 then
    match monitor_find monitor_info file with
    | some i => monitor_set (monitor_set monitor_info i 1 (monitor_info i 1 + 1)) i 2 jiffies
    | none => monitor_info
  else monitor_info

/-- The bookkeeping of `ovr_hidraw_open` (lines 374-382): the first row with a
zero in column 0 is taken for this `file`. -/
def monitor_note_open (monitor_info : Nat → Nat → Nat) (file jiffies pid : Nat) :
    Nat → Nat → Nat :=
  match monitor_find monitor_info 0 with
  | some i =>
    monitor_set (monitor_set (monitor_set (monitor_set monitor_info i 0 file) i 1 0) i 2 jiffies)
      i 3 pid
  | none => monitor_info

/-- The bookkeeping of `ovr_hidraw_release` (lines 432-437): the first row of
this `file` gets column 0 cleared. -/
def monitor_note_release (monitor_info : Nat → Nat → Nat) (file : Nat) : Nat → Nat → Nat :=
  match monitor_find monitor_info file with
  | some i => monitor_set monitor_info i 0 0
  | none => monitor_info

/-! ## `ovr_hidraw_read` -/

/-- Lines 141-143 of `ovr_hidraw_read`: the slot at `tail` is freed and set to
`NULL`, and `tail` advances. -/
def ring_pop (list : hidraw_list) : hidraw_list :=
  { list with buffer := buffer_set list.buffer list.tail
                { value := none, len := (list.buffer list.tail).len },
              tail := ring_next list.tail }

/-- What the caller of `read` brings along: `count`, the `O_NONBLOCK` flag,
whether `signal_pending(current)` holds, whether `copy_to_user` faults, the
identity of the `struct file`, and the clock. -/
structure read_ctx where
  count : Nat
  nonblock : Bool
  signal_pending : Bool
  copy_to_user_fails : Bool
  file : Nat
  jiffies : Nat

/-- How a call of `ovr_hidraw_read` ends. -/
inductive read_ret where
  | ret (r : Int)      -- returned `r`
  | sleeping           -- parked in `schedule()` on the device wait queue
  | spinning           -- the `while (ret == 0)` loop did not end within the fuel
deriving DecidableEq, Repr

/-- State and effects of a call of `ovr_hidraw_read`. -/
structure read_result where
  ret : read_ret
  out : List Nat                       -- bytes of the last `copy_to_user`
  freed : List (Option (List Nat))     -- arguments of the `kfree` calls, in order
  list : hidraw_list
  monitor_info : Nat → Nat → Nat

/-- The `while (ret == 0)` loop of `ovr_hidraw_read` (lines 85-144), one
iteration per unit of fuel.  `exist` is `list->hidraw->exist`. -/
def ovr_hidraw_read_loop (ctx : read_ctx) (exist : Bool) (opens : Int) :
    Nat → List Nat → List (Option (List Nat)) → hidraw_list → (Nat → Nat → Nat) → read_result
  | 0, out, freed, list, mi =>
    { ret := read_ret.spinning, out := out, freed := freed, list := list, monitor_info := mi }
  | fuel + 1, out, freed, list, mi =>
    if list.head = list.tail then
      if ctx.signal_pending then
        { ret := read_ret.ret (-ERESTARTSYS), out := out, freed := freed, list := list,
          monitor_info := mi }
      else if !exist then
        { ret := read_ret.ret (- EIO), out := out, freed := freed, list := list,
          monitor_info := mi }
      else if ctx.nonblock then
        { ret := read_ret.ret (-EAGAIN), out := out, freed := freed, list := list,
          monitor_info := mi }
      else
        { ret := read_ret.sleeping, out := out, freed := freed, list := list,
          monitor_info := mi }
    else
      let slot := list.buffer list.tail
      let len := if slot.len > ctx.count then ctx.count else slot.len
      let list1 := ring_pop list
      match slot.value with
      | some v =>
        if ctx.copy_to_user_fails then
          { ret := read_ret.ret (-EFAULT), out := out, freed := freed, list := list,
            monitor_info := mi }
        else
          let mi1 := monitor_note_read opens mi ctx.file ctx.jiffies
          if len = 0 then
            ovr_hidraw_read_loop ctx exist opens fuel (v.take len) (freed ++ [some v]) list1 mi1
          else
            { ret := read_ret.ret (Int.ofNat len), out := v.take len, freed := freed ++ [some v],
              list := list1, monitor_info := mi1 }
      | none =>
        ovr_hidraw_read_loop ctx exist opens fuel out (freed ++ [none]) list1 mi

/-- Function `ovr_hidraw_read` on the objects it touches: the session `list`, the flag
`list->hidraw->exist`, `opens` and `monitor_info`.  A ring of
`OVR_HIDRAW_BUFFER_SIZE` slots is emptied within that many iterations. -/
def ovr_hidraw_read (ctx : read_ctx) (exist : Bool) (opens : Int) (list : hidraw_list)
    (monitor_info : Nat → Nat → Nat) : read_result :=
  ovr_hidraw_read_loop ctx exist opens OVR_HIDRAW_BUFFER_SIZE [] [] list monitor_info

/-- Function `ovr_hidraw_poll` (lines 327-337): the returned event mask. -/
def ovr_hidraw_poll (exist : Bool) (list : hidraw_list) : Nat :=
  if list.head ≠ list.tail then POLLIN ||| POLLRDNORM
  else if !exist then POLLERR ||| POLLHUP
  else 0

/-! ## Devices, files and the global state -/

/-- Report type `HID_OUTPUT_REPORT` (linux/hid.h). -/
def HID_OUTPUT_REPORT : Nat := 1

/-- Report type `HID_FEATURE_REPORT` (linux/hid.h). -/
def HID_FEATURE_REPORT : Nat := 2

/-- The transport, `struct hid_device`, as far as this driver uses it: the two
optional raw-report operations (`none` is a `NULL` function pointer), the size
of the report descriptor and the lengths of the name and phys strings.
`hid_output_raw_report buf count report_type` yields the return value;
`hid_get_raw_report report_number count report_type` yields the return value
and the bytes written to the kernel buffer. -/
structure hid_device where
  hid_output_raw_report : Option (List Nat → Nat → Nat → Int)
  hid_get_raw_report : Option (Nat → Nat → Nat → Int × List Nat)
  rsize : Nat
  name_len : Nat
  phys_len : Nat

/-- One device, `struct hidraw`: `minor`, `exist`, the counter `open` (named
`open_count` here, `open` being reserved), the session list (addresses of the
`hidraw_list` nodes, in list order) and the transport `hid`.  The C `int open`
counts open files, far fewer than 2^31, and is modelled without wrap-around. -/
structure hidraw where
  minor : Nat
  exist : Bool
  open_count : Int
  list : List Nat
  hid : hid_device

/-- An open `struct file` of the character device: the minor of its inode and
its `private_data`.  A file and its `hidraw_list` share one address. -/
structure file where
  minor : Nat
  private_data : hidraw_list

/-- The driver's global state: the table `ovr_hidraw_table`, the heap of
`struct hidraw` objects, the open files, the monitor variables, and the value
of the `static char ovr_serial_len`. -/
structure ovr_state where
  ovr_hidraw_table : Nat → Option Nat
  hidraws : Nat → Option hidraw
  files : Nat → Option file
  opens : Int
  ovr_minor : Nat
  monitor_info : Nat → Nat → Nat
  ovr_serial_len : Int

/-- State after module load: empty table, no object allocated, `opens = 0`,
`ovr_minor = 0`, `monitor_info` zeroed. -/
def ovr_init : ovr_state :=
  { ovr_hidraw_table := fun _ => none, hidraws := fun _ => none, files := fun _ => none,
    opens := 0, ovr_minor := 0, monitor_info := fun _ _ => 0, ovr_serial_len := 0 }

/-! ## `ovr_report_event` -/

/-- The `list_for_each_entry` loop of `ovr_report_event` over the node addresses
of `dev->list`; `kmemdup_fails i` says whether the copy attempted for the
`i`-th node of the list fails.  A node that is not allocated ends in `none`. -/
def ovr_report_event_loop (kmemdup_fails : Nat → Bool) (data : List Nat) :
    Nat → List Nat → (Nat → Option file) → Option (Int × (Nat → Option file))
  | _, [], files => some (0, files)
  | i, f :: rest, files =>
    match files f with
    | none => none
    | some fl =>
      match ovr_report_event_node (kmemdup_fails i) data fl.private_data with
      | (l, node_step.nomem) =>
        some (-ENOMEM, Function.update files f (some { fl with private_data := l }))
      | (l, _) =>
        ovr_report_event_loop kmemdup_fails data (i + 1) rest
          (Function.update files f (some { fl with private_data := l }))

/-- Function `ovr_report_event(hid, data, len)` with `dev = hid->hidovr`: fan-out of one
report into the ring of every session of `dev`; returns `ret`. -/
def ovr_report_event (st : ovr_state) (dev : Nat) (data : List Nat)
    (kmemdup_fails : Nat → Bool) : Option (Int × ovr_state) :=
  match st.hidraws dev with
  | none => none
  | some d =>
    match ovr_report_event_loop kmemdup_fails data 0 d.list st.files with
    | none => none
    | some (ret, files) => some (ret, { st with files := files })

/-! ## `ovr_connect`, `ovr_disconnect` -/

/-- First free slot of the table: the scan `for (minor = 0; minor <
OVR_HIDRAW_MAX_DEVICES; minor++)` of `ovr_connect`. -/
def first_free_minor (table : Nat → Option Nat) : Option Nat :=
  (List.range OVR_HIDRAW_MAX_DEVICES).find? (fun m => (table m).isNone)

/-- Function `ovr_connect(hid)`.  `kzalloc` is the address returned for the new `struct
hidraw` (`none`: allocation failure); `device_create_err` is `some e` when
`device_create` fails with `PTR_ERR` `e`. -/
def ovr_connect (st : ovr_state) (hid : hid_device) (kzalloc : Option Nat)
    (device_create_err : Option Int) : Int × ovr_state :=
  match kzalloc with
  | none => (-ENOMEM, st)
  | some dev =>
    match first_free_minor st.ovr_hidraw_table with
    | none => (-EINVAL, st)
    | some minor =>
      match device_create_err with
      | some e => (e, st)
      | none =>
        (0, { st with
                ovr_hidraw_table := Function.update st.ovr_hidraw_table minor (some dev),
                hidraws := Function.update st.hidraws dev
                  (some { minor := minor, exist := true, open_count := 0, list := [], hid := hid }),
                monitor_info := fun i j =>
                  if i < MONITOR_MAX ∧ j = 0 then 0 else st.monitor_info i j,
                opens := 0,
                ovr_minor := minor })

/-- Function `ovr_disconnect(hid)` with `hidraw = hid->hidovr`. -/
def ovr_disconnect (st : ovr_state) (hidraw : Nat) : Option ovr_state :=
  match st.hidraws hidraw with
  | none => none
  | some d =>
    let opens := if d.minor = st.ovr_minor then 0 else st.opens
    let ovr_minor := if d.minor = st.ovr_minor then MINOR_NONE else st.ovr_minor
    if d.open_count ≠ 0 then
      some { st with opens := opens, ovr_minor := ovr_minor,
                     hidraws := Function.update st.hidraws hidraw (some { d with exist := false }) }
    else if d.minor < OVR_HIDRAW_MAX_DEVICES then
      some { st with opens := opens, ovr_minor := ovr_minor,
                     ovr_hidraw_table := Function.update st.ovr_hidraw_table d.minor none,
                     hidraws := Function.update st.hidraws hidraw none }
    else none

/-! ## `ovr_hidraw_open`, `ovr_hidraw_release` -/

/-- Function `ovr_hidraw_open(inode, file)` with `minor = iminor(inode)`; `f` is the
address of the `struct file`, `kzalloc_fails` the outcome of allocating the
`hidraw_list`, `jiffies` and `pid` the clock and `current->pid`. -/
def ovr_hidraw_open (st : ovr_state) (minor f : Nat) (kzalloc_fails : Bool)
    (jiffies pid : Nat) : Option (Int × ovr_state) :=
  if kzalloc_fails then some (-ENOMEM, st)
  else if ¬ minor < OVR_HIDRAW_MAX_DEVICES then none
  else
    match st.ovr_hidraw_table minor with
    | none => some (-ENODEV, st)
    | some p =>
      match st.hidraws p with
      | none => none
      | some d =>
        let d1 : hidraw := { d with list := d.list ++ [f], open_count := d.open_count + 1 }
        some (0, { st with
          hidraws := Function.update st.hidraws p (some d1),
          files := Function.update st.files f
            (some { minor := minor, private_data := hidraw_list_zero p }),
          monitor_info :=
            if minor = st.ovr_minor then monitor_note_open st.monitor_info f jiffies pid
            else st.monitor_info,
          opens := if minor = st.ovr_minor then d1.open_count else st.opens })

/-- Function `ovr_hidraw_release(inode, file)`; `f` is the address of the `struct file`,
whose inode minor and `private_data` are looked up in the state. -/
def ovr_hidraw_release (st : ovr_state) (f : Nat) : Option (Int × ovr_state) :=
  match st.files f with
  | none => none
  | some fl =>
    let minor := fl.minor
    let list := fl.private_data
    if ¬ minor < OVR_HIDRAW_MAX_DEVICES then none
    else
      match st.ovr_hidraw_table minor with
      | none => some (-ENODEV, st)
      | some p =>
        -- list_del(&list->node): the node sits in the list of `list->hidraw`
        match st.hidraws list.hidraw with
        | none => none
        | some dl =>
          let h1 := Function.update st.hidraws list.hidraw
            (some { dl with list := dl.list.erase f })
          -- dev = ovr_hidraw_table[minor]; --dev->open;
          match h1 p with
          | none => none
          | some d =>
            let d1 : hidraw := { d with open_count := d.open_count - 1 }
            let h2 := Function.update h1 p (some d1)
            let mi :=
              if minor = st.ovr_minor then monitor_note_release st.monitor_info f
              else st.monitor_info
            let opens := if minor = st.ovr_minor then d1.open_count else st.opens
            match h2 list.hidraw with
            | none => none
            | some dl2 =>
              if d1.open_count = 0 ∧ dl2.exist = false then
                some (0, { st with ovr_hidraw_table := Function.update st.ovr_hidraw_table minor none,
                                   hidraws := Function.update h2 list.hidraw none,
                                   files := Function.update st.files f none,
                                   monitor_info := mi, opens := opens })
              else
                some (0, { st with hidraws := h2,
                                   files := Function.update st.files f none,
                                   monitor_info := mi, opens := opens })

/-! ## Read and poll on an open file of the global state -/

/-- Function `ovr_hidraw_read(file, ...)` on the global state: `list = file->private_data`
and `list->hidraw` are looked up in the heaps, the result is written back. -/
def ovr_hidraw_read_file (st : ovr_state) (ctx : read_ctx) : Option (read_result × ovr_state) :=
  match st.files ctx.file with
  | none => none
  | some fl =>
    match st.hidraws fl.private_data.hidraw with
    | none => none
    | some d =>
      let r := ovr_hidraw_read ctx d.exist st.opens fl.private_data st.monitor_info
      some (r, { st with files := Function.update st.files ctx.file
                           (some { fl with private_data := r.list }),
                         monitor_info := r.monitor_info })

/-- Function `ovr_hidraw_poll(file, wait)` on the global state. -/
def ovr_hidraw_poll_file (st : ovr_state) (f : Nat) : Option Nat :=
  match st.files f with
  | none => none
  | some fl =>
    match st.hidraws fl.private_data.hidraw with
    | none => none
    | some d => some (ovr_hidraw_poll d.exist fl.private_data)

/-! ## Control requests -/

/-- One invocation of an operation of the transport. -/
inductive transport_call where
  | output_raw_report (buf : List Nat) (count report_type : Nat)
  | get_raw_report (report_number count report_type : Nat)
deriving DecidableEq, Repr

/-- What the caller of a control request brings along: the bytes at the user
pointer, the value fetched by `get_user`, and which of `kmalloc`,
`copy_from_user`, `copy_to_user` / `put_user` fail. -/
structure ctl_ctx where
  ubuf : List Nat
  get_user : Option Nat
  kmalloc_fails : Bool
  copy_from_user_fails : Bool
  copy_to_user_fails : Bool

/-- Return value of a control request, the transport operations it invoked, in
order, and the bytes copied to the user buffer. -/
structure ctl_result where
  ret : Int
  calls : List transport_call
  out : List Nat
deriving DecidableEq, Repr

/-- A control request that ends with `ret` without touching the transport. -/
def ctl_fail (ret : Int) : ctl_result := { ret := ret, calls := [], out := [] }

/-- Function `ovr_hidraw_send_report(file, buffer, count, report_type)` (lines 153-202).
`HID_MAX_BUFFER_SIZE` (linux/hid.h) is a parameter. -/
def ovr_hidraw_send_report (HID_MAX_BUFFER_SIZE : Nat) (st : ovr_state) (f : Nat)
    (ctx : ctl_ctx) (count report_type : Nat) : Option ctl_result :=
  match st.files f with
  | none => none
  | some fl =>
    if ¬ fl.minor < OVR_HIDRAW_MAX_DEVICES then none
    else
      match st.ovr_hidraw_table fl.minor with
      | none => some (ctl_fail (-ENODEV))
      | some p =>
        match st.hidraws p with
        | none => none
        | some d =>
          match d.hid.hid_output_raw_report with
          | none => some (ctl_fail (-ENODEV))
          | some output =>
            if count > HID_MAX_BUFFER_SIZE then some (ctl_fail (-EINVAL))
            else if count < 2 then some (ctl_fail (-EINVAL))
            else if ctx.kmalloc_fails then some (ctl_fail (-ENOMEM))
            else if ctx.copy_from_user_fails then some (ctl_fail (-EFAULT))
            else
              some { ret := output (ctx.ubuf.take count) count report_type,
                     calls := [transport_call.output_raw_report (ctx.ubuf.take count) count
                                report_type],
                     out := [] }

/-- Function `ovr_hidraw_write(file, buffer, count, ppos)` (lines 205-212). -/
def ovr_hidraw_write (HID_MAX_BUFFER_SIZE : Nat) (st : ovr_state) (f : Nat)
    (ctx : ctl_ctx) (count : Nat) : Option ctl_result :=
  ovr_hidraw_send_report HID_MAX_BUFFER_SIZE st f ctx count HID_OUTPUT_REPORT

/-- Function `ovr_hidraw_get_report(file, buffer, count, report_type)` (lines 265-325);
the table entry is dereferenced without a `NULL` test. -/
def ovr_hidraw_get_report (HID_MAX_BUFFER_SIZE : Nat) (st : ovr_state) (f : Nat)
    (ctx : ctl_ctx) (count report_type : Nat) : Option ctl_result :=
  match st.files f with
  | none => none
  | some fl =>
    if ¬ fl.minor < OVR_HIDRAW_MAX_DEVICES then none
    else
      match st.ovr_hidraw_table fl.minor with
      | none => none
      | some p =>
        match st.hidraws p with
        | none => none
        | some d =>
          match d.hid.hid_get_raw_report with
          | none => some (ctl_fail (-ENODEV))
          | some get =>
            if count > HID_MAX_BUFFER_SIZE then some (ctl_fail (-EINVAL))
            else if count < 2 then some (ctl_fail (-EINVAL))
            else if ctx.kmalloc_fails then some (ctl_fail (-ENOMEM))
            else if ctx.copy_from_user_fails then some (ctl_fail (-EFAULT))
            else
              let report_number := ctx.ubuf.headD 0
              let r := get report_number count report_type
              let call := transport_call.get_raw_report report_number count report_type
              if r.1 < 0 then some { ret := r.1, calls := [call], out := [] }
              else
                let len := if r.1 < Int.ofNat count then r.1.toNat else count
                if ctx.copy_to_user_fails then some { ret := -EFAULT, calls := [call], out := [] }
                else some { ret := Int.ofNat len, calls := [call], out := r.2.take len }

/-- An ioctl command word, decoded by `_IOC_DIR`, `_IOC_TYPE`, `_IOC_NR` and
`_IOC_SIZE` (asm-generic/ioctl.h). -/
structure ioctl_cmd where
  dir : Nat
  type : Nat
  nr : Nat
  size : Nat
deriving DecidableEq, Repr

/-- Direction `_IOC_READ`. -/
def IOC_READ : Nat := 2

/-- Command `HIDIOCGRDESCSIZE`, `_IOR('H', 0x01, int)`. -/
def HIDIOCGRDESCSIZE : ioctl_cmd := { dir := IOC_READ, type := 72, nr := 1, size := 4 }

/-- Command `HIDIOCGRDESC`, `_IOR('H', 0x02, struct hidraw_report_descriptor)`. -/
def HIDIOCGRDESC (HID_MAX_DESCRIPTOR_SIZE : Nat) : ioctl_cmd :=
  { dir := IOC_READ, type := 72, nr := 2, size := 4 + HID_MAX_DESCRIPTOR_SIZE }

/-- Command `HIDIOCGRAWINFO`, `_IOR('H', 0x03, struct hidraw_devinfo)`. -/
def HIDIOCGRAWINFO : ioctl_cmd := { dir := IOC_READ, type := 72, nr := 3, size := 8 }

/-- Function `ovr_hidraw_ioctl(file, cmd, arg)` (lines 797-903): return value and the
transport operations invoked.  `HID_MAX_BUFFER_SIZE` and
`HID_MAX_DESCRIPTOR_SIZE` (linux/hid.h) are parameters. -/
def ovr_hidraw_ioctl (HID_MAX_BUFFER_SIZE HID_MAX_DESCRIPTOR_SIZE : Nat) (st : ovr_state)
    (f : Nat) (cmd : ioctl_cmd) (ctx : ctl_ctx) : Option ctl_result :=
  match st.files f with
  | none => none
  | some fl =>
    if ¬ fl.minor < OVR_HIDRAW_MAX_DEVICES then none
    else
      match st.ovr_hidraw_table fl.minor with
      | none => some (ctl_fail (-ENODEV))
      | some p =>
        match st.hidraws p with
        | none => none
        | some dev =>
          if !dev.exist then some (ctl_fail (-ENODEV))
          else if cmd = HIDIOCGRDESCSIZE then
            some (ctl_fail (if ctx.copy_to_user_fails then -EFAULT else 0))
          else if cmd = HIDIOCGRDESC HID_MAX_DESCRIPTOR_SIZE then
            match ctx.get_user with
            | none => some (ctl_fail (-EFAULT))
            | some len =>
              if len > HID_MAX_DESCRIPTOR_SIZE - 1 then some (ctl_fail (-EINVAL))
              else some (ctl_fail (if ctx.copy_to_user_fails then -EFAULT else 0))
          else if cmd = HIDIOCGRAWINFO then
            some (ctl_fail (if ctx.copy_to_user_fails then -EFAULT else 0))
          else if cmd.type ≠ 72 then
            if cmd.type = 83 ∧ cmd.nr = 7 ∧ st.ovr_serial_len > 0 then
              some (ctl_fail (if ctx.copy_to_user_fails then -EFAULT else st.ovr_serial_len))
            else some (ctl_fail (-EINVAL))
          else if cmd.nr = 6 then
            ovr_hidraw_send_report HID_MAX_BUFFER_SIZE st f ctx cmd.size HID_FEATURE_REPORT
          else if cmd.nr = 7 then
            ovr_hidraw_get_report HID_MAX_BUFFER_SIZE st f ctx cmd.size HID_FEATURE_REPORT
          else if cmd.dir ≠ IOC_READ then some (ctl_fail (-EINVAL))
          else if cmd.nr = 4 then
            some (ctl_fail (if ctx.copy_to_user_fails then -EFAULT
                            else Int.ofNat (min (dev.hid.name_len + 1) cmd.size)))
          else if cmd.nr = 5 then
            some (ctl_fail (if ctx.copy_to_user_fails then -EFAULT
                            else Int.ofNat (min (dev.hid.phys_len + 1) cmd.size)))
          else some (ctl_fail (-ENOTTY))

/-! ## The ring seen as a queue -/

/-- Number of queued reports: the distance from `tail` to `head` around the ring. -/
def ring_count (l : hidraw_list) : Nat :=
  (l.head + OVR_HIDRAW_BUFFER_SIZE - l.tail) % OVR_HIDRAW_BUFFER_SIZE

/-- The queued payloads, oldest first: the slots from `tail` up to `head`. -/
def ring_events (l : hidraw_list) : List (List Nat) :=
  (List.range (ring_count l)).map
    (fun k => ((l.buffer ((l.tail + k) % OVR_HIDRAW_BUFFER_SIZE)).value).getD [])

/-- Well-formed ring: both indices are array indices and every queued slot holds
a copy together with its length. -/
def ring_wf (l : hidraw_list) : Prop :=
  l.head < OVR_HIDRAW_BUFFER_SIZE ∧ l.tail < OVR_HIDRAW_BUFFER_SIZE ∧
  ∀ k, k < ring_count l →
    ∃ v, l.buffer ((l.tail + k) % OVR_HIDRAW_BUFFER_SIZE) = { value := some v, len := v.length }

/-- The effect of one pass of the loop body of `ovr_report_event` on the file
that owns the session. -/
def file_deliver (kmemdup_fails : Bool) (data : List Nat) (fl : file) : file :=
  { fl with private_data := (ovr_report_event_node kmemdup_fails data fl.private_data).1 }

/-! ## Operations as a transition system -/

/-- The value a `size_t` takes when it is stored in a plain `char` (8 bits):
`n mod 256` where `char` is unsigned, as on arm64, and the value of the same
bit pattern in two's complement where it is signed. -/
def char_of_size_t (char_signed : Bool) (n : Nat) : Int :=
  if char_signed then Int.ofNat ((n + 128) % 256) - 128 else Int.ofNat (n % 256)

/-- The operations the environment can invoke, with the inputs and the outcomes
of the allocations involved.  `op_serial` is the assignment `ovr_serial_len =
strnlen(udev->serial, OVR_HIDRAW_MAX_SERIAL)` of the probe function to the
`static char ovr_serial_len`, for a serial string of `serial_len` characters;
`char_signed` is the signedness of plain `char` of the compiler. -/
inductive ovr_op where
  | op_serial (serial_len : Nat) (char_signed : Bool)
  | op_connect (hid : hid_device) (kzalloc : Option Nat) (device_create_err : Option Int)
  | op_disconnect (hidraw : Nat)
  | op_open (minor f : Nat) (kzalloc_fails : Bool) (jiffies pid : Nat)
  | op_release (f : Nat)
  | op_report_event (dev : Nat) (data : List Nat) (kmemdup_fails : Nat → Bool)
  | op_read (ctx : read_ctx)

/-- What the kernel guarantees when it invokes an operation: `kzalloc` returns
an address not in use; `ovr_disconnect` and `ovr_report_event` get the device of
a bound HID device (connected, not yet disconnected); `open` gets a minor of the
registered region and a `struct file` not yet open (a non-`NULL` address);
`release` and `read` get an open file. -/
def ovr_enabled : ovr_op → ovr_state → Prop
  | ovr_op.op_serial _ _, _ => True
  | ovr_op.op_connect _ kzalloc _, st => ∀ p, kzalloc = some p → st.hidraws p = none
  | ovr_op.op_disconnect hidraw, st => ∃ d, st.hidraws hidraw = some d ∧ d.exist = true
  | ovr_op.op_open minor f _ _ _, st =>
    minor < OVR_HIDRAW_MAX_DEVICES ∧ f ≠ 0 ∧ st.files f = none
  | ovr_op.op_release f, st => ∃ fl, st.files f = some fl
  | ovr_op.op_report_event dev _ _, st => ∃ d, st.hidraws dev = some d ∧ d.exist = true
  | ovr_op.op_read ctx, st => ∃ fl, st.files ctx.file = some fl

/-- The state after an operation; `none` when the C code would touch an object
that is not allocated. -/
def ovr_apply : ovr_op → ovr_state → Option ovr_state
  | ovr_op.op_serial serial_len char_signed, st =>
    some { st with ovr_serial_len :=
      char_of_size_t char_signed (min serial_len OVR_HIDRAW_MAX_SERIAL) }
  | ovr_op.op_connect hid kzalloc err, st => some (ovr_connect st hid kzalloc err).2
  | ovr_op.op_disconnect hidraw, st => ovr_disconnect st hidraw
  | ovr_op.op_open minor f kf jiffies pid, st =>
    (ovr_hidraw_open st minor f kf jiffies pid).map (fun r => r.2)
  | ovr_op.op_release f, st => (ovr_hidraw_release st f).map (fun r => r.2)
  | ovr_op.op_report_event dev data fails, st =>
    (ovr_report_event st dev data fails).map (fun r => r.2)
  | ovr_op.op_read ctx, st => (ovr_hidraw_read_file st ctx).map (fun r => r.2)

/-- States reachable from module load by operations the kernel can invoke. -/
inductive ovr_reachable : ovr_state → Prop where
  | init : ovr_reachable ovr_init
  | step (op : ovr_op) (st st1 : ovr_state) :
      ovr_reachable st → ovr_enabled op st → ovr_apply op st = some st1 → ovr_reachable st1

/-- The structural invariant of the device table, the device heap and the open
files. -/
structure ovr_inv (st : ovr_state) : Prop where
  table_dev : ∀ m p, st.ovr_hidraw_table m = some p →
    m < OVR_HIDRAW_MAX_DEVICES ∧ ∃ d, st.hidraws p = some d ∧ d.minor = m
  dev_table : ∀ p d, st.hidraws p = some d →
    st.ovr_hidraw_table d.minor = some p ∧ (d.exist = true ∨ 0 < d.open_count)
  dev_list : ∀ p d, st.hidraws p = some d →
    d.open_count = (d.list.length : Int) ∧ d.list.Nodup ∧
    ∀ f ∈ d.list, ∃ fl, st.files f = some fl ∧ fl.private_data.hidraw = p
  file_dev : ∀ f fl, st.files f = some fl →
    ring_wf fl.private_data ∧
    ∃ d, st.hidraws fl.private_data.hidraw = some d ∧ f ∈ d.list ∧ fl.minor = d.minor

/-! ## Sequences of deliveries and reads -/

/-- Deliver the reports `evs` to device `dev`, one call of `ovr_report_event`
each, no copy failing. -/
def deliver_all (dev : Nat) : List (List Nat) → ovr_state → Option ovr_state
  | [], st => some st
  | ev :: evs, st =>
    match ovr_report_event st dev ev (fun _ => false) with
    | none => none
    | some r => deliver_all dev evs r.2

/-- Run of `n` consecutive calls of `ovr_hidraw_read` by one caller: for each call the
way it ended and the bytes it copied out, and the final state. -/
def read_n (ctx : read_ctx) : Nat → ovr_state → Option (List (read_ret × List Nat) × ovr_state)
  | 0, st => some ([], st)
  | n + 1, st =>
    match ovr_hidraw_read_file st ctx with
    | none => none
    | some r =>
      match read_n ctx n r.2 with
      | none => none
      | some rs => some ((r.1.ret, r.1.out) :: rs.1, rs.2)

/-- What a read of `count` bytes that dequeues the report `e` hands to the
caller: the byte count and the bytes. -/
def read_of (count : Nat) (e : List Nat) : read_ret × List Nat :=
  (read_ret.ret (Int.ofNat (min e.length count)), e.take count)

/-! ## Concrete states used for evaluation -/

/-- A transport with both raw-report operations: sending returns `count`,
getting returns `count` and `count` zero bytes. -/
def hid_echo : hid_device :=
  { hid_output_raw_report := some (fun _ count _ => Int.ofNat count),
    hid_get_raw_report := some (fun _ count _ => (Int.ofNat count, List.replicate count 0)),
    rsize := 0, name_len := 0, phys_len := 0 }

/-- One device, at address 1, attached right after module load; it takes minor 0. -/
def st_attached : ovr_state := (ovr_connect ovr_init hid_echo (some 1) none).2

/-- The state `st_attached` after file 7 opened minor 0. -/
def st_opened : ovr_state :=
  ((ovr_hidraw_open st_attached 0 7 false 0 0).map (fun r => r.2)).getD st_attached

/-- The state `st_opened` after file 8 opened minor 0 as well. -/
def st_two : ovr_state :=
  ((ovr_hidraw_open st_opened 0 8 false 0 0).map (fun r => r.2)).getD st_opened

/-- The state `st_opened` after the device was disconnected: the device stays
in slot 0 with `exist = 0` because file 7 is still open. -/
def st_detached : ovr_state := (ovr_disconnect st_opened 1).getD st_opened

/-- A non-blocking reader, file 7, asking for 8 bytes; no signal, no fault. -/
def ctx_nonblock : read_ctx :=
  { count := 8, nonblock := true, signal_pending := false, copy_to_user_fails := false,
    file := 7, jiffies := 0 }

/-- The 65 one-byte reports `[1], [2], ..., [65]`. -/
def events65 : List (List Nat) := (List.range 65).map (fun i => [i + 1])

/-- The state `st_opened` after the reports `[1,2,3]` and `[4,5]` were delivered. -/
def st_queued : ovr_state := (deliver_all 1 [[1, 2, 3], [4, 5]] st_opened).getD st_opened

/-- A caller of a control request with two bytes `9, 9` at the user pointer and
no failing allocation or copy. -/
def ctl_ok : ctl_ctx :=
  { ubuf := [9, 9], get_user := some 0, kmalloc_fails := false, copy_from_user_fails := false,
    copy_to_user_fails := false }

/-- The reader `ctx_nonblock` asking for zero bytes. -/
def ctx_zero_count : read_ctx :=
  { count := 0, nonblock := true, signal_pending := false, copy_to_user_fails := false,
    file := 7, jiffies := 0 }

/-- When operation `op`, applied in state `st`, frees the device at address `p`:
a disconnect of `p` that finds `open == 0`, or the release of a session of `p`
that brings `open` to 0 while `exist == 0`. -/
def op_frees (op : ovr_op) (st : ovr_state) (p : Nat) : Prop :=
  match op with
  | ovr_op.op_disconnect q => q = p ∧ ∃ d, st.hidraws p = some d ∧ d.open_count = 0
  | ovr_op.op_release f =>
    ∃ fl d, st.files f = some fl ∧ fl.private_data.hidraw = p ∧ st.hidraws p = some d ∧
      d.open_count - 1 = 0 ∧ d.exist = false
  | _ => False

/-! ## The history of one session under deliveries and reads -/

/-- Deliveries and reads, the operations that touch rings only. -/
def op_is_io : ovr_op → Prop
  | ovr_op.op_report_event _ _ _ => True
  | ovr_op.op_read _ => True
  | _ => False

/-- The reports accepted into the ring of file `f` by `op`, which led from `st`
to `st1`: the report of a delivery that advanced `head` of that ring. -/
def op_accepted (f : Nat) (op : ovr_op) (st st1 : ovr_state) : List (List Nat) :=
  match op, st.files f, st1.files f with
  | ovr_op.op_report_event _ data _, some fl, some fl1 =>
    if fl1.private_data.head = fl.private_data.head then [] else [data]
  | _, _, _ => []

/-- The reports removed from the ring of file `f` by `op` in state `st`: the
copies freed by a read of `f`, in the order of the `kfree` calls. -/
def op_removed (f : Nat) (op : ovr_op) (st : ovr_state) : List (List Nat) :=
  match op with
  | ovr_op.op_read ctx =>
    if ctx.file = f then
      match ovr_hidraw_read_file st ctx with
      | some r => r.1.freed.filterMap id
      | none => []
    else []
  | _ => []

/-- Run the operations `ops` from `st`, recording for file `f` the reports
accepted and the reports removed, in order, and the final state. -/
def run_session (f : Nat) :
    List ovr_op → ovr_state → Option (List (List Nat) × List (List Nat) × ovr_state)
  | [], st => some ([], [], st)
  | op :: ops, st =>
    match ovr_apply op st with
    | none => none
    | some st1 =>
      match run_session f ops st1 with
      | none => none
      | some r => some (op_accepted f op st st1 ++ r.1, op_removed f op st ++ r.2.1, r.2.2)

/-- Every operation of `ops` is a delivery or a read and is enabled in the state
in which it is invoked. -/
def ops_enabled : List ovr_op → ovr_state → Prop
  | [], _ => True
  | op :: ops, st =>
    op_is_io op ∧ ovr_enabled op st ∧ ∀ st1, ovr_apply op st = some st1 → ops_enabled ops st1

/-- The state `st_queued` after one more report, `[6]`, was delivered. -/
def st_queued3 : ovr_state :=
  (ovr_apply (ovr_op.op_report_event 1 [6] (fun _ => false)) st_queued).getD st_queued

/-- The state `st_queued3` after file 7 read once without blocking. -/
def st_queued3_read : ovr_state :=
  (ovr_apply (ovr_op.op_read ctx_nonblock) st_queued3).getD st_queued3

/-- A blocking reader, file 7, asking for 8 bytes; no signal, no fault. -/
def ctx_blocking : read_ctx :=
  { count := 8, nonblock := false, signal_pending := false, copy_to_user_fails := false,
    file := 7, jiffies := 0 }

/-- The reader `ctx_blocking` asking for zero bytes. -/
def ctx_blocking_zero : read_ctx :=
  { count := 0, nonblock := false, signal_pending := false, copy_to_user_fails := false,
    file := 7, jiffies := 0 }

/-! ## The lock `list_lock` as explicit state -/

/-- The spin lock `list_lock`: whether it is held, how often it was acquired
and released, and how many of the releases were made while it was not held. -/
structure spinlock where
  held : Bool
  acquired : Nat
  released : Nat
  bad_release : Nat
deriving DecidableEq, Repr

/-- The lock, free and never used. -/
def list_lock_free : spinlock := { held := false, acquired := 0, released := 0, bad_release := 0 }

/-- Effect of `spin_lock_irqsave(&list_lock, flags)` on the lock. -/
def spin_lock_irqsave (lk : spinlock) : spinlock :=
  { lk with held := true, acquired := lk.acquired + 1 }

/-- Effect of `spin_unlock_irqrestore(&list_lock, flags)` on the lock. -/
def spin_unlock_irqrestore (lk : spinlock) : spinlock :=
  { held := false, acquired := lk.acquired, released := lk.released + 1,
    bad_release := if lk.held then lk.bad_release else lk.bad_release + 1 }

/-- The loop of `ovr_report_event` with the lock threaded through: the branch
taken when `kmemdup` fails (lines 477-481) releases the lock before `break`. -/
def ovr_report_event_loop_locked (kmemdup_fails : Nat → Bool) (data : List Nat) :
    Nat → List Nat → (Nat → Option file) → spinlock →
      Option (Int × (Nat → Option file) × spinlock)
  | _, [], files, lk => some (0, files, lk)
  | i, f :: rest, files, lk =>
    match files f with
    | none => none
    | some fl =>
      match ovr_report_event_node (kmemdup_fails i) data fl.private_data with
      | (l, node_step.nomem) =>
        some (-ENOMEM, Function.update files f (some { fl with private_data := l }),
          spin_unlock_irqrestore lk)
      | (l, _) =>
        ovr_report_event_loop_locked kmemdup_fails data (i + 1) rest
          (Function.update files f (some { fl with private_data := l })) lk

/-- Function `ovr_report_event` with the lock threaded through: acquired at
line 470, released after the loop at line 487. -/
def ovr_report_event_locked (st : ovr_state) (dev : Nat) (data : List Nat)
    (kmemdup_fails : Nat → Bool) (lk : spinlock) : Option (Int × ovr_state × spinlock) :=
  match st.hidraws dev with
  | none => none
  | some d =>
    match ovr_report_event_loop_locked kmemdup_fails data 0 d.list st.files
        (spin_lock_irqsave lk) with
    | none => none
    | some r => some (r.1, { st with files := r.2.1 }, spin_unlock_irqrestore r.2.2)

/-! ## `ovr_monitor_work` -/

/-- What one run of `ovr_monitor_work` leaves: the state, the transport
operations invoked, and whether the work was queued again. -/
structure monitor_result where
  st : ovr_state
  calls : List transport_call
  rescheduled : Bool

/-- Function `ovr_monitor_work(work)` (lines 214-257); `kmalloc_fails` is the
outcome of allocating the 24-byte report buffer.  The test `ovr_minor >= 0` on
an `unsigned int` always holds; the table is indexed with `ovr_minor` as soon as
`opens > 0`, and an index outside the array ends in `none`.  The counters
`isr_count` and `last_isr`, which are only printed, are left out. -/
def ovr_monitor_work (st : ovr_state) (kmalloc_fails : Bool) : Option monitor_result :=
  if st.opens > 0 then
    if ¬ st.ovr_minor < OVR_HIDRAW_MAX_DEVICES then none
    else
      match st.ovr_hidraw_table st.ovr_minor with
      | none => some { st := st, calls := [], rescheduled := false }
      | some p =>
        match st.hidraws p with
        | none => none
        | some d =>
          if d.exist then
            some { st := { st with
                     monitor_info := fun i j =>
                       if i < MONITOR_MAX ∧ j = 1 ∧ st.monitor_info i 0 ≠ 0 then 0
                       else st.monitor_info i j },
                   calls :=
                     match d.hid.hid_get_raw_report with
                     | some _ =>
                       if kmalloc_fails then []
                       else [transport_call.get_raw_report 49 24 HID_FEATURE_REPORT]
                     | none => [],
                   rescheduled := true }
          else some { st := st, calls := [], rescheduled := false }
  else some { st := st, calls := [], rescheduled := false }

/-- The invariant of the monitor variables: no open file has address 0; while
`opens > 0` the primary slot `ovr_minor` is a table index whose device has
`open == opens`; and while `ovr_minor` is not the value stored by
`ovr_disconnect`, every non-zero entry of column 0 of `monitor_info` is an open
file of the primary slot and occurs in one row only. -/
structure mon_inv (st : ovr_state) : Prop where
  files_nonnull : st.files 0 = none
  opens_dev : 0 < st.opens →
    st.ovr_minor < OVR_HIDRAW_MAX_DEVICES ∧
    ∃ p d, st.ovr_hidraw_table st.ovr_minor = some p ∧ st.hidraws p = some d ∧
      d.open_count = st.opens
  rows_open : st.ovr_minor ≠ MINOR_NONE → ∀ i, i < MONITOR_MAX → st.monitor_info i 0 ≠ 0 →
    ∃ fl, st.files (st.monitor_info i 0) = some fl ∧ fl.minor = st.ovr_minor
  rows_unique : st.ovr_minor ≠ MINOR_NONE → ∀ i j, i < MONITOR_MAX → j < MONITOR_MAX →
    st.monitor_info i 0 = st.monitor_info j 0 → st.monitor_info i 0 ≠ 0 → i = j

/-! # Lemmas and theorems -/

/-! ## Ring arithmetic -/

theorem ring_next_eq (i : Nat) : ring_next i = (i + 1) % 64 := by
  unfold ring_next OVR_HIDRAW_BUFFER_SIZE
  exact Nat.and_pow_two_sub_one_eq_mod (i+1) 6

theorem ring_full_iff (l : hidraw_list) (hh : l.head < 64) (ht : l.tail < 64) :
    ring_next l.head = l.tail ↔ ring_count l = 63 := by
  rw [ring_next_eq]; unfold ring_count OVR_HIDRAW_BUFFER_SIZE; omega

theorem ring_empty_iff (l : hidraw_list) (hh : l.head < 64) (ht : l.tail < 64) :
    l.head = l.tail ↔ ring_count l = 0 := by
  unfold ring_count OVR_HIDRAW_BUFFER_SIZE; omega

theorem node_full (b : Bool) (data : List Nat) (l : hidraw_list)
    (h : ring_next l.head = l.tail) :
    ovr_report_event_node b data l = (l, node_step.full) := by
  simp [ovr_report_event_node, h]

theorem node_stored_eq (data : List Nat) (l : hidraw_list)
    (hnf : ring_next l.head ≠ l.tail) :
    ovr_report_event_node false data l =
      ({ l with buffer := buffer_set l.buffer l.head { value := some data, len := data.length },
                head := (l.head + 1) % 64 }, node_step.stored) := by
  rw [ring_next_eq] at hnf
  simp [ovr_report_event_node, hnf, ring_next_eq]

theorem node_stored (data : List Nat) (l : hidraw_list) (hw : ring_wf l)
    (hnf : ring_next l.head ≠ l.tail) :
    (ovr_report_event_node false data l).2 = node_step.stored ∧
    ring_wf (ovr_report_event_node false data l).1 ∧
    ring_events (ovr_report_event_node false data l).1 = ring_events l ++ [data] ∧
    (ovr_report_event_node false data l).1.tail = l.tail ∧
    (ovr_report_event_node false data l).1.hidraw = l.hidraw := by
  obtain ⟨hh, ht, hq⟩ := hw
  simp only [OVR_HIDRAW_BUFFER_SIZE] at hh ht hq
  have hc : ring_count l ≠ 63 := fun h => hnf ((ring_full_iff l hh ht).2 h)
  rw [node_stored_eq data l hnf]
  simp only [ring_count, OVR_HIDRAW_BUFFER_SIZE] at hc hq
  have hcnt : ring_count { l with
        buffer := (buffer_set l.buffer l.head { value := some data, len := data.length }),
        head := (l.head + 1) % 64 } = ring_count l + 1 := by
    simp only [ring_count, OVR_HIDRAW_BUFFER_SIZE]; omega
  have hbuf : ∀ k, k < ring_count l →
      buffer_set l.buffer l.head { value := some data, len := data.length } ((l.tail + k) % 64) =
        l.buffer ((l.tail + k) % 64) := by
    intro k hk
    simp only [ring_count, OVR_HIDRAW_BUFFER_SIZE] at hk
    have : (l.tail + k) % 64 ≠ l.head := by omega
    simp [buffer_set, this]
  have hnew : buffer_set l.buffer l.head { value := some data, len := data.length }
      ((l.tail + ring_count l) % 64) = { value := some data, len := data.length } := by
    have : (l.tail + ring_count l) % 64 = l.head := by
      simp only [ring_count, OVR_HIDRAW_BUFFER_SIZE]; omega
    simp [buffer_set, this]
  refine ⟨rfl, ⟨?_, ?_, ?_⟩, ?_, rfl, rfl⟩
  · simp only [OVR_HIDRAW_BUFFER_SIZE]; omega
  · simpa [OVR_HIDRAW_BUFFER_SIZE] using ht
  · intro k hk
    rw [hcnt] at hk
    simp only [OVR_HIDRAW_BUFFER_SIZE]
    rcases Nat.lt_succ_iff_lt_or_eq.1 hk with h | h
    · rw [hbuf k h]
      exact hq k (by simpa [ring_count, OVR_HIDRAW_BUFFER_SIZE] using h)
    · subst h; exact ⟨data, hnew⟩
  · unfold ring_events
    rw [hcnt, List.range_succ, List.map_append]
    simp only [OVR_HIDRAW_BUFFER_SIZE, List.map_cons, List.map_nil]
    congr 1
    · apply List.map_congr_left
      intro k hk
      rw [hbuf k (List.mem_range.1 hk)]
    · rw [hnew]; rfl

theorem node_nomem (data : List Nat) (l : hidraw_list) (hw : ring_wf l)
    (hnf : ring_next l.head ≠ l.tail) :
    (ovr_report_event_node true data l).2 = node_step.nomem ∧
    ring_wf (ovr_report_event_node true data l).1 ∧
    ring_events (ovr_report_event_node true data l).1 = ring_events l ∧
    (ovr_report_event_node true data l).1.head = l.head ∧
    (ovr_report_event_node true data l).1.tail = l.tail ∧
    (ovr_report_event_node true data l).1.hidraw = l.hidraw := by
  obtain ⟨hh, ht, hq⟩ := hw
  simp only [OVR_HIDRAW_BUFFER_SIZE] at hh ht hq
  have hres : ovr_report_event_node true data l =
      ({ l with buffer := (buffer_set l.buffer l.head
            { value := none, len := (l.buffer l.head).len }) }, node_step.nomem) := by
    simp [ovr_report_event_node, hnf]
  rw [hres]
  have hbuf : ∀ k, k < ring_count l →
      buffer_set l.buffer l.head { value := none, len := (l.buffer l.head).len }
        ((l.tail + k) % 64) = l.buffer ((l.tail + k) % 64) := by
    intro k hk
    simp only [ring_count, OVR_HIDRAW_BUFFER_SIZE] at hk
    have : (l.tail + k) % 64 ≠ l.head := by omega
    simp [buffer_set, this]
  refine ⟨rfl, ⟨hh, ht, ?_⟩, ?_, rfl, rfl, rfl⟩
  · intro k hk
    have hk' : k < ring_count l := hk
    simp only [OVR_HIDRAW_BUFFER_SIZE]
    rw [hbuf k hk']; exact hq k hk'
  · unfold ring_events
    have : ring_count { l with buffer := (buffer_set l.buffer l.head
            { value := none, len := (l.buffer l.head).len }) } = ring_count l := rfl
    rw [this]
    apply List.map_congr_left
    intro k hk
    simp only [OVR_HIDRAW_BUFFER_SIZE]
    rw [hbuf k (List.mem_range.1 hk)]

theorem ring_pop_spec (l : hidraw_list) (hw : ring_wf l) (hne : l.head ≠ l.tail) :
    ∃ v, l.buffer l.tail = { value := some v, len := v.length } ∧
      ring_events l = v :: ring_events (ring_pop l) ∧
      ring_wf (ring_pop l) ∧
      ring_count (ring_pop l) + 1 = ring_count l ∧
      (ring_pop l).head = l.head ∧ (ring_pop l).tail = (l.tail + 1) % 64 ∧
      (ring_pop l).hidraw = l.hidraw := by
  obtain ⟨hh, ht, hq⟩ := hw
  simp only [OVR_HIDRAW_BUFFER_SIZE] at hh ht hq
  have hc0 : ring_count l ≠ 0 := fun h => hne ((ring_empty_iff l hh ht).2 h)
  obtain ⟨v, hv⟩ := hq 0 (Nat.pos_of_ne_zero hc0)
  have ht0 : (l.tail + 0) % 64 = l.tail := by omega
  rw [ht0] at hv
  have hcnt : ring_count (ring_pop l) + 1 = ring_count l := by
    simp only [ring_count, ring_pop, ring_next_eq, OVR_HIDRAW_BUFFER_SIZE] at hc0 ⊢; omega
  have hbuf : ∀ k, k < ring_count (ring_pop l) →
      (ring_pop l).buffer (((ring_pop l).tail + k) % 64) = l.buffer ((l.tail + (k + 1)) % 64) := by
    intro k hk
    have hk' : k + 1 < ring_count l := by omega
    simp only [ring_count, OVR_HIDRAW_BUFFER_SIZE] at hk'
    simp only [ring_pop, ring_next_eq]
    have h1 : ((l.tail + 1) % 64 + k) % 64 = (l.tail + (k + 1)) % 64 := by omega
    have h2 : (l.tail + (k + 1)) % 64 ≠ l.tail := by omega
    simp [buffer_set, h1, h2]
  refine ⟨v, hv, ?_, ⟨hh, ?_, ?_⟩, hcnt, rfl, ?_, rfl⟩
  · unfold ring_events
    rw [← hcnt, List.range_succ_eq_map, List.map_cons, List.map_map]
    simp only [OVR_HIDRAW_BUFFER_SIZE]
    rw [ht0, hv]
    simp only [Option.getD_some, List.cons.injEq, true_and]
    apply List.map_congr_left
    intro k hk
    simp only [Function.comp]
    rw [hbuf k (List.mem_range.1 hk)]
  · simp only [ring_pop, ring_next_eq, OVR_HIDRAW_BUFFER_SIZE]; omega
  · intro k hk
    simp only [OVR_HIDRAW_BUFFER_SIZE]
    rw [hbuf k hk]
    exact hq (k + 1) (by omega)
  · simp [ring_pop, ring_next_eq]


/-! ## The read loop -/

theorem read_loop_empty (ctx : read_ctx) (exist : Bool) (opens : Int) (fuel : Nat)
    (out : List Nat) (freed : List (Option (List Nat))) (l : hidraw_list)
    (mi : Nat → Nat → Nat) (he : l.head = l.tail) :
    ovr_hidraw_read_loop ctx exist opens (fuel + 1) out freed l mi =
      { ret := if ctx.signal_pending then read_ret.ret (-ERESTARTSYS)
               else if !exist then read_ret.ret (- EIO)
               else if ctx.nonblock then read_ret.ret (-EAGAIN)
               else read_ret.sleeping,
        out := out, freed := freed, list := l, monitor_info := mi } := by
  simp only [ovr_hidraw_read_loop, he, if_true]
  split_ifs <;> rfl

theorem read_loop_step (ctx : read_ctx) (exist : Bool) (opens : Int) (fuel : Nat)
    (out : List Nat) (freed : List (Option (List Nat))) (l : hidraw_list)
    (mi : Nat → Nat → Nat) (v : List Nat) (hne : l.head ≠ l.tail)
    (hv : l.buffer l.tail = { value := some v, len := v.length })
    (hf : ctx.copy_to_user_fails = false) :
    ovr_hidraw_read_loop ctx exist opens (fuel + 1) out freed l mi =
      if min v.length ctx.count = 0 then
        ovr_hidraw_read_loop ctx exist opens fuel [] (freed ++ [some v]) (ring_pop l)
          (monitor_note_read opens mi ctx.file ctx.jiffies)
      else
        { ret := read_ret.ret (Int.ofNat (min v.length ctx.count)), out := v.take ctx.count,
          freed := freed ++ [some v], list := ring_pop l,
          monitor_info := monitor_note_read opens mi ctx.file ctx.jiffies } := by
  have hlen : (if v.length > ctx.count then ctx.count else v.length) = min v.length ctx.count := by
    split_ifs with h
    · exact (Nat.min_eq_right (Nat.le_of_lt h)).symm
    · exact (Nat.min_eq_left (Nat.le_of_not_lt h)).symm
  have htake : v.take (min v.length ctx.count) = v.take ctx.count := by
    rw [List.take_eq_take]; simp [Nat.min_comm]
  simp only [ovr_hidraw_read_loop, hne, if_false, hv, hf, hlen, htake, Bool.false_eq_true]
  split_ifs with h
  · have : v.take ctx.count = [] := by
      rw [← htake, h]; rfl
    rw [this]
  · rfl

theorem read_loop_fault (ctx : read_ctx) (exist : Bool) (opens : Int) (fuel : Nat)
    (out : List Nat) (freed : List (Option (List Nat))) (l : hidraw_list)
    (mi : Nat → Nat → Nat) (v : List Nat) (hne : l.head ≠ l.tail)
    (hv : l.buffer l.tail = { value := some v, len := v.length })
    (hf : ctx.copy_to_user_fails = true) :
    ovr_hidraw_read_loop ctx exist opens (fuel + 1) out freed l mi =
      { ret := read_ret.ret (-EFAULT), out := out, freed := freed, list := l,
        monitor_info := mi } := by
  simp [ovr_hidraw_read_loop, hne, hv, hf]

/-- Every call of the read loop on a well-formed ring with enough fuel ends
(returns or parks), keeps the ring well-formed, and the payloads it frees are
exactly a front segment of the queue. -/
theorem read_loop_fifo (ctx : read_ctx) (exist : Bool) (opens : Int) :
    ∀ (fuel : Nat) (out : List Nat) (freed : List (Option (List Nat))) (l : hidraw_list)
      (mi : Nat → Nat → Nat), ring_wf l → ring_count l < fuel →
      (ovr_hidraw_read_loop ctx exist opens fuel out freed l mi).ret ≠ read_ret.spinning ∧
      ring_wf (ovr_hidraw_read_loop ctx exist opens fuel out freed l mi).list ∧
      (ovr_hidraw_read_loop ctx exist opens fuel out freed l mi).list.head = l.head ∧
      (ovr_hidraw_read_loop ctx exist opens fuel out freed l mi).list.hidraw = l.hidraw ∧
      ∃ consumed : List (List Nat),
        (ovr_hidraw_read_loop ctx exist opens fuel out freed l mi).freed =
          freed ++ consumed.map some ∧
        ring_events l =
          consumed ++ ring_events (ovr_hidraw_read_loop ctx exist opens fuel out freed l mi).list := by
  intro fuel
  induction fuel with
  | zero => intro out freed l mi _ h; omega
  | succ n ih =>
    intro out freed l mi hw hc
    by_cases he : l.head = l.tail
    · rw [read_loop_empty ctx exist opens n out freed l mi he]
      refine ⟨?_, hw, rfl, rfl, [], by simp, by simp⟩
      simp only; split_ifs <;> simp
    · obtain ⟨v, hv, hev, hw1, hc1, hh1, _, hp1⟩ := ring_pop_spec l hw he
      cases hf : ctx.copy_to_user_fails
      · rw [read_loop_step ctx exist opens n out freed l mi v he hv hf]
        split_ifs with hz
        · obtain ⟨a, b, c, d, cons, e1, e2⟩ := ih [] (freed ++ [some v]) (ring_pop l)
            (monitor_note_read opens mi ctx.file ctx.jiffies) hw1 (by omega)
          refine ⟨a, b, c.trans hh1, d.trans hp1, v :: cons, ?_, ?_⟩
          · rw [e1]; simp
          · rw [hev, e2]; simp
        · exact ⟨by simp, hw1, hh1, hp1, [v], by simp, by simp [hev]⟩
      · rw [read_loop_fault ctx exist opens n out freed l mi v he hv hf]
        exact ⟨by simp, hw, rfl, rfl, [], by simp, by simp⟩


/-! ## The fan-out loop -/

theorem node_preserve (b : Bool) (data : List Nat) (l : hidraw_list) :
    (ovr_report_event_node b data l).1.hidraw = l.hidraw ∧
    (ovr_report_event_node b data l).1.tail = l.tail ∧
    (ring_wf l → ring_wf (ovr_report_event_node b data l).1) := by
  by_cases hf : ring_next l.head = l.tail
  · rw [node_full b data l hf]; exact ⟨rfl, rfl, id⟩
  · cases b
    · refine ⟨by simp [ovr_report_event_node, hf], by simp [ovr_report_event_node, hf], ?_⟩
      intro hw; exact (node_stored data l hw hf).2.1
    · refine ⟨by simp [ovr_report_event_node, hf], by simp [ovr_report_event_node, hf], ?_⟩
      intro hw; exact (node_nomem data l hw hf).2.1

theorem node_step_cases (b : Bool) (data : List Nat) (l : hidraw_list) :
    ((ovr_report_event_node b data l).2 = node_step.nomem ↔
      (ring_next l.head ≠ l.tail ∧ b = true)) := by
  by_cases hf : ring_next l.head = l.tail
  · simp [ovr_report_event_node, hf]
  · cases b <;> simp [ovr_report_event_node, hf]

theorem loop_cons (fails : Nat → Bool) (data : List Nat) (i f : Nat) (rest : List Nat)
    (files : Nat → Option file) (fl : file) (hfl : files f = some fl) :
    ovr_report_event_loop fails data i (f :: rest) files =
      if (ovr_report_event_node (fails i) data fl.private_data).2 = node_step.nomem then
        some (-ENOMEM, Function.update files f (some (file_deliver (fails i) data fl)))
      else
        ovr_report_event_loop fails data (i + 1) rest
          (Function.update files f (some (file_deliver (fails i) data fl))) := by
  rw [ovr_report_event_loop]
  simp only [hfl, file_deliver]
  rcases h : ovr_report_event_node (fails i) data fl.private_data with ⟨l, s⟩
  cases s <;> simp

/-- The loop of `ovr_report_event` ends on every list of allocated nodes; it
allocates and frees no file, and keeps minors, back pointers and the
well-formedness of every ring. -/
theorem loop_preserve (fails : Nat → Bool) (data : List Nat) :
    ∀ (nodes : List Nat) (i : Nat) (files : Nat → Option file),
      (∀ g ∈ nodes, ∃ gl, files g = some gl) →
      ∃ ret files1, ovr_report_event_loop fails data i nodes files = some (ret, files1) ∧
        ∀ g, (files g = none → files1 g = none) ∧
          ∀ gl, files g = some gl → ∃ gl1, files1 g = some gl1 ∧ gl1.minor = gl.minor ∧
            gl1.private_data.hidraw = gl.private_data.hidraw ∧
            (ring_wf gl.private_data → ring_wf gl1.private_data) := by
  intro nodes
  induction nodes with
  | nil =>
    intro i files _
    exact ⟨0, files, rfl, fun g => ⟨id, fun gl h => ⟨gl, h, rfl, rfl, id⟩⟩⟩
  | cons f rest ih =>
    intro i files hall
    obtain ⟨fl, hfl⟩ := hall f (List.mem_cons_self _ _)
    have hnp := node_preserve (fails i) data fl.private_data
    have hupd : ∀ g, (files g = none →
          Function.update files f (some (file_deliver (fails i) data fl)) g = none) ∧
        ∀ gl, files g = some gl →
          ∃ gl1, Function.update files f (some (file_deliver (fails i) data fl)) g = some gl1 ∧
            gl1.minor = gl.minor ∧ gl1.private_data.hidraw = gl.private_data.hidraw ∧
            (ring_wf gl.private_data → ring_wf gl1.private_data) := by
      intro g
      by_cases hg : g = f
      · subst hg
        refine ⟨fun h => (by rw [hfl] at h; cases h), fun gl h => ?_⟩
        rw [hfl] at h; cases h
        exact ⟨file_deliver (fails i) data fl, by simp, rfl, hnp.1, hnp.2.2⟩
      · simp only [Function.update_noteq hg]
        exact ⟨id, fun gl h => ⟨gl, h, rfl, rfl, id⟩⟩
    rw [loop_cons fails data i f rest files fl hfl]
    split_ifs with hs
    · exact ⟨_, _, rfl, hupd⟩
    · have hall1 : ∀ g ∈ rest, ∃ gl,
          Function.update files f (some (file_deliver (fails i) data fl)) g = some gl := by
        intro g hg
        obtain ⟨gl, hgl⟩ := hall g (List.mem_cons_of_mem _ hg)
        obtain ⟨gl1, h1, _⟩ := (hupd g).2 gl hgl
        exact ⟨gl1, h1⟩
      obtain ⟨ret, files1, hloop, hrel⟩ := ih (i + 1) _ hall1
      refine ⟨ret, files1, hloop, fun g => ⟨fun h => (hrel g).1 ((hupd g).1 h), fun gl h => ?_⟩⟩
      obtain ⟨gl1, h1, m1, p1, w1⟩ := (hupd g).2 gl h
      obtain ⟨gl2, h2, m2, p2, w2⟩ := (hrel g).2 gl1 h1
      exact ⟨gl2, h2, m2.trans m1, p2.trans p1, fun hw => w2 (w1 hw)⟩

/-- Without a failing copy among the nodes visited, on a duplicate-free list of
allocated nodes, the loop returns 0 and applies the loop body once to each
listed session and to nothing else. -/
theorem loop_no_fail (fails : Nat → Bool) (data : List Nat) :
    ∀ (nodes : List Nat) (i : Nat) (files : Nat → Option file),
      nodes.Nodup → (∀ g ∈ nodes, ∃ gl, files g = some gl) →
      (∀ k, k < nodes.length → fails (i + k) = false) →
      ovr_report_event_loop fails data i nodes files =
        some (0, fun g => if g ∈ nodes then (files g).map (file_deliver false data)
                          else files g) := by
  intro nodes
  induction nodes with
  | nil => intro i files _ _ _; simp [ovr_report_event_loop]
  | cons f rest ih =>
    intro i files hnd hall hfails
    obtain ⟨fl, hfl⟩ := hall f (List.mem_cons_self _ _)
    have hf0 : fails i = false := by simpa using hfails 0 (by simp)
    have hnot : f ∉ rest := (List.nodup_cons.1 hnd).1
    rw [loop_cons fails data i f rest files fl hfl, hf0]
    have hs : (ovr_report_event_node false data fl.private_data).2 ≠ node_step.nomem := by
      rw [Ne, node_step_cases]; simp
    rw [if_neg hs, ih (i + 1) _ (List.nodup_cons.1 hnd).2]
    · congr 1; congr 1
      funext g
      by_cases hg : g = f
      · subst hg; simp [hnot, hfl]
      · simp [hg, Function.update_noteq hg]
    · intro g hg
      have hgf : g ≠ f := fun h => hnot (h ▸ hg)
      rw [Function.update_noteq hgf]
      exact hall g (List.mem_cons_of_mem _ hg)
    · intro k hk
      have := hfails (k + 1) (by simpa using hk)
      rwa [show i + (k + 1) = i + 1 + k by omega] at this

theorem loop_append (fails : Nat → Bool) (data : List Nat) :
    ∀ (pre : List Nat) (rest : List Nat) (i : Nat) (files files1 : Nat → Option file),
      ovr_report_event_loop fails data i pre files = some (0, files1) →
      ovr_report_event_loop fails data i (pre ++ rest) files =
        ovr_report_event_loop fails data (i + pre.length) rest files1 := by
  intro pre
  induction pre with
  | nil =>
    intro rest i files files1 h
    simp only [ovr_report_event_loop, Option.some.injEq, Prod.mk.injEq, true_and] at h
    subst h; simp
  | cons f pre ih =>
    intro rest i files files1 h
    cases hfl : files f with
    | none => rw [ovr_report_event_loop] at h; simp [hfl] at h
    | some fl =>
      rw [loop_cons fails data i f pre files fl hfl] at h
      rw [List.cons_append, loop_cons fails data i f (pre ++ rest) files fl hfl]
      split_ifs at h ⊢ with hs
      · simp [ENOMEM] at h
      · rw [ih rest (i + 1) _ files1 h]
        congr 1; simp; omega


/-! ## The invariant is kept by every operation -/

theorem first_free_minor_spec (table : Nat → Option Nat) (m : Nat)
    (h : first_free_minor table = some m) :
    m < OVR_HIDRAW_MAX_DEVICES ∧ table m = none ∧ ∀ k, k < m → table k ≠ none := by
  unfold first_free_minor at h
  rw [List.find?_range_eq_some] at h
  obtain ⟨h1, h2, h3⟩ := h
  refine ⟨List.mem_range.1 h2, by simpa using h1, ?_⟩
  intro k hk
  have := h3 k hk
  intro hn; simp [hn] at this

theorem first_free_minor_none (table : Nat → Option Nat)
    (h : first_free_minor table = none) :
    ∀ m, m < OVR_HIDRAW_MAX_DEVICES → table m ≠ none := by
  unfold first_free_minor at h
  rw [List.find?_range_eq_none] at h
  intro m hm
  have := h m hm
  intro hn; simp [hn] at this

theorem inv_init : ovr_inv ovr_init := by
  constructor <;> intro a b h <;> simp [ovr_init] at h

theorem connect_eq (st : ovr_state) (hid : hid_device) (kzalloc : Option Nat)
    (err : Option Int) :
    (ovr_connect st hid kzalloc err).2 = st ∨
    ∃ dev m, kzalloc = some dev ∧ first_free_minor st.ovr_hidraw_table = some m ∧ err = none ∧
      ovr_connect st hid kzalloc err =
        (0, { st with
                ovr_hidraw_table := Function.update st.ovr_hidraw_table m (some dev),
                hidraws := Function.update st.hidraws dev
                  (some { minor := m, exist := true, open_count := 0, list := [], hid := hid }),
                monitor_info := fun i j =>
                  if i < MONITOR_MAX ∧ j = 0 then 0 else st.monitor_info i j,
                opens := 0,
                ovr_minor := m }) := by
  unfold ovr_connect
  cases kzalloc with
  | none => left; rfl
  | some dev =>
    cases hm : first_free_minor st.ovr_hidraw_table with
    | none => left; rfl
    | some m =>
      cases err with
      | some e => left; rfl
      | none => right; exact ⟨dev, m, rfl, rfl, rfl, rfl⟩

theorem inv_connect (st : ovr_state) (hid : hid_device) (kzalloc : Option Nat)
    (err : Option Int) (hi : ovr_inv st)
    (hen : ∀ p, kzalloc = some p → st.hidraws p = none) :
    ovr_inv (ovr_connect st hid kzalloc err).2 := by
  rcases connect_eq st hid kzalloc err with h | ⟨dev, m, hk, hm, _, heq⟩
  · rw [h]; exact hi
  · rw [heq]
    have hfresh := hen dev hk
    obtain ⟨hm64, hmfree, _⟩ := first_free_minor_spec _ m hm
    constructor
    · intro m1 p hp
      simp only [Function.update_apply] at hp ⊢
      split_ifs at hp with h1
      · cases hp; subst h1
        exact ⟨hm64, by simp⟩
      · obtain ⟨hlt, d, hd, hdm⟩ := hi.table_dev m1 p hp
        have hpd : p ≠ dev := fun h => by rw [h, hfresh] at hd; cases hd
        exact ⟨hlt, d, by simp [hpd, hd], hdm⟩
    · intro p d hp
      simp only [Function.update_apply] at hp ⊢
      split_ifs at hp with h1
      · cases hp; subst h1; simp
      · obtain ⟨ht, hx⟩ := hi.dev_table p d hp
        have hmm : d.minor ≠ m := fun h => by rw [h, hmfree] at ht; cases ht
        exact ⟨by simp [hmm, ht], hx⟩
    · intro p d hp
      simp only [Function.update_apply] at hp
      split_ifs at hp with h1
      · cases hp; simp
      · exact hi.dev_list p d hp
    · intro f fl hf
      obtain ⟨hw, d, hd, hmem, hmin⟩ := hi.file_dev f fl hf
      have hpd : fl.private_data.hidraw ≠ dev := fun h => by rw [h, hfresh] at hd; cases hd
      exact ⟨hw, d, by simp [Function.update_apply, hpd, hd], hmem, hmin⟩


theorem inv_file_table (st : ovr_state) (hi : ovr_inv st) (f : Nat) (fl : file)
    (hf : st.files f = some fl) :
    fl.minor < OVR_HIDRAW_MAX_DEVICES ∧
    st.ovr_hidraw_table fl.minor = some fl.private_data.hidraw ∧
    ∃ d, st.hidraws fl.private_data.hidraw = some d ∧ f ∈ d.list ∧ d.minor = fl.minor ∧
      d.open_count = (d.list.length : Int) ∧ d.list.Nodup := by
  obtain ⟨_, d, hd, hmem, hmin⟩ := hi.file_dev f fl hf
  obtain ⟨ht, _⟩ := hi.dev_table _ d hd
  obtain ⟨hoc, hnd, _⟩ := hi.dev_list _ d hd
  rw [← hmin] at ht
  exact ⟨(hi.table_dev _ _ ht).1, ht, d, hd, hmem, hmin.symm, hoc, hnd⟩

theorem disconnect_eq (st : ovr_state) (p : Nat) (d : hidraw) (hd : st.hidraws p = some d)
    (hm : d.minor < OVR_HIDRAW_MAX_DEVICES) :
    ovr_disconnect st p =
      some (if d.open_count ≠ 0 then
        { st with opens := if d.minor = st.ovr_minor then 0 else st.opens,
                  ovr_minor := if d.minor = st.ovr_minor then MINOR_NONE else st.ovr_minor,
                  hidraws := Function.update st.hidraws p (some { d with exist := false }) }
      else
        { st with opens := if d.minor = st.ovr_minor then 0 else st.opens,
                  ovr_minor := if d.minor = st.ovr_minor then MINOR_NONE else st.ovr_minor,
                  ovr_hidraw_table := Function.update st.ovr_hidraw_table d.minor none,
                  hidraws := Function.update st.hidraws p none }) := by
  unfold ovr_disconnect
  simp only [hd]
  split_ifs <;> rfl

theorem inv_disconnect (st : ovr_state) (p : Nat) (d : hidraw) (hi : ovr_inv st)
    (hd : st.hidraws p = some d) :
    ∃ st1, ovr_disconnect st p = some st1 ∧ ovr_inv st1 := by
  obtain ⟨htab, _⟩ := hi.dev_table p d hd
  obtain ⟨hm64, _⟩ := hi.table_dev _ _ htab
  obtain ⟨hoc, hnd, hfiles⟩ := hi.dev_list p d hd
  rw [disconnect_eq st p d hd hm64]
  refine ⟨_, rfl, ?_⟩
  by_cases ho : d.open_count ≠ 0
  · rw [if_pos ho]
    have hpos : 0 < d.open_count := by
      omega
    constructor
    · intro m q hq
      obtain ⟨hlt, d1, hd1, hdm⟩ := hi.table_dev m q hq
      refine ⟨hlt, ?_⟩
      by_cases hqp : q = p
      · subst hqp
        rw [hd] at hd1; cases hd1
        exact ⟨{ d with exist := false }, by simp, hdm⟩
      · exact ⟨d1, by simp [Function.update_noteq hqp, hd1], hdm⟩
    · intro q d1 hq
      simp only [Function.update_apply] at hq
      split_ifs at hq with h1
      · cases hq; subst h1
        exact ⟨htab, Or.inr hpos⟩
      · exact hi.dev_table q d1 hq
    · intro q d1 hq
      simp only [Function.update_apply] at hq
      split_ifs at hq with h1
      · cases hq; subst h1
        exact ⟨hoc, hnd, hfiles⟩
      · exact hi.dev_list q d1 hq
    · intro f fl hf
      obtain ⟨hw, d1, hd1, hmem, hmin⟩ := hi.file_dev f fl hf
      refine ⟨hw, ?_⟩
      by_cases hqp : fl.private_data.hidraw = p
      · rw [hqp, hd] at hd1; cases hd1
        refine ⟨{ d with exist := false }, ?_, hmem, hmin⟩
        show Function.update st.hidraws p _ fl.private_data.hidraw = _
        rw [hqp, Function.update_same]
      · exact ⟨d1, by simp [Function.update_noteq hqp, hd1], hmem, hmin⟩
  · rw [if_neg ho]
    have hzero : d.open_count = 0 := by simpa using ho
    have hnil : d.list = [] := by
      have : d.list.length = 0 := by omega
      exact List.length_eq_zero.1 this
    constructor
    · intro m q hq
      simp only [Function.update_apply] at hq
      split_ifs at hq with h1
      obtain ⟨hlt, d1, hd1, hdm⟩ := hi.table_dev m q hq
      have hqp : q ≠ p := by
        intro h; subst h
        rw [hd] at hd1; cases hd1
        exact h1 hdm.symm
      exact ⟨hlt, d1, by simp [Function.update_noteq hqp, hd1], hdm⟩
    · intro q d1 hq
      simp only [Function.update_apply] at hq
      split_ifs at hq with h1
      obtain ⟨ht, hx⟩ := hi.dev_table q d1 hq
      have hmm : d1.minor ≠ d.minor := by
        intro h
        rw [h, htab] at ht
        exact h1 (Option.some.inj ht).symm
      exact ⟨by simp [Function.update_noteq hmm, ht], hx⟩
    · intro q d1 hq
      simp only [Function.update_apply] at hq
      split_ifs at hq with h1
      exact hi.dev_list q d1 hq
    · intro f fl hf
      obtain ⟨hw, d1, hd1, hmem, hmin⟩ := hi.file_dev f fl hf
      have hqp : fl.private_data.hidraw ≠ p := by
        intro h
        rw [h, hd] at hd1; cases hd1
        rw [hnil] at hmem; cases hmem
      exact ⟨hw, d1, by simp [Function.update_noteq hqp, hd1], hmem, hmin⟩


theorem ring_wf_zero (dev : Nat) : ring_wf (hidraw_list_zero dev) := by
  refine ⟨by simp [hidraw_list_zero, OVR_HIDRAW_BUFFER_SIZE],
    by simp [hidraw_list_zero, OVR_HIDRAW_BUFFER_SIZE], ?_⟩
  intro k hk
  simp [ring_count, hidraw_list_zero, OVR_HIDRAW_BUFFER_SIZE] at hk

theorem open_eq (st : ovr_state) (minor f : Nat) (kf : Bool) (jiffies pid : Nat)
    (hm : minor < OVR_HIDRAW_MAX_DEVICES) :
    ovr_hidraw_open st minor f kf jiffies pid = some (-ENOMEM, st) ∧ kf = true ∨
    ovr_hidraw_open st minor f kf jiffies pid = some (-ENODEV, st) ∧
      st.ovr_hidraw_table minor = none ∨
    (∃ p, st.ovr_hidraw_table minor = some p ∧ st.hidraws p = none ∧
      ovr_hidraw_open st minor f kf jiffies pid = none) ∨
    ∃ p d, kf = false ∧ st.ovr_hidraw_table minor = some p ∧ st.hidraws p = some d ∧
      ovr_hidraw_open st minor f kf jiffies pid =
        some (0, { st with
          hidraws := Function.update st.hidraws p
            (some { d with list := d.list ++ [f], open_count := d.open_count + 1 }),
          files := Function.update st.files f
            (some { minor := minor, private_data := hidraw_list_zero p }),
          monitor_info :=
            if minor = st.ovr_minor then monitor_note_open st.monitor_info f jiffies pid
            else st.monitor_info,
          opens := if minor = st.ovr_minor then d.open_count + 1 else st.opens }) := by
  cases kf with
  | true => left; simp [ovr_hidraw_open]
  | false =>
    right
    cases ht : st.ovr_hidraw_table minor with
    | none => left; simp [ovr_hidraw_open, hm, ht]
    | some p =>
      right
      cases hd : st.hidraws p with
      | none => left; exact ⟨p, rfl, hd, by simp [ovr_hidraw_open, hm, ht, hd]⟩
      | some d =>
        right
        refine ⟨p, d, rfl, rfl, hd, ?_⟩
        simp only [ovr_hidraw_open, Bool.false_eq_true, if_false, hm, not_true_eq_false, ht, hd]

theorem inv_open (st : ovr_state) (minor f : Nat) (kf : Bool) (jiffies pid : Nat)
    (hi : ovr_inv st) (hm : minor < OVR_HIDRAW_MAX_DEVICES) (hfresh : st.files f = none) :
    ∃ r st1, ovr_hidraw_open st minor f kf jiffies pid = some (r, st1) ∧ ovr_inv st1 := by
  rcases open_eq st minor f kf jiffies pid hm with ⟨h, _⟩ | ⟨h, _⟩ | ⟨p, ht, hd, _⟩ |
    ⟨p, d, _, ht, hd, h⟩
  · exact ⟨_, _, h, hi⟩
  · exact ⟨_, _, h, hi⟩
  · obtain ⟨_, d, hd1, _⟩ := hi.table_dev minor p ht
    rw [hd] at hd1; cases hd1
  · refine ⟨_, _, h, ?_⟩
    obtain ⟨hoc, hnd, hfiles⟩ := hi.dev_list p d hd
    obtain ⟨_, d0, hd0, hdm⟩ := hi.table_dev minor p ht
    rw [hd] at hd0; cases hd0
    have hnotin : ∀ q dq, st.hidraws q = some dq → f ∉ dq.list := by
      intro q dq hq hmem
      obtain ⟨fl, hfl, _⟩ := (hi.dev_list q dq hq).2.2 f hmem
      rw [hfresh] at hfl; cases hfl
    constructor
    · intro m q hq
      obtain ⟨hlt, d1, hd1, hdm1⟩ := hi.table_dev m q hq
      refine ⟨hlt, ?_⟩
      by_cases hqp : q = p
      · subst hqp
        rw [hd] at hd1; cases hd1
        refine ⟨{ d with list := d.list ++ [f], open_count := d.open_count + 1 }, ?_, hdm1⟩
        show Function.update st.hidraws q _ q = _
        rw [Function.update_same]
      · refine ⟨d1, ?_, hdm1⟩
        show Function.update st.hidraws p _ q = _
        rw [Function.update_noteq hqp, hd1]
    · intro q d1 hq
      change Function.update st.hidraws p _ q = _ at hq
      by_cases hqp : q = p
      · subst hqp
        rw [Function.update_same] at hq; cases hq
        exact ⟨(hi.dev_table q d hd).1, Or.inr (by show 0 < d.open_count + 1; omega)⟩
      · rw [Function.update_noteq hqp] at hq
        exact hi.dev_table q d1 hq
    · intro q d1 hq
      change Function.update st.hidraws p _ q = _ at hq
      by_cases hqp : q = p
      · subst hqp
        rw [Function.update_same] at hq; cases hq
        refine ⟨by simp; omega, ?_, ?_⟩
        · show (d.list ++ [f]).Nodup
          rw [List.nodup_append]
          refine ⟨hnd, List.nodup_singleton f, ?_⟩
          intro a ha hb
          rw [List.mem_singleton] at hb; subst hb
          exact hnotin q d hd ha
        · intro g hg
          change g ∈ d.list ++ [f] at hg
          show ∃ fl, Function.update st.files f _ g = some fl ∧ _
          rw [List.mem_append, List.mem_singleton] at hg
          by_cases hgf : g = f
          · subst hgf
            rw [Function.update_same]
            exact ⟨_, rfl, rfl⟩
          · rw [Function.update_noteq hgf]
            rcases hg with hg | hg
            · exact hfiles g hg
            · exact absurd hg hgf
      · rw [Function.update_noteq hqp] at hq
        obtain ⟨a, b, c⟩ := hi.dev_list q d1 hq
        refine ⟨a, b, ?_⟩
        intro g hg
        have hgf : g ≠ f := fun h => hnotin q d1 hq (h ▸ hg)
        show ∃ fl, Function.update st.files f _ g = some fl ∧ _
        rw [Function.update_noteq hgf]
        exact c g hg
    · intro g gl hg
      change Function.update st.files f _ g = _ at hg
      show _ ∧ ∃ d1, Function.update st.hidraws p _ gl.private_data.hidraw = some d1 ∧ _
      by_cases hgf : g = f
      · subst hgf
        rw [Function.update_same] at hg; cases hg
        refine ⟨ring_wf_zero p, { d with list := d.list ++ [g], open_count := d.open_count + 1 },
          ?_, by simp, hdm.symm⟩
        show Function.update st.hidraws p _ p = _
        rw [Function.update_same]
      · rw [Function.update_noteq hgf] at hg
        obtain ⟨hw, d1, hd1, hmem, hmin⟩ := hi.file_dev g gl hg
        refine ⟨hw, ?_⟩
        by_cases hqp : gl.private_data.hidraw = p
        · rw [hqp] at hd1 ⊢
          rw [hd] at hd1; cases hd1
          refine ⟨{ d with list := d.list ++ [f], open_count := d.open_count + 1 }, ?_,
            by simp [hmem], hmin⟩
          rw [Function.update_same]
        · exact ⟨d1, by rw [Function.update_noteq hqp, hd1], hmem, hmin⟩


theorem release_eq (st : ovr_state) (f : Nat) (fl : file) (hi : ovr_inv st)
    (hf : st.files f = some fl) :
    ∃ d, st.hidraws fl.private_data.hidraw = some d ∧
      ovr_hidraw_release st f = some (0,
        if d.open_count - 1 = 0 ∧ d.exist = false then
          { st with
            ovr_hidraw_table := Function.update st.ovr_hidraw_table fl.minor none,
            hidraws := Function.update st.hidraws fl.private_data.hidraw none,
            files := Function.update st.files f none,
            monitor_info :=
              if fl.minor = st.ovr_minor then monitor_note_release st.monitor_info f
              else st.monitor_info,
            opens := if fl.minor = st.ovr_minor then d.open_count - 1 else st.opens }
        else
          { st with
            hidraws := Function.update st.hidraws fl.private_data.hidraw
              (some { d with list := d.list.erase f, open_count := d.open_count - 1 }),
            files := Function.update st.files f none,
            monitor_info :=
              if fl.minor = st.ovr_minor then monitor_note_release st.monitor_info f
              else st.monitor_info,
            opens := if fl.minor = st.ovr_minor then d.open_count - 1 else st.opens }) := by
  obtain ⟨hm, htab, d, hd, _⟩ := inv_file_table st hi f fl hf
  refine ⟨d, hd, ?_⟩
  simp only [ovr_hidraw_release, hf, hm, not_true_eq_false, if_false, htab, hd,
    Function.update_same, Function.update_idem]
  split_ifs <;> rfl

theorem inv_release (st : ovr_state) (f : Nat) (fl : file) (hi : ovr_inv st)
    (hf : st.files f = some fl) :
    ∃ st1, ovr_hidraw_release st f = some (0, st1) ∧ ovr_inv st1 := by
  obtain ⟨d, hd, heq⟩ := release_eq st f fl hi hf
  obtain ⟨hm, htab, d0, hd0, hmem, hdm, hoc, hnd⟩ := inv_file_table st hi f fl hf
  rw [hd] at hd0; cases hd0
  obtain ⟨_, _, hfiles⟩ := hi.dev_list _ d hd
  have hlen : 1 ≤ d.list.length := List.length_pos_of_mem hmem
  rw [heq]
  refine ⟨_, rfl, ?_⟩
  -- a file of another device is not `f`
  have hother : ∀ q dq, st.hidraws q = some dq → q ≠ fl.private_data.hidraw → f ∉ dq.list := by
    intro q dq hq hne hmem1
    obtain ⟨fl1, hfl1, hp1⟩ := (hi.dev_list q dq hq).2.2 f hmem1
    rw [hf] at hfl1; cases hfl1
    exact hne hp1.symm
  by_cases hfree : d.open_count - 1 = 0 ∧ d.exist = false
  · rw [if_pos hfree]
    have hone : d.list = [f] := by
      have h1 : d.list.length = 1 := by omega
      obtain ⟨a, ha⟩ := List.length_eq_one.1 h1
      rw [ha] at hmem ⊢
      rw [List.mem_singleton] at hmem
      rw [hmem]
    constructor
    · intro m q hq
      change Function.update st.ovr_hidraw_table fl.minor none m = _ at hq
      show _ ∧ ∃ d1, Function.update st.hidraws fl.private_data.hidraw none q = some d1 ∧ _
      by_cases hmm : m = fl.minor
      · rw [hmm, Function.update_same] at hq; cases hq
      · rw [Function.update_noteq hmm] at hq
        obtain ⟨hlt, d1, hd1, hdm1⟩ := hi.table_dev m q hq
        have hqp : q ≠ fl.private_data.hidraw := by
          intro h; rw [h, hd] at hd1; cases hd1
          exact hmm (hdm1.symm.trans hdm)
        exact ⟨hlt, d1, by rw [Function.update_noteq hqp, hd1], hdm1⟩
    · intro q d1 hq
      change Function.update st.hidraws fl.private_data.hidraw none q = _ at hq
      show Function.update st.ovr_hidraw_table fl.minor none d1.minor = _ ∧ _
      by_cases hqp : q = fl.private_data.hidraw
      · rw [hqp, Function.update_same] at hq; cases hq
      · rw [Function.update_noteq hqp] at hq
        obtain ⟨ht, hx⟩ := hi.dev_table q d1 hq
        have hmm : d1.minor ≠ fl.minor := by
          intro h; rw [h, htab] at ht
          exact hqp (Option.some.inj ht).symm
        exact ⟨by rw [Function.update_noteq hmm, ht], hx⟩
    · intro q d1 hq
      change Function.update st.hidraws fl.private_data.hidraw none q = _ at hq
      by_cases hqp : q = fl.private_data.hidraw
      · rw [hqp, Function.update_same] at hq; cases hq
      · rw [Function.update_noteq hqp] at hq
        obtain ⟨a, b, c⟩ := hi.dev_list q d1 hq
        refine ⟨a, b, ?_⟩
        intro g hg
        have hgf : g ≠ f := fun h => hother q d1 hq hqp (h ▸ hg)
        show ∃ fl1, Function.update st.files f none g = some fl1 ∧ _
        rw [Function.update_noteq hgf]
        exact c g hg
    · intro g gl hg
      change Function.update st.files f none g = _ at hg
      show _ ∧ ∃ d1, Function.update st.hidraws fl.private_data.hidraw none
        gl.private_data.hidraw = some d1 ∧ _
      by_cases hgf : g = f
      · rw [hgf, Function.update_same] at hg; cases hg
      · rw [Function.update_noteq hgf] at hg
        obtain ⟨hw, d1, hd1, hmem1, hmin1⟩ := hi.file_dev g gl hg
        have hqp : gl.private_data.hidraw ≠ fl.private_data.hidraw := by
          intro h; rw [h, hd] at hd1; cases hd1
          rw [hone, List.mem_singleton] at hmem1
          exact hgf hmem1
        exact ⟨hw, d1, by rw [Function.update_noteq hqp, hd1], hmem1, hmin1⟩
  · rw [if_neg hfree]
    constructor
    · intro m q hq
      change st.ovr_hidraw_table m = _ at hq
      show _ ∧ ∃ d1, Function.update st.hidraws fl.private_data.hidraw _ q = some d1 ∧ _
      obtain ⟨hlt, d1, hd1, hdm1⟩ := hi.table_dev m q hq
      refine ⟨hlt, ?_⟩
      by_cases hqp : q = fl.private_data.hidraw
      · rw [hqp] at hd1 ⊢
        rw [hd] at hd1; cases hd1
        exact ⟨{ d with list := d.list.erase f, open_count := d.open_count - 1 }, by rw [Function.update_same], hdm1⟩
      · exact ⟨d1, by rw [Function.update_noteq hqp, hd1], hdm1⟩
    · intro q d1 hq
      change Function.update st.hidraws fl.private_data.hidraw _ q = _ at hq
      show st.ovr_hidraw_table d1.minor = _ ∧ _
      by_cases hqp : q = fl.private_data.hidraw
      · rw [hqp, Function.update_same] at hq; cases hq
        refine ⟨by rw [hqp]; exact (hi.dev_table _ d hd).1, ?_⟩
        show d.exist = true ∨ 0 < d.open_count - 1
        by_cases he : d.exist = true
        · exact Or.inl he
        · right
          have : d.exist = false := by simpa using he
          have : d.open_count - 1 ≠ 0 := fun h => hfree ⟨h, this⟩
          omega
      · rw [Function.update_noteq hqp] at hq
        exact hi.dev_table q d1 hq
    · intro q d1 hq
      change Function.update st.hidraws fl.private_data.hidraw _ q = _ at hq
      by_cases hqp : q = fl.private_data.hidraw
      · rw [hqp, Function.update_same] at hq; cases hq
        refine ⟨?_, ?_, ?_⟩
        · show d.open_count - 1 = ((d.list.erase f).length : Int)
          rw [List.length_erase_of_mem hmem]
          omega
        · exact hnd.erase f
        · intro g hg
          change g ∈ d.list.erase f at hg
          show ∃ fl1, Function.update st.files f none g = some fl1 ∧ _
          rw [hnd.mem_erase_iff] at hg
          rw [Function.update_noteq hg.1, hqp]
          exact hfiles g hg.2
      · rw [Function.update_noteq hqp] at hq
        obtain ⟨a, b, c⟩ := hi.dev_list q d1 hq
        refine ⟨a, b, ?_⟩
        intro g hg
        have hgf : g ≠ f := fun h => hother q d1 hq hqp (h ▸ hg)
        show ∃ fl1, Function.update st.files f none g = some fl1 ∧ _
        rw [Function.update_noteq hgf]
        exact c g hg
    · intro g gl hg
      change Function.update st.files f none g = _ at hg
      show _ ∧ ∃ d1, Function.update st.hidraws fl.private_data.hidraw _
        gl.private_data.hidraw = some d1 ∧ _
      by_cases hgf : g = f
      · rw [hgf, Function.update_same] at hg; cases hg
      · rw [Function.update_noteq hgf] at hg
        obtain ⟨hw, d1, hd1, hmem1, hmin1⟩ := hi.file_dev g gl hg
        refine ⟨hw, ?_⟩
        by_cases hqp : gl.private_data.hidraw = fl.private_data.hidraw
        · rw [hqp] at hd1 ⊢
          rw [hd] at hd1; cases hd1
          refine ⟨{ d with list := d.list.erase f, open_count := d.open_count - 1 }, by rw [Function.update_same], ?_, hmin1⟩
          show g ∈ d.list.erase f
          rw [hnd.mem_erase_iff]
          exact ⟨hgf, hmem1⟩
        · exact ⟨d1, by rw [Function.update_noteq hqp, hd1], hmem1, hmin1⟩


theorem ring_count_lt (l : hidraw_list) : ring_count l < OVR_HIDRAW_BUFFER_SIZE := by
  unfold ring_count OVR_HIDRAW_BUFFER_SIZE; omega

theorem inv_report_event (st : ovr_state) (dev : Nat) (d : hidraw) (data : List Nat)
    (fails : Nat → Bool) (hi : ovr_inv st) (hd : st.hidraws dev = some d) :
    ∃ ret files1, ovr_report_event st dev data fails = some (ret, { st with files := files1 }) ∧
      ovr_inv { st with files := files1 } := by
  obtain ⟨_, _, hfiles⟩ := hi.dev_list dev d hd
  obtain ⟨ret, files1, hloop, hrel⟩ := loop_preserve fails data d.list 0 st.files
    (fun g hg => (hfiles g hg).imp fun _ h => h.1)
  refine ⟨ret, files1, by simp [ovr_report_event, hd, hloop], ?_⟩
  constructor
  · exact hi.table_dev
  · exact hi.dev_table
  · intro p d1 hp
    obtain ⟨a, b, c⟩ := hi.dev_list p d1 hp
    refine ⟨a, b, ?_⟩
    intro g hg
    obtain ⟨gl, hgl, hgp⟩ := c g hg
    obtain ⟨gl1, h1, _, hp1, _⟩ := (hrel g).2 gl hgl
    exact ⟨gl1, h1, hp1.trans hgp⟩
  · intro g gl1 hg
    change files1 g = some gl1 at hg
    cases hold : st.files g with
    | none => rw [(hrel g).1 hold] at hg; cases hg
    | some gl =>
      obtain ⟨gl2, h2, hm2, hp2, hw2⟩ := (hrel g).2 gl hold
      rw [hg] at h2; cases h2
      obtain ⟨hw, d1, hd1, hmem, hmin⟩ := hi.file_dev g gl hold
      exact ⟨hw2 hw, d1, by rw [hp2]; exact hd1, hmem, hm2.trans hmin⟩

theorem read_file_eq (st : ovr_state) (ctx : read_ctx) (fl : file) (d : hidraw)
    (hf : st.files ctx.file = some fl) (hd : st.hidraws fl.private_data.hidraw = some d) :
    ovr_hidraw_read_file st ctx =
      some (ovr_hidraw_read ctx d.exist st.opens fl.private_data st.monitor_info,
        { st with
          files := Function.update st.files ctx.file (some { fl with private_data :=
            (ovr_hidraw_read ctx d.exist st.opens fl.private_data st.monitor_info).list }),
          monitor_info :=
            (ovr_hidraw_read ctx d.exist st.opens fl.private_data st.monitor_info).monitor_info }) := by
  simp only [ovr_hidraw_read_file, hf, hd]

theorem inv_read (st : ovr_state) (ctx : read_ctx) (fl : file) (hi : ovr_inv st)
    (hf : st.files ctx.file = some fl) :
    ∃ r st1, ovr_hidraw_read_file st ctx = some (r, st1) ∧ ovr_inv st1 := by
  obtain ⟨hw, d, hd, hmem, hmin⟩ := hi.file_dev _ fl hf
  obtain ⟨_, hwf, _, hp, _⟩ := read_loop_fifo ctx d.exist st.opens OVR_HIDRAW_BUFFER_SIZE [] []
    fl.private_data st.monitor_info hw (ring_count_lt _)
  refine ⟨_, _, read_file_eq st ctx fl d hf hd, ?_⟩
  constructor
  · exact hi.table_dev
  · exact hi.dev_table
  · intro p d1 hp1
    obtain ⟨a, b, c⟩ := hi.dev_list p d1 hp1
    refine ⟨a, b, ?_⟩
    intro g hg
    show ∃ fl1, Function.update st.files ctx.file _ g = some fl1 ∧ _
    by_cases hgf : g = ctx.file
    · rw [hgf, Function.update_same]
      obtain ⟨gl, hgl, hgp⟩ := c g hg
      rw [hgf, hf] at hgl; cases hgl
      exact ⟨_, rfl, hp.trans hgp⟩
    · rw [Function.update_noteq hgf]
      exact c g hg
  · intro g gl hg
    change Function.update st.files ctx.file _ g = _ at hg
    by_cases hgf : g = ctx.file
    · rw [hgf, Function.update_same] at hg; cases hg
      rw [hgf]
      exact ⟨hwf, d, by rw [← hd]; exact congrArg st.hidraws hp, hmem, hmin⟩
    · rw [Function.update_noteq hgf] at hg
      exact hi.file_dev g gl hg

/-- Every enabled operation is defined on a state satisfying the invariant (no
object that is not allocated is touched or freed) and leads to a state
satisfying it. -/
theorem inv_step (op : ovr_op) (st : ovr_state) (hi : ovr_inv st) (hen : ovr_enabled op st) :
    ∃ st1, ovr_apply op st = some st1 ∧ ovr_inv st1 := by
  cases op with
  | op_serial len sg =>
    exact ⟨_, rfl, ⟨hi.table_dev, hi.dev_table, hi.dev_list, hi.file_dev⟩⟩
  | op_connect hid kzalloc err =>
    exact ⟨_, rfl, inv_connect st hid kzalloc err hi hen⟩
  | op_disconnect hidraw =>
    obtain ⟨d, hd, _⟩ := hen
    exact inv_disconnect st hidraw d hi hd
  | op_open minor f kf jiffies pid =>
    obtain ⟨hm, _, hfresh⟩ := hen
    obtain ⟨r, st1, h, hi1⟩ := inv_open st minor f kf jiffies pid hi hm hfresh
    exact ⟨st1, by simp [ovr_apply, h], hi1⟩
  | op_release f =>
    obtain ⟨fl, hf⟩ := hen
    obtain ⟨st1, h, hi1⟩ := inv_release st f fl hi hf
    exact ⟨st1, by simp [ovr_apply, h], hi1⟩
  | op_report_event dev data fails =>
    obtain ⟨d, hd, _⟩ := hen
    obtain ⟨ret, files1, h, hi1⟩ := inv_report_event st dev d data fails hi hd
    exact ⟨_, by simp [ovr_apply, h], hi1⟩
  | op_read ctx =>
    obtain ⟨fl, hf⟩ := hen
    obtain ⟨r, st1, h, hi1⟩ := inv_read st ctx fl hi hf
    exact ⟨st1, by simp [ovr_apply, h], hi1⟩

theorem reachable_inv (st : ovr_state) (hr : ovr_reachable st) : ovr_inv st := by
  induction hr with
  | init => exact inv_init
  | step op st st1 _ hen happ ih =>
    obtain ⟨st2, h2, hi2⟩ := inv_step op st ih hen
    rw [happ] at h2; cases h2
    exact hi2


/-! ## One session: capacity and order -/

theorem ring_events_length (l : hidraw_list) : (ring_events l).length = ring_count l := by
  simp [ring_events]

theorem file_deliver_full (b : Bool) (data : List Nat) (fl : file)
    (h : ring_next fl.private_data.head = fl.private_data.tail) :
    file_deliver b data fl = fl := by
  simp [file_deliver, node_full b data fl.private_data h]

/-- With one session in the list, `ovr_report_event` applies the loop body to
that session and returns 0. -/
theorem report_event_single (st : ovr_state) (dev f : Nat) (d : hidraw) (fl : file)
    (data : List Nat) (hd : st.hidraws dev = some d) (hl : d.list = [f])
    (hf : st.files f = some fl) :
    ovr_report_event st dev data (fun _ => false) =
      some (0, { st with
        files := Function.update st.files f (some (file_deliver false data fl)) }) := by
  have hloop := loop_no_fail (fun _ => false) data [f] 0 st.files (List.nodup_singleton f)
    (fun g hg => by rw [List.mem_singleton] at hg; exact ⟨fl, hg ▸ hf⟩) (fun _ _ => rfl)
  simp only [ovr_report_event, hd, hl, hloop]
  congr 3
  funext g
  by_cases hg : g = f
  · subst hg; simp [hf]
  · simp [hg, Function.update_noteq hg]

/-- Delivering to a single session: the queue grows by the reports that fit
into the free slots; every field other than the ring of that session stays. -/
theorem deliver_all_single (dev f : Nat) (d : hidraw) (hl : d.list = [f]) :
    ∀ (evs : List (List Nat)) (st : ovr_state) (fl : file),
      st.hidraws dev = some d → st.files f = some fl → ring_wf fl.private_data →
      ∃ fl1, deliver_all dev evs st =
          some { st with files := Function.update st.files f (some fl1) } ∧
        ring_wf fl1.private_data ∧ fl1.minor = fl.minor ∧
        fl1.private_data.hidraw = fl.private_data.hidraw ∧
        ring_events fl1.private_data =
          ring_events fl.private_data ++ evs.take (63 - ring_count fl.private_data) := by
  intro evs
  induction evs with
  | nil =>
    intro st fl _ hf hw
    refine ⟨fl, ?_, hw, rfl, rfl, by simp⟩
    simp only [deliver_all]
    congr 1
    rw [← hf, Function.update_eq_self]
  | cons ev evs ih =>
    intro st fl hd hf hw
    rw [deliver_all, report_event_single st dev f d fl ev hd hl hf]
    simp only
    have hnp := node_preserve false ev fl.private_data
    obtain ⟨fl1, h1, hw1, hm1, hp1, he1⟩ := ih
      { st with files := Function.update st.files f (some (file_deliver false ev fl)) }
      (file_deliver false ev fl) hd (by simp) (hnp.2.2 hw)
    refine ⟨fl1, h1.trans ?_, hw1, hm1, hp1.trans hnp.1, ?_⟩
    · simp
    · rw [he1]
      by_cases hfull : ring_next fl.private_data.head = fl.private_data.tail
      · rw [file_deliver_full false ev fl hfull]
        have hc : ring_count fl.private_data = 63 := (ring_full_iff _ hw.1 hw.2.1).1 hfull
        simp [hc]
      · obtain ⟨_, _, hev, _, _⟩ := node_stored ev fl.private_data hw hfull
        have hc : ring_count fl.private_data ≠ 63 :=
          fun h => hfull ((ring_full_iff _ hw.1 hw.2.1).2 h)
        have hlt := ring_count_lt fl.private_data
        simp only [OVR_HIDRAW_BUFFER_SIZE] at hlt
        have hc1 : ring_count (file_deliver false ev fl).private_data =
            ring_count fl.private_data + 1 := by
          rw [← ring_events_length, ← ring_events_length]
          simp only [file_deliver]; rw [hev]; simp
        rw [hc1]
        simp only [file_deliver]; rw [hev]
        have : 63 - ring_count fl.private_data = (63 - (ring_count fl.private_data + 1)) + 1 := by
          omega
        rw [this, List.take_succ_cons]
        simp


theorem deliver_all_append (dev : Nat) :
    ∀ (a b : List (List Nat)) (st : ovr_state),
      deliver_all dev (a ++ b) st = (deliver_all dev a st).bind (deliver_all dev b) := by
  intro a
  induction a with
  | nil => intro b st; simp [deliver_all]
  | cons ev a ih =>
    intro b st
    simp only [List.cons_append, deliver_all]
    cases ovr_report_event st dev ev (fun _ => false) with
    | none => rfl
    | some r => exact ih b r.2

theorem deliver_all_full (dev f : Nat) (d : hidraw) (hl : d.list = [f]) (st : ovr_state)
    (fl : file) (hd : st.hidraws dev = some d) (hf : st.files f = some fl)
    (hfull : ring_next fl.private_data.head = fl.private_data.tail) :
    ∀ evs : List (List Nat), deliver_all dev evs st = some st := by
  intro evs
  induction evs with
  | nil => rfl
  | cons ev evs ih =>
    rw [deliver_all, report_event_single st dev f d fl ev hd hl hf,
      file_deliver_full false ev fl hfull]
    have : ({ st with files := Function.update st.files f (some fl) } : ovr_state) = st := by
      rw [← hf, Function.update_eq_self]
    simp only [this]
    exact ih

/-- One call of `ovr_hidraw_read` on a non-empty well-formed ring whose oldest
report `v` yields a positive byte count: exactly that slot is dequeued. -/
theorem read_one (ctx : read_ctx) (exist : Bool) (opens : Int) (l : hidraw_list)
    (mi : Nat → Nat → Nat) (hw : ring_wf l) (hne : l.head ≠ l.tail)
    (hf : ctx.copy_to_user_fails = false) :
    ∃ v, ring_events l = v :: ring_events (ring_pop l) ∧ ring_wf (ring_pop l) ∧
      (0 < min v.length ctx.count →
        ovr_hidraw_read ctx exist opens l mi =
          { ret := read_ret.ret (Int.ofNat (min v.length ctx.count)), out := v.take ctx.count,
            freed := [some v], list := ring_pop l,
            monitor_info := monitor_note_read opens mi ctx.file ctx.jiffies }) := by
  obtain ⟨v, hv, hev, hw1, _⟩ := ring_pop_spec l hw hne
  refine ⟨v, hev, hw1, ?_⟩
  intro hpos
  have h := read_loop_step ctx exist opens 63 [] [] l mi v hne hv hf
  rw [if_neg (by omega)] at h
  exact h

theorem read_n_queue (ctx : read_ctx) (d : hidraw) (hf : ctx.copy_to_user_fails = false)
    (hc : 0 < ctx.count) :
    ∀ (n : Nat) (st : ovr_state) (fl : file),
      st.files ctx.file = some fl → st.hidraws fl.private_data.hidraw = some d →
      ring_wf fl.private_data → n ≤ ring_count fl.private_data →
      (∀ e ∈ ring_events fl.private_data, e ≠ []) →
      ∃ st2 fl2, read_n ctx n st =
          some (((ring_events fl.private_data).take n).map (read_of ctx.count), st2) ∧
        st2.files ctx.file = some fl2 ∧ st2.hidraws = st.hidraws ∧ ring_wf fl2.private_data ∧
        fl2.private_data.hidraw = fl.private_data.hidraw ∧
        ring_events fl2.private_data = (ring_events fl.private_data).drop n := by
  intro n
  induction n with
  | zero =>
    intro st fl hfl _ hw _ _
    exact ⟨st, fl, by simp [read_n], hfl, rfl, hw, rfl, by simp⟩
  | succ n ih =>
    intro st fl hfl hd hw hn hne
    have hnz : ring_count fl.private_data ≠ 0 := by omega
    have hht : fl.private_data.head ≠ fl.private_data.tail :=
      fun h => hnz ((ring_empty_iff _ hw.1 hw.2.1).1 h)
    obtain ⟨v, hev, hw1, hread⟩ :=
      read_one ctx d.exist st.opens fl.private_data st.monitor_info hw hht hf
    have hv : v ≠ [] := hne v (by rw [hev]; exact List.mem_cons_self _ _)
    have hpos : 0 < min v.length ctx.count := by
      have := List.length_pos.2 hv
      omega
    have hr := hread hpos
    have hpop : (ring_pop fl.private_data).hidraw = fl.private_data.hidraw := rfl
    have hcnt : ring_count (ring_pop fl.private_data) + 1 = ring_count fl.private_data := by
      rw [← ring_events_length, ← ring_events_length, hev]; simp
    obtain ⟨st2, fl2, h2, hf2, hh2, hw2, hp2, he2⟩ := ih
      { st with
        files := Function.update st.files ctx.file
          (some { fl with private_data := ring_pop fl.private_data }),
        monitor_info := monitor_note_read st.opens st.monitor_info ctx.file ctx.jiffies }
      { fl with private_data := ring_pop fl.private_data }
      (by simp) (by simpa [hpop] using hd) hw1 (by show n ≤ ring_count (ring_pop _); omega)
      (by
        intro e he
        exact hne e (by rw [hev]; exact List.mem_cons_of_mem _ he))
    refine ⟨st2, fl2, ?_, hf2, hh2, hw2, hp2, ?_⟩
    · rw [read_n, read_file_eq st ctx fl d hfl hd]
      simp only [hr]
      rw [h2, hev]
      simp [read_of]
    · rw [he2, hev]; simp


/-! # The claims -/

/-- C1 (as amended): a ring of `OVR_HIDRAW_BUFFER_SIZE` = 64 slots holds 63
reports.  For a device whose only session has an empty ring, delivering 65
non-empty reports with no read in between stores the first 63 and drops the two
newest (the state is the one reached by delivering the first 63 only); 63
consecutive reads then return those 63 reports in delivery order, after which
the ring is empty, poll reports nothing ready and a non-blocking read returns
`-EAGAIN`. -/
theorem c1_ring_holds_63 (st : ovr_state) (dev f : Nat) (d : hidraw) (fl : file)
    (evs : List (List Nat)) (ctx : read_ctx)
    (hd : st.hidraws dev = some d) (hl : d.list = [f]) (hex : d.exist = true)
    (hf : st.files f = some fl) (hp : fl.private_data.hidraw = dev)
    (hempty : fl.private_data.head = fl.private_data.tail)
    (hh : fl.private_data.head < OVR_HIDRAW_BUFFER_SIZE)
    (hlen : evs.length = OVR_HIDRAW_BUFFER_SIZE + 1) (hne : ∀ e ∈ evs, e ≠ [])
    (hfile : ctx.file = f) (hcount : 0 < ctx.count)
    (hfault : ctx.copy_to_user_fails = false) :
    ∃ st1 st2 fl2,
      deliver_all dev evs st = some st1 ∧
      deliver_all dev (evs.take 63) st = some st1 ∧
      read_n ctx 63 st1 = some ((evs.take 63).map (read_of ctx.count), st2) ∧
      st2.files f = some fl2 ∧ fl2.private_data.head = fl2.private_data.tail ∧
      ovr_hidraw_poll_file st2 f = some 0 ∧
      (ovr_hidraw_read_file st2 { ctx with nonblock := true, signal_pending := false }).map
        (fun r => r.1.ret) = some (read_ret.ret (-EAGAIN)) := by
  subst hfile
  have hw : ring_wf fl.private_data := by
    refine ⟨hh, hempty ▸ hh, ?_⟩
    intro k hk
    simp only [OVR_HIDRAW_BUFFER_SIZE] at hh
    have : ring_count fl.private_data = 0 :=
      (ring_empty_iff _ hh (hempty ▸ hh)).1 hempty
    omega
  have hc0 : ring_count fl.private_data = 0 := by
    simp only [OVR_HIDRAW_BUFFER_SIZE] at hh
    exact (ring_empty_iff _ hh (hempty ▸ hh)).1 hempty
  have he0 : ring_events fl.private_data = [] := by
    rw [← List.length_eq_zero, ring_events_length, hc0]
  simp only [OVR_HIDRAW_BUFFER_SIZE] at hlen
  -- the first 63 deliveries
  obtain ⟨fl1, h1, hw1, _, hp1, hev1⟩ :=
    deliver_all_single dev ctx.file d hl (evs.take 63) st fl hd hf hw
  rw [he0, hc0] at hev1
  simp only [List.nil_append, Nat.sub_zero, List.take_take, Nat.min_self] at hev1
  have hcnt1 : ring_count fl1.private_data = 63 := by
    rw [← ring_events_length, hev1, List.length_take]; omega
  have hfull1 : ring_next fl1.private_data.head = fl1.private_data.tail :=
    (ring_full_iff _ hw1.1 hw1.2.1).2 hcnt1
  -- the last two change nothing
  have hall : deliver_all dev evs
      st = some { st with files := Function.update st.files ctx.file (some fl1) } := by
    conv_lhs => rw [← List.take_append_drop 63 evs]
    rw [deliver_all_append, h1]
    exact deliver_all_full dev ctx.file d hl
      { st with files := Function.update st.files ctx.file (some fl1) } fl1 hd
      (Function.update_same _ _ _) hfull1 _
  -- the 63 reads
  obtain ⟨st2, fl2, h2, hf2, hh2, hw2, hp2, hev2⟩ := read_n_queue ctx d hfault hcount 63
    { st with files := Function.update st.files ctx.file (some fl1) } fl1
    (Function.update_same _ _ _) (by rw [hp1, hp]; exact hd) hw1 (by omega)
    (by
      intro e he
      rw [hev1] at he
      exact hne e (List.mem_of_mem_take he))
  rw [hev1, List.take_take, Nat.min_self] at h2
  have hcnt2 : ring_count fl2.private_data = 0 := by
    rw [← ring_events_length, hev2, hev1, List.length_drop, List.length_take]; omega
  have hempty2 : fl2.private_data.head = fl2.private_data.tail :=
    (ring_empty_iff _ hw2.1 hw2.2.1).2 hcnt2
  have hd2 : st2.hidraws fl2.private_data.hidraw = some d := by
    rw [hh2, hp2, hp1, hp]; exact hd
  refine ⟨_, st2, fl2, hall, h1, h2, hf2, hempty2, ?_, ?_⟩
  · simp [ovr_hidraw_poll_file, hf2, hd2, ovr_hidraw_poll, hempty2, hex]
  · rw [read_file_eq st2 { ctx with nonblock := true, signal_pending := false } fl2 d hf2 hd2]
    simp only [Option.map_some', ovr_hidraw_read, OVR_HIDRAW_BUFFER_SIZE]
    rw [read_loop_empty _ _ _ 63 _ _ _ _ hempty2]
    simp [hex]

/-- C1, instance of the amended statement: the device at address 1 with the
single session of file 7 and the 65 one-byte reports `[1], ..., [65]`. -/
theorem c1_ring_holds_63_witness :
    ∃ st1 st2 fl2,
      deliver_all 1 events65 st_opened = some st1 ∧
      deliver_all 1 (events65.take 63) st_opened = some st1 ∧
      read_n ctx_nonblock 63 st1 =
        some ((events65.take 63).map (read_of ctx_nonblock.count), st2) ∧
      st2.files 7 = some fl2 ∧ fl2.private_data.head = fl2.private_data.tail ∧
      ovr_hidraw_poll_file st2 7 = some 0 ∧
      (ovr_hidraw_read_file st2
          { ctx_nonblock with nonblock := true, signal_pending := false }).map
        (fun r => r.1.ret) = some (read_ret.ret (-EAGAIN)) :=
  c1_ring_holds_63 st_opened 1 7
    { minor := 0, exist := true, open_count := 1, list := [7], hid := hid_echo }
    { minor := 0, private_data := hidraw_list_zero 1 } events65 ctx_nonblock
    rfl rfl rfl rfl rfl rfl (by decide) (by decide) (by decide) rfl (by decide) rfl

set_option maxRecDepth 100000 in
/-- C1 as stated fails on the code: after 65 reports are delivered to the fresh
session of file 7, the 64th of 64 consecutive reads does not return the 64th
report; it finds the ring empty and returns `-EAGAIN`.  Two reports were
dropped, not one. -/
theorem c1_sixty_four_reads_counterexample :
    ((deliver_all 1 events65 st_opened).bind (read_n ctx_nonblock 64)).map (fun r => r.1) =
      some ((events65.take 63).map (read_of 8) ++ [(read_ret.ret (-EAGAIN), [])]) ∧
    ((deliver_all 1 events65 st_opened).bind (read_n ctx_nonblock 64)).map (fun r => r.1) ≠
      some ((events65.take 64).map (read_of 8)) := by
  decide


/-- The queue of a session after one pass of the loop body with a copy that
succeeds: unchanged when the ring is full, extended by `data` otherwise. -/
theorem file_deliver_events (data : List Nat) (fl : file) (hw : ring_wf fl.private_data) :
    (file_deliver false data fl).private_data.tail = fl.private_data.tail ∧
    ring_events (file_deliver false data fl).private_data =
      if ring_next fl.private_data.head = fl.private_data.tail then ring_events fl.private_data
      else ring_events fl.private_data ++ [data] := by
  by_cases hfull : ring_next fl.private_data.head = fl.private_data.tail
  · rw [file_deliver_full false data fl hfull, if_pos hfull]; exact ⟨rfl, rfl⟩
  · rw [if_neg hfull]
    obtain ⟨_, _, hev, ht, _⟩ := node_stored data fl.private_data hw hfull
    exact ⟨ht, hev⟩

/-- C2 (as amended): when the copy for a session fails, `ovr_report_event`
stops at that session and returns `-ENOMEM`.  The sessions before it in list
order have been served (each non-full one got the report as its newest entry,
each full one is unchanged); the session whose copy failed keeps its queue and
indices; the sessions after it, and every file outside the list, are unchanged. -/
theorem c2_copy_failure_stops_delivery (st : ovr_state) (dev : Nat) (d : hidraw)
    (data : List Nat) (fails : Nat → Bool) (pre post : List Nat) (f : Nat) (fl : file)
    (hi : ovr_inv st) (hd : st.hidraws dev = some d) (hl : d.list = pre ++ f :: post)
    (hpre : ∀ k, k < pre.length → fails k = false)
    (hf : st.files f = some fl)
    (hnf : ring_next fl.private_data.head ≠ fl.private_data.tail)
    (hfail : fails pre.length = true) :
    ∃ st1, ovr_report_event st dev data fails = some (-ENOMEM, st1) ∧
      (∀ g ∈ pre, ∃ gl gl1, st.files g = some gl ∧ st1.files g = some gl1 ∧
        gl1.private_data.tail = gl.private_data.tail ∧
        ring_events gl1.private_data =
          if ring_next gl.private_data.head = gl.private_data.tail
          then ring_events gl.private_data else ring_events gl.private_data ++ [data]) ∧
      (∃ fl1, st1.files f = some fl1 ∧ ring_events fl1.private_data = ring_events fl.private_data ∧
        fl1.private_data.head = fl.private_data.head ∧
        fl1.private_data.tail = fl.private_data.tail) ∧
      (∀ g ∈ post, st1.files g = st.files g) ∧
      (∀ g, g ∉ d.list → st1.files g = st.files g) := by
  obtain ⟨_, hnd, hfiles⟩ := hi.dev_list dev d hd
  rw [hl] at hnd hfiles
  have hnd_pre : pre.Nodup := (List.nodup_append.1 hnd).1
  have hf_pre : f ∉ pre := fun h =>
    (List.nodup_append.1 hnd).2.2 h (List.mem_cons_self _ _)
  have hnd_post : f ∉ post := (List.nodup_cons.1 (List.nodup_append.1 hnd).2.1).1
  have hpost_pre : ∀ g ∈ post, g ∉ pre := fun g hg h =>
    (List.nodup_append.1 hnd).2.2 h (List.mem_cons_of_mem _ hg)
  have hpreloop := loop_no_fail fails data pre 0 st.files hnd_pre
    (fun g hg => (hfiles g (List.mem_append_left _ hg)).imp fun _ h => h.1)
    (fun k hk => by simpa using hpre k hk)
  have hwf : ring_wf fl.private_data := (hi.file_dev f fl hf).1
  have hloop : ovr_report_event_loop fails data 0 (pre ++ f :: post) st.files =
      some (-ENOMEM, Function.update
        (fun g => if g ∈ pre then (st.files g).map (file_deliver false data) else st.files g)
        f (some (file_deliver true data fl))) := by
    rw [loop_append fails data pre (f :: post) 0 st.files _ hpreloop,
      loop_cons fails data _ f post _ fl (by simp [hf_pre, hf])]
    simp only [Nat.zero_add, hfail]
    rw [if_pos ((node_step_cases true data fl.private_data).2 ⟨hnf, rfl⟩)]
  have hre : ovr_report_event st dev data fails = some (-ENOMEM, { st with
      files := Function.update
        (fun g => if g ∈ pre then (st.files g).map (file_deliver false data) else st.files g)
        f (some (file_deliver true data fl)) }) := by
    simp only [ovr_report_event, hd, hl, hloop]
  refine ⟨_, hre, ?_, ?_, ?_, ?_⟩
  · intro g hg
    obtain ⟨gl, hgl, _⟩ := hfiles g (List.mem_append_left _ hg)
    have hgf : g ≠ f := fun h => hf_pre (h ▸ hg)
    obtain ⟨ht, hev⟩ := file_deliver_events data gl (hi.file_dev g gl hgl).1
    refine ⟨gl, file_deliver false data gl, hgl, ?_, ht, hev⟩
    dsimp only
    rw [Function.update_noteq hgf]
    simp [hg, hgl]
  · obtain ⟨_, _, hev, hh, ht, _⟩ := node_nomem data fl.private_data hwf hnf
    refine ⟨file_deliver true data fl, ?_, hev, hh, ht⟩
    dsimp only
    rw [Function.update_same]
  · intro g hg
    have hgf : g ≠ f := fun h => hnd_post (h ▸ hg)
    dsimp only
    rw [Function.update_noteq hgf]
    simp [hpost_pre g hg]
  · intro g hg
    rw [hl] at hg
    have hgf : g ≠ f := fun h => hg (by simp [h])
    have hgp : g ∉ pre := fun h => hg (List.mem_append_left _ h)
    dsimp only
    rw [Function.update_noteq hgf]
    simp [hgp]


theorem st_attached_reachable : ovr_reachable st_attached :=
  ovr_reachable.step (ovr_op.op_connect hid_echo (some 1) none) ovr_init st_attached
    ovr_reachable.init (fun _ _ => rfl) rfl

theorem st_opened_reachable : ovr_reachable st_opened :=
  ovr_reachable.step (ovr_op.op_open 0 7 false 0 0) st_attached st_opened
    st_attached_reachable ⟨by decide, by decide, rfl⟩ rfl

theorem st_two_reachable : ovr_reachable st_two :=
  ovr_reachable.step (ovr_op.op_open 0 8 false 0 0) st_opened st_two
    st_opened_reachable ⟨by decide, by decide, rfl⟩ rfl

theorem st_detached_reachable : ovr_reachable st_detached :=
  ovr_reachable.step (ovr_op.op_disconnect 1) st_opened st_detached
    st_opened_reachable
    ⟨{ minor := 0, exist := true, open_count := 1, list := [7], hid := hid_echo }, rfl, rfl⟩ rfl

/-- C2, instance of the amended statement: device 1 with the sessions of files
7 and 8, the copy for the first one failing. -/
theorem c2_copy_failure_stops_delivery_witness :
    ∃ st1, ovr_report_event st_two 1 [42] (fun i => i == 0) = some (-ENOMEM, st1) ∧
      (∀ g ∈ ([] : List Nat), ∃ gl gl1, st_two.files g = some gl ∧ st1.files g = some gl1 ∧
        gl1.private_data.tail = gl.private_data.tail ∧
        ring_events gl1.private_data =
          if ring_next gl.private_data.head = gl.private_data.tail
          then ring_events gl.private_data else ring_events gl.private_data ++ [[42]]) ∧
      (∃ fl1, st1.files 7 = some fl1 ∧
        ring_events fl1.private_data = ring_events (hidraw_list_zero 1) ∧
        fl1.private_data.head = (hidraw_list_zero 1).head ∧
        fl1.private_data.tail = (hidraw_list_zero 1).tail) ∧
      (∀ g ∈ [8], st1.files g = st_two.files g) ∧
      (∀ g, g ∉ [7, 8] → st1.files g = st_two.files g) :=
  c2_copy_failure_stops_delivery st_two 1
    { minor := 0, exist := true, open_count := 2, list := [7, 8], hid := hid_echo }
    [42] (fun i => i == 0) [] [8] 7 { minor := 0, private_data := hidraw_list_zero 1 }
    (reachable_inv st_two st_two_reachable) rfl rfl (fun k hk => absurd hk (Nat.not_lt_zero k))
    rfl (by decide) rfl

/-- C2 as stated fails on the code: with the sessions of files 7 and 8 on one
device, both rings empty, a failing copy for file 7 makes `ovr_report_event`
return `-ENOMEM` at once; file 8, whose ring is not full, does not receive the
report. -/
theorem c2_delivery_aborted_counterexample :
    (st_two.hidraws 1).map (fun d => d.list) = some [7, 8] ∧
    (ovr_report_event st_two 1 [42] (fun i => i == 0)).map
      (fun r => (r.1, (r.2.files 7).map (fun fl => ring_events fl.private_data),
        (r.2.files 8).map (fun fl => ring_events fl.private_data))) =
      some (-ENOMEM, some [], some []) ∧
    (ovr_report_event st_two 1 [42] (fun _ => false)).map
      (fun r => (r.1, (r.2.files 7).map (fun fl => ring_events fl.private_data),
        (r.2.files 8).map (fun fl => ring_events fl.private_data))) =
      some (0, some [[42]], some [[42]]) := by
  decide

/-- C3: the code admits a new session on a detached device.  In `st_detached`
slot 0 still holds the device (`exist = 0`, `open = 1`, session of file 7);
`ovr_hidraw_open` of minor 0 by file 8 returns 0, appends the session and
raises `open` to 2.  Only an empty slot makes it fail. -/
theorem c3_open_on_detached_device :
    st_detached.ovr_hidraw_table 0 = some 1 ∧
    (st_detached.hidraws 1).map (fun d => (d.exist, d.open_count, d.list)) =
      some (false, 1, [7]) ∧
    (ovr_hidraw_open st_detached 0 8 false 0 0).map
      (fun r => (r.1, (r.2.hidraws 1).map (fun d => (d.exist, d.open_count, d.list)),
        (r.2.files 8).map (fun fl => (fl.minor, fl.private_data.hidraw)))) =
      some (0, some (false, 2, [7, 8]), some (0, 1)) := by
  decide

/-- C4: on the detached device of `st_detached` the ioctl paths fail with
`-ENODEV` and leave the transport alone, but the write path does not test
`exist`: a two-byte write through file 7 invokes `hid_output_raw_report` and
returns its result. -/
theorem c4_write_on_detached_device :
    (st_detached.hidraws 1).map (fun d => d.exist) = some false ∧
    ovr_hidraw_write 4096 st_detached 7 ctl_ok 2 =
      some { ret := 2,
             calls := [transport_call.output_raw_report [9, 9] 2 HID_OUTPUT_REPORT],
             out := [] } ∧
    ovr_hidraw_ioctl 4096 4096 st_detached 7 { dir := 3, type := 72, nr := 6, size := 2 } ctl_ok =
      some (ctl_fail (-ENODEV)) ∧
    ovr_hidraw_ioctl 4096 4096 st_detached 7 { dir := 3, type := 72, nr := 7, size := 2 } ctl_ok =
      some (ctl_fail (-ENODEV)) := by
  decide

/-- C5 as stated fails on the code: on the detached device of `st_detached` a
non-blocking read of the empty ring of file 7 returns `-EIO`, not `-EAGAIN`. -/
theorem c5_nonblocking_read_detached_counterexample :
    (st_detached.files 7).map (fun fl => ring_events fl.private_data) = some [] ∧
    (ovr_hidraw_read_file st_detached ctx_nonblock).map (fun r => r.1.ret) =
      some (read_ret.ret (- EIO)) ∧
    (ovr_hidraw_read_file st_detached ctx_nonblock).map (fun r => r.1.ret) ≠
      some (read_ret.ret (-EAGAIN)) := by
  decide

/-- C5 (as amended): on an empty ring a read with `O_NONBLOCK` never parks the
caller and consumes nothing; it returns `-ERESTARTSYS` when a signal is
pending, otherwise `-EIO` when the device no longer exists, otherwise
`-EAGAIN`. -/
theorem c5_nonblocking_read_on_empty (ctx : read_ctx) (exist : Bool) (opens : Int)
    (l : hidraw_list) (mi : Nat → Nat → Nat)
    (he : l.head = l.tail) (hnb : ctx.nonblock = true) :
    (ovr_hidraw_read ctx exist opens l mi).ret =
      (if ctx.signal_pending then read_ret.ret (-ERESTARTSYS)
       else if exist then read_ret.ret (-EAGAIN) else read_ret.ret (- EIO)) ∧
    (ovr_hidraw_read ctx exist opens l mi).ret ≠ read_ret.sleeping ∧
    (ovr_hidraw_read ctx exist opens l mi).ret ≠ read_ret.spinning ∧
    (ovr_hidraw_read ctx exist opens l mi).list.head = l.head ∧
    (ovr_hidraw_read ctx exist opens l mi).list.tail = l.tail ∧
    (ovr_hidraw_read ctx exist opens l mi).list.buffer = l.buffer ∧
    (ovr_hidraw_read ctx exist opens l mi).out = [] ∧
    (ovr_hidraw_read ctx exist opens l mi).freed = [] := by
  have h : ovr_hidraw_read ctx exist opens l mi =
      ovr_hidraw_read_loop ctx exist opens (63 + 1) [] [] l mi := rfl
  rw [h, read_loop_empty ctx exist opens 63 [] [] l mi he, hnb]
  cases ctx.signal_pending <;> cases exist <;> simp

/-- C5, instance of the amended statement: the fresh session of an existing
device, read without blocking. -/
theorem c5_nonblocking_read_on_empty_witness :
    (ovr_hidraw_read ctx_nonblock true 1 (hidraw_list_zero 1) (fun _ _ => 0)).ret =
      (if ctx_nonblock.signal_pending then read_ret.ret (-ERESTARTSYS)
       else if true then read_ret.ret (-EAGAIN) else read_ret.ret (- EIO)) ∧
    (ovr_hidraw_read ctx_nonblock true 1 (hidraw_list_zero 1) (fun _ _ => 0)).ret ≠
      read_ret.sleeping ∧
    (ovr_hidraw_read ctx_nonblock true 1 (hidraw_list_zero 1) (fun _ _ => 0)).ret ≠
      read_ret.spinning ∧
    (ovr_hidraw_read ctx_nonblock true 1 (hidraw_list_zero 1) (fun _ _ => 0)).list.head =
      (hidraw_list_zero 1).head ∧
    (ovr_hidraw_read ctx_nonblock true 1 (hidraw_list_zero 1) (fun _ _ => 0)).list.tail =
      (hidraw_list_zero 1).tail ∧
    (ovr_hidraw_read ctx_nonblock true 1 (hidraw_list_zero 1) (fun _ _ => 0)).list.buffer =
      (hidraw_list_zero 1).buffer ∧
    (ovr_hidraw_read ctx_nonblock true 1 (hidraw_list_zero 1) (fun _ _ => 0)).out = [] ∧
    (ovr_hidraw_read ctx_nonblock true 1 (hidraw_list_zero 1) (fun _ _ => 0)).freed = [] :=
  c5_nonblocking_read_on_empty ctx_nonblock true 1 (hidraw_list_zero 1) (fun _ _ => 0) rfl rfl

/-- C6: a read with `count = 0` does not stop after one report.  With the
reports `[1,2,3]` and `[4,5]` queued for file 7, the copy of zero bytes leaves
`ret == 0`, so the `while (ret == 0)` loop frees both reports, finds the ring
empty and returns `-EAGAIN`; nothing reaches the caller.  With `count = 8` the
same read returns the oldest report alone. -/
theorem c6_zero_count_read_drains_ring :
    (st_queued.files 7).map (fun fl => ring_events fl.private_data) =
      some [[1, 2, 3], [4, 5]] ∧
    (ovr_hidraw_read_file st_queued ctx_zero_count).map (fun r => (r.1.ret, r.1.out)) =
      some (read_ret.ret (-EAGAIN), []) ∧
    (ovr_hidraw_read_file st_queued ctx_zero_count).map (fun r => r.1.freed) =
      some [some [1, 2, 3], some [4, 5]] ∧
    (ovr_hidraw_read_file st_queued ctx_zero_count).map
      (fun r => (r.2.files 7).map (fun fl => ring_events fl.private_data)) = some (some []) ∧
    (ovr_hidraw_read_file st_queued ctx_nonblock).map (fun r => (r.1.ret, r.1.out)) =
      some (read_ret.ret 3, [1, 2, 3]) ∧
    (ovr_hidraw_read_file st_queued ctx_nonblock).map (fun r => r.1.freed) =
      some [some [1, 2, 3]] ∧
    (ovr_hidraw_read_file st_queued ctx_nonblock).map
      (fun r => (r.2.files 7).map (fun fl => ring_events fl.private_data)) =
      some (some [[4, 5]]) := by
  decide


/-- C7: in every reachable state each occupied slot holds an allocated device
with `exist == 1` or `open > 0`, and every operation the kernel can invoke is
defined there (it touches and frees allocated objects only, so nothing is freed
twice).  The operation frees a device exactly when it leaves it with
`exist == 0` and `open == 0`: `ovr_disconnect` of that device iff `open == 0`,
`ovr_hidraw_release` of one of its sessions iff the decrement reaches 0 with
`exist == 0`, and no other operation.  A freed device is taken out of its
slot; a device that stays allocated stays in its slot with `exist == 1` or
`open > 0`. -/
theorem c7_device_freed_iff (st : ovr_state) (op : ovr_op) (hr : ovr_reachable st)
    (hen : ovr_enabled op st) :
    (∀ m p, st.ovr_hidraw_table m = some p →
      ∃ d, st.hidraws p = some d ∧ (d.exist = true ∨ 0 < d.open_count)) ∧
    ∃ st1, ovr_apply op st = some st1 ∧
      ∀ p d, st.hidraws p = some d →
        (st1.hidraws p = none ↔ op_frees op st p) ∧
        (st1.hidraws p = none →
          st.ovr_hidraw_table d.minor = some p ∧ st1.ovr_hidraw_table d.minor = none) ∧
        (∀ d1, st1.hidraws p = some d1 →
          st1.ovr_hidraw_table d1.minor = some p ∧ (d1.exist = true ∨ 0 < d1.open_count)) := by
  have hi := reachable_inv st hr
  refine ⟨fun m p h => ?_, ?_⟩
  · obtain ⟨_, d, hd, _⟩ := hi.table_dev m p h
    exact ⟨d, hd, (hi.dev_table p d hd).2⟩
  obtain ⟨st1, happ, hi1⟩ := inv_step op st hi hen
  refine ⟨st1, happ, fun p d hd => ⟨?_, ?_, fun d1 h1 => hi1.dev_table p d1 h1⟩⟩
  · -- freed iff
    cases op with
    | op_serial len sg =>
      simp only [ovr_apply, Option.some.injEq] at happ
      subst happ
      simp [op_frees, hd]
    | op_connect hid kzalloc err =>
      simp only [ovr_apply, Option.some.injEq] at happ
      subst happ
      simp only [op_frees, iff_false]
      rcases connect_eq st hid kzalloc err with h | ⟨dev, m, hk, _, _, heq⟩
      · rw [h, hd]; simp
      · have hpd : p ≠ dev := fun h => by
          rw [h, hen dev hk] at hd; cases hd
        rw [heq]; dsimp only
        rw [Function.update_noteq hpd, hd]; simp
    | op_disconnect q =>
      obtain ⟨dq, hdq, _⟩ := hen
      have hm := (hi.table_dev _ _ (hi.dev_table q dq hdq).1).1
      simp only [ovr_apply, disconnect_eq st q dq hdq hm, Option.some.injEq] at happ
      subst happ
      simp only [op_frees]
      by_cases hqp : q = p
      · subst hqp
        rw [hd] at hdq; cases hdq
        by_cases ho : d.open_count ≠ 0
        · rw [if_pos ho]; dsimp only
          rw [Function.update_same]
          simp [hd, ho]
        · rw [if_neg ho]; dsimp only
          rw [Function.update_same]
          simp only [ne_eq, not_not] at ho
          simp [hd, ho]
      · have hpq : p ≠ q := fun h => hqp h.symm
        split_ifs <;> dsimp only <;> rw [Function.update_noteq hpq, hd] <;> simp [hqp]
    | op_open minor f kf jiffies pid =>
      simp only [op_frees, iff_false]
      rcases open_eq st minor f kf jiffies pid hen.1 with ⟨h, _⟩ | ⟨h, _⟩ | ⟨_, _, _, h⟩ |
        ⟨p0, d0, _, _, _, h⟩ <;>
        simp only [ovr_apply, h, Option.map_some', Option.map_none', Option.some.injEq,
          reduceCtorEq] at happ
      · subst happ; rw [hd]; simp
      · subst happ; rw [hd]; simp
      · subst happ; dsimp only
        by_cases hpp : p = p0
        · rw [hpp, Function.update_same]; simp
        · rw [Function.update_noteq hpp, hd]; simp
    | op_release f =>
      obtain ⟨fl, hf⟩ := hen
      obtain ⟨d0, hd0, heq⟩ := release_eq st f fl hi hf
      simp only [ovr_apply, heq, Option.map_some', Option.some.injEq] at happ
      subst happ
      simp only [op_frees, hf, Option.some.injEq, exists_and_left, exists_eq_left']
      by_cases hpp : p = fl.private_data.hidraw
      · subst hpp
        rw [hd] at hd0; cases hd0
        by_cases hfree : d.open_count - 1 = 0 ∧ d.exist = false
        · rw [if_pos hfree]; dsimp only
          rw [Function.update_same]
          simp [hd, hfree]
        · rw [if_neg hfree]; dsimp only
          rw [Function.update_same]
          simp only [reduceCtorEq, hd, Option.some.injEq, exists_eq_left', true_and, false_iff]
          exact hfree
      · have : fl.private_data.hidraw ≠ p := fun h => hpp h.symm
        split_ifs <;> dsimp only <;> rw [Function.update_noteq hpp, hd] <;> simp [this]
    | op_report_event dev data fails =>
      obtain ⟨d0, hd0, _⟩ := hen
      obtain ⟨ret, files1, h, _⟩ := inv_report_event st dev d0 data fails hi hd0
      simp only [ovr_apply, h, Option.map_some', Option.some.injEq] at happ
      subst happ
      simp [op_frees, hd]
    | op_read ctx =>
      obtain ⟨fl, hf⟩ := hen
      obtain ⟨_, d0, hd0, _⟩ := hi.file_dev _ fl hf
      simp only [ovr_apply, read_file_eq st ctx fl d0 hf hd0, Option.map_some',
        Option.some.injEq] at happ
      subst happ
      simp [op_frees, hd]
  · -- a freed device has left its slot
    intro hnone
    have htab := (hi.dev_table p d hd).1
    refine ⟨htab, ?_⟩
    by_contra hne
    obtain ⟨q, hq⟩ := Option.ne_none_iff_exists'.1 hne
    obtain ⟨_, dq, hdq, hdm⟩ := hi1.table_dev _ _ hq
    -- the slot of a device changes only when that device is freed; so `q` is a
    -- device of `st1` sitting in the slot that `p` had in `st`
    cases op with
    | op_serial len sg =>
      simp only [ovr_apply, Option.some.injEq] at happ
      subst happ
      rw [hd] at hnone; cases hnone
    | op_connect hid kzalloc err =>
      simp only [ovr_apply, Option.some.injEq] at happ
      subst happ
      rcases connect_eq st hid kzalloc err with h | ⟨dev, m, hk, _, _, heq⟩
      · rw [h, hd] at hnone; cases hnone
      · have hpd : p ≠ dev := fun h => by
          rw [h, hen dev hk] at hd; cases hd
        rw [heq] at hnone; dsimp only at hnone
        rw [Function.update_noteq hpd, hd] at hnone; cases hnone
    | op_disconnect q0 =>
      obtain ⟨dq0, hdq0, _⟩ := hen
      have hm := (hi.table_dev _ _ (hi.dev_table q0 dq0 hdq0).1).1
      simp only [ovr_apply, disconnect_eq st q0 dq0 hdq0 hm, Option.some.injEq] at happ
      subst happ
      by_cases hqp : p = q0
      · subst hqp
        rw [hd] at hdq0; cases hdq0
        by_cases ho : d.open_count ≠ 0
        · rw [if_pos ho] at hnone; dsimp only at hnone
          rw [Function.update_same] at hnone; cases hnone
        · rw [if_neg ho] at hq; dsimp only at hq
          rw [Function.update_same] at hq; cases hq
      · split_ifs at hnone <;> dsimp only at hnone <;>
          rw [Function.update_noteq hqp, hd] at hnone <;> cases hnone
    | op_open minor f kf jiffies pid =>
      rcases open_eq st minor f kf jiffies pid hen.1 with ⟨h, _⟩ | ⟨h, _⟩ | ⟨_, _, _, h⟩ |
        ⟨p0, d0, _, _, _, h⟩ <;>
        simp only [ovr_apply, h, Option.map_some', Option.map_none', Option.some.injEq,
          reduceCtorEq] at happ
      · subst happ; rw [hd] at hnone; cases hnone
      · subst happ; rw [hd] at hnone; cases hnone
      · subst happ; dsimp only at hnone
        by_cases hpp : p = p0
        · rw [hpp, Function.update_same] at hnone; cases hnone
        · rw [Function.update_noteq hpp, hd] at hnone; cases hnone
    | op_release f =>
      obtain ⟨fl, hf⟩ := hen
      obtain ⟨d0, hd0, heq⟩ := release_eq st f fl hi hf
      obtain ⟨_, _, d2, hd2, _, hdm2, _⟩ := inv_file_table st hi f fl hf
      simp only [ovr_apply, heq, Option.map_some', Option.some.injEq] at happ
      subst happ
      by_cases hpp : p = fl.private_data.hidraw
      · subst hpp
        rw [hd] at hd0 hd2; cases hd0; cases hd2
        by_cases hfree : d.open_count - 1 = 0 ∧ d.exist = false
        · rw [if_pos hfree] at hq; dsimp only at hq
          rw [hdm2, Function.update_same] at hq; cases hq
        · rw [if_neg hfree] at hnone; dsimp only at hnone
          rw [Function.update_same] at hnone; cases hnone
      · split_ifs at hnone <;> dsimp only at hnone <;>
          rw [Function.update_noteq hpp, hd] at hnone <;> cases hnone
    | op_report_event dev data fails =>
      obtain ⟨d0, hd0, _⟩ := hen
      obtain ⟨ret, files1, h, _⟩ := inv_report_event st dev d0 data fails hi hd0
      simp only [ovr_apply, h, Option.map_some', Option.some.injEq] at happ
      subst happ
      rw [show ({ st with files := files1 } : ovr_state).hidraws p = st.hidraws p from rfl, hd]
        at hnone
      cases hnone
    | op_read ctx =>
      obtain ⟨fl, hf⟩ := hen
      obtain ⟨_, d0, hd0, _⟩ := hi.file_dev _ fl hf
      simp only [ovr_apply, read_file_eq st ctx fl d0 hf hd0, Option.map_some',
        Option.some.injEq] at happ
      subst happ
      dsimp only at hnone
      rw [hd] at hnone; cases hnone


/-- C7, instance: the release of file 7 in `st_detached`, which frees the
detached device at address 1. -/
theorem c7_device_freed_iff_witness :
    (∀ m p, st_detached.ovr_hidraw_table m = some p →
      ∃ d, st_detached.hidraws p = some d ∧ (d.exist = true ∨ 0 < d.open_count)) ∧
    ∃ st1, ovr_apply (ovr_op.op_release 7) st_detached = some st1 ∧
      ∀ p d, st_detached.hidraws p = some d →
        (st1.hidraws p = none ↔ op_frees (ovr_op.op_release 7) st_detached p) ∧
        (st1.hidraws p = none →
          st_detached.ovr_hidraw_table d.minor = some p ∧
            st1.ovr_hidraw_table d.minor = none) ∧
        (∀ d1, st1.hidraws p = some d1 →
          st1.ovr_hidraw_table d1.minor = some p ∧ (d1.exist = true ∨ 0 < d1.open_count)) :=
  c7_device_freed_iff st_detached (ovr_op.op_release 7) st_detached_reachable
    ⟨{ minor := 0, private_data := hidraw_list_zero 1 }, rfl⟩

/-- C8: in every reachable state every occupied slot holds an allocated device
carrying that minor; the `open` count of every device is the length of its
session list, the list has no duplicates and its members are exactly the open
files whose session refers to the device; and for every open file the slot of
its minor holds the very device its session refers to, so that
`ovr_hidraw_release` succeeds and either frees that device or leaves it with
`open` decremented by one. -/
theorem c8_open_count_counts_sessions (st : ovr_state) (hr : ovr_reachable st) :
    (∀ m p, st.ovr_hidraw_table m = some p → ∃ d, st.hidraws p = some d ∧ d.minor = m) ∧
    (∀ p d, st.hidraws p = some d →
      d.open_count = (d.list.length : Int) ∧ d.list.Nodup ∧
      ∀ f, f ∈ d.list ↔ ∃ fl, st.files f = some fl ∧ fl.private_data.hidraw = p) ∧
    (∀ f fl, st.files f = some fl →
      st.ovr_hidraw_table fl.minor = some fl.private_data.hidraw ∧
      ∃ d, st.hidraws fl.private_data.hidraw = some d ∧ f ∈ d.list ∧
        ∃ st1, ovr_hidraw_release st f = some (0, st1) ∧
          (st1.hidraws fl.private_data.hidraw = none ∨
            ∃ d1, st1.hidraws fl.private_data.hidraw = some d1 ∧
              d1.open_count = d.open_count - 1 ∧ d1.list = d.list.erase f)) := by
  have hi := reachable_inv st hr
  refine ⟨fun m p h => (hi.table_dev m p h).2, fun p d hd => ?_, fun f fl hf => ?_⟩
  · obtain ⟨hoc, hnd, hfiles⟩ := hi.dev_list p d hd
    refine ⟨hoc, hnd, fun f => ⟨hfiles f, ?_⟩⟩
    rintro ⟨fl, hfl, hp⟩
    obtain ⟨_, d1, hd1, hmem, _⟩ := hi.file_dev f fl hfl
    rw [hp, hd] at hd1; cases hd1
    exact hmem
  · obtain ⟨_, htab, d, hd, hmem, _⟩ := inv_file_table st hi f fl hf
    obtain ⟨d0, hd0, heq⟩ := release_eq st f fl hi hf
    rw [hd] at hd0; cases hd0
    refine ⟨htab, d, hd, hmem, _, heq, ?_⟩
    by_cases hfree : d.open_count - 1 = 0 ∧ d.exist = false
    · left; rw [if_pos hfree]; dsimp only; rw [Function.update_same]
    · right; rw [if_neg hfree]; dsimp only; rw [Function.update_same]
      exact ⟨_, rfl, rfl, rfl⟩

/-- C8, instance: the state with files 7 and 8 open on the device at address 1. -/
theorem c8_open_count_counts_sessions_witness :
    (∀ m p, st_two.ovr_hidraw_table m = some p →
      ∃ d, st_two.hidraws p = some d ∧ d.minor = m) ∧
    (∀ p d, st_two.hidraws p = some d →
      d.open_count = (d.list.length : Int) ∧ d.list.Nodup ∧
      ∀ f, f ∈ d.list ↔ ∃ fl, st_two.files f = some fl ∧ fl.private_data.hidraw = p) ∧
    (∀ f fl, st_two.files f = some fl →
      st_two.ovr_hidraw_table fl.minor = some fl.private_data.hidraw ∧
      ∃ d, st_two.hidraws fl.private_data.hidraw = some d ∧ f ∈ d.list ∧
        ∃ st1, ovr_hidraw_release st_two f = some (0, st1) ∧
          (st1.hidraws fl.private_data.hidraw = none ∨
            ∃ d1, st1.hidraws fl.private_data.hidraw = some d1 ∧
              d1.open_count = d.open_count - 1 ∧ d1.list = d.list.erase f)) :=
  c8_open_count_counts_sessions st_two st_two_reachable


/-- C9: when no copy fails, `ovr_report_event` returns 0 and, for every session
in the list of the device, independently of the other sessions: a full ring is
left exactly as it was, and a ring that is not full gets a copy of the report
(same bytes, length recorded) in the slot at `head`, as the newest entry of its
queue, with `head` advanced and `tail` untouched.  Files outside the list, the
devices and the table are unchanged. -/
theorem c9_fan_out_per_session (st : ovr_state) (dev : Nat) (d : hidraw) (data : List Nat)
    (fails : Nat → Bool) (hi : ovr_inv st) (hd : st.hidraws dev = some d)
    (hno : ∀ k, fails k = false) :
    ∃ st1, ovr_report_event st dev data fails = some (0, st1) ∧
      (∀ f ∈ d.list, ∃ fl fl1, st.files f = some fl ∧ st1.files f = some fl1 ∧
        fl1.minor = fl.minor ∧ fl1.private_data.hidraw = fl.private_data.hidraw ∧
        fl1.private_data.tail = fl.private_data.tail ∧
        (ring_next fl.private_data.head = fl.private_data.tail → fl1 = fl) ∧
        (ring_next fl.private_data.head ≠ fl.private_data.tail →
          ring_events fl1.private_data = ring_events fl.private_data ++ [data] ∧
          fl1.private_data.head = ring_next fl.private_data.head ∧
          fl1.private_data.buffer fl.private_data.head =
            { value := some data, len := data.length })) ∧
      (∀ g, g ∉ d.list → st1.files g = st.files g) ∧
      st1.hidraws = st.hidraws ∧ st1.ovr_hidraw_table = st.ovr_hidraw_table := by
  obtain ⟨_, hnd, hfiles⟩ := hi.dev_list dev d hd
  have hloop := loop_no_fail fails data d.list 0 st.files hnd
    (fun g hg => (hfiles g hg).imp fun _ h => h.1) (fun k _ => hno _)
  have hre : ovr_report_event st dev data fails = some (0, { st with
      files := fun g => if g ∈ d.list then (st.files g).map (file_deliver false data)
                        else st.files g }) := by
    simp only [ovr_report_event, hd, hloop]
  refine ⟨_, hre, ?_, ?_, rfl, rfl⟩
  · intro f hf
    obtain ⟨fl, hfl, _⟩ := hfiles f hf
    have hw := (hi.file_dev f fl hfl).1
    have hnp := node_preserve false data fl.private_data
    refine ⟨fl, file_deliver false data fl, hfl, by simp [hf, hfl], rfl, hnp.1, hnp.2.1,
      fun hfull => file_deliver_full false data fl hfull, fun hnf => ?_⟩
    obtain ⟨_, _, hev, _, _⟩ := node_stored data fl.private_data hw hnf
    refine ⟨hev, ?_, ?_⟩
    · simp only [file_deliver, node_stored_eq data fl.private_data hnf, ring_next_eq]
    · simp only [file_deliver, node_stored_eq data fl.private_data hnf, buffer_set, if_true]
  · intro g hg
    simp [hg]

/-- C9, instance: one report delivered to the device with the sessions of
files 7 and 8. -/
theorem c9_fan_out_per_session_witness :
    ∃ st1, ovr_report_event st_two 1 [42] (fun _ => false) = some (0, st1) ∧
      (∀ f ∈ [7, 8], ∃ fl fl1, st_two.files f = some fl ∧ st1.files f = some fl1 ∧
        fl1.minor = fl.minor ∧ fl1.private_data.hidraw = fl.private_data.hidraw ∧
        fl1.private_data.tail = fl.private_data.tail ∧
        (ring_next fl.private_data.head = fl.private_data.tail → fl1 = fl) ∧
        (ring_next fl.private_data.head ≠ fl.private_data.tail →
          ring_events fl1.private_data = ring_events fl.private_data ++ [[42]] ∧
          fl1.private_data.head = ring_next fl.private_data.head ∧
          fl1.private_data.buffer fl.private_data.head =
            { value := some [42], len := [42].length })) ∧
      (∀ g, g ∉ [7, 8] → st1.files g = st_two.files g) ∧
      st1.hidraws = st_two.hidraws ∧ st1.ovr_hidraw_table = st_two.ovr_hidraw_table :=
  c9_fan_out_per_session st_two 1
    { minor := 0, exist := true, open_count := 2, list := [7, 8], hid := hid_echo }
    [42] (fun _ => false) (reachable_inv st_two st_two_reachable) rfl (fun _ => rfl)


theorem loop_untouched (fails : Nat → Bool) (data : List Nat) :
    ∀ (nodes : List Nat) (i : Nat) (files files1 : Nat → Option file) (ret : Int),
      ovr_report_event_loop fails data i nodes files = some (ret, files1) →
      ∀ g, g ∉ nodes → files1 g = files g := by
  intro nodes
  induction nodes with
  | nil =>
    intro i files files1 ret h g _
    simp only [ovr_report_event_loop, Option.some.injEq, Prod.mk.injEq] at h
    rw [h.2]
  | cons f rest ih =>
    intro i files files1 ret h g hg
    have hgf : g ≠ f := fun e => hg (e ▸ List.mem_cons_self _ _)
    have hgr : g ∉ rest := fun e => hg (List.mem_cons_of_mem _ e)
    cases hfl : files f with
    | none => rw [ovr_report_event_loop] at h; simp [hfl] at h
    | some fl =>
      rw [loop_cons fails data i f rest files fl hfl] at h
      split_ifs at h
      · simp only [Option.some.injEq, Prod.mk.injEq] at h
        rw [← h.2, Function.update_noteq hgf]
      · rw [ih (i + 1) _ files1 ret h g hgr, Function.update_noteq hgf]

/-- On a duplicate-free list the loop of `ovr_report_event` runs the loop body
at most once on each file. -/
theorem loop_effect (fails : Nat → Bool) (data : List Nat) :
    ∀ (nodes : List Nat) (i : Nat) (files files1 : Nat → Option file) (ret : Int),
      nodes.Nodup →
      ovr_report_event_loop fails data i nodes files = some (ret, files1) →
      ∀ g gl, files g = some gl →
        files1 g = some gl ∨ ∃ b, files1 g = some (file_deliver b data gl) := by
  intro nodes
  induction nodes with
  | nil =>
    intro i files files1 ret _ h g gl hg
    simp only [ovr_report_event_loop, Option.some.injEq, Prod.mk.injEq] at h
    left; rw [← h.2, hg]
  | cons f rest ih =>
    intro i files files1 ret hnd h g gl hg
    have hnot : f ∉ rest := (List.nodup_cons.1 hnd).1
    cases hfl : files f with
    | none => rw [ovr_report_event_loop] at h; simp [hfl] at h
    | some fl =>
      rw [loop_cons fails data i f rest files fl hfl] at h
      by_cases hgf : g = f
      · subst hgf
        rw [hfl] at hg; cases hg
        right; refine ⟨fails i, ?_⟩
        split_ifs at h
        · simp only [Option.some.injEq, Prod.mk.injEq] at h
          rw [← h.2, Function.update_same]
        · rw [loop_untouched fails data rest (i + 1) _ files1 ret h g hnot,
            Function.update_same]
      · split_ifs at h
        · simp only [Option.some.injEq, Prod.mk.injEq] at h
          left; rw [← h.2, Function.update_noteq hgf, hg]
        · exact ih (i + 1) _ files1 ret (List.nodup_cons.1 hnd).2 h g gl
            (by rw [Function.update_noteq hgf, hg])

/-- One pass of the loop body on a well-formed ring appends the report to the
queue exactly when it advances `head`, and changes the queue in no other way. -/
theorem file_deliver_accepts (b : Bool) (data : List Nat) (gl : file)
    (hw : ring_wf gl.private_data) :
    ring_events gl.private_data ++
        (if (file_deliver b data gl).private_data.head = gl.private_data.head then []
         else [data]) =
      ring_events (file_deliver b data gl).private_data := by
  by_cases hfull : ring_next gl.private_data.head = gl.private_data.tail
  · rw [file_deliver_full b data gl hfull]; simp
  · cases b
    · obtain ⟨_, _, hev, _, _⟩ := node_stored data gl.private_data hw hfull
      have hh : (file_deliver false data gl).private_data.head ≠ gl.private_data.head := by
        simp only [file_deliver, node_stored_eq data gl.private_data hfull]
        have := hw.1
        simp only [OVR_HIDRAW_BUFFER_SIZE] at this
        omega
      rw [if_neg hh]
      exact hev.symm
    · obtain ⟨_, _, hev, hh, _, _⟩ := node_nomem data gl.private_data hw hfull
      have hh1 : (file_deliver true data gl).private_data.head = gl.private_data.head := hh
      rw [if_pos hh1, List.append_nil]
      exact hev.symm

/-- One delivery or read, seen from file `f`: the queue before, extended by what
was accepted, is what was removed followed by the queue after. -/
theorem io_step_session (st st1 : ovr_state) (op : ovr_op) (f : Nat) (fl : file)
    (hi : ovr_inv st) (hio : op_is_io op) (hen : ovr_enabled op st)
    (happ : ovr_apply op st = some st1) (hf : st.files f = some fl) :
    ∃ fl1, st1.files f = some fl1 ∧
      ring_events fl.private_data ++ op_accepted f op st st1 =
        op_removed f op st ++ ring_events fl1.private_data := by
  have hw := (hi.file_dev f fl hf).1
  cases op with
  | op_serial len sg => exact absurd hio id
  | op_connect hid kzalloc err => exact absurd hio id
  | op_disconnect q => exact absurd hio id
  | op_open minor g kf jiffies pid => exact absurd hio id
  | op_release g => exact absurd hio id
  | op_report_event dev data fails =>
    obtain ⟨d, hd, _⟩ := hen
    obtain ⟨_, hnd, hfiles⟩ := hi.dev_list dev d hd
    cases hloop : ovr_report_event_loop fails data 0 d.list st.files with
    | none => simp [ovr_apply, ovr_report_event, hd, hloop] at happ
    | some r =>
      obtain ⟨ret, files1⟩ := r
      simp only [ovr_apply, ovr_report_event, hd, hloop, Option.map_some',
        Option.some.injEq] at happ
      subst happ
      rcases loop_effect fails data d.list 0 st.files files1 ret hnd hloop f fl hf with
        h | ⟨b, h⟩
      · refine ⟨fl, h, ?_⟩
        simp [op_accepted, op_removed, hf, h]
      · refine ⟨file_deliver b data fl, h, ?_⟩
        have := file_deliver_accepts b data fl hw
        simp only [op_accepted, op_removed, hf, h, List.nil_append]
        exact this
  | op_read ctx =>
    obtain ⟨fl0, hf0⟩ := hen
    obtain ⟨_, d, hd, _⟩ := hi.file_dev _ fl0 hf0
    have heq := read_file_eq st ctx fl0 d hf0 hd
    simp only [ovr_apply, heq, Option.map_some', Option.some.injEq] at happ
    subst happ
    by_cases hcf : ctx.file = f
    · subst hcf
      rw [hf] at hf0; cases hf0
      obtain ⟨_, _, _, _, consumed, hfreed, hev⟩ := read_loop_fifo ctx d.exist st.opens
        OVR_HIDRAW_BUFFER_SIZE [] [] fl.private_data st.monitor_info hw (ring_count_lt _)
      refine ⟨_, Function.update_same _ _ _, ?_⟩
      have hrem : op_removed ctx.file (ovr_op.op_read ctx) st = consumed := by
        simp only [op_removed, if_true, heq, ovr_hidraw_read, hfreed, List.nil_append]
        rw [List.filterMap_map]
        simp
      have hacc : op_accepted ctx.file (ovr_op.op_read ctx) st
          { st with
            files := Function.update st.files ctx.file (some { fl with private_data :=
              (ovr_hidraw_read ctx d.exist st.opens fl.private_data st.monitor_info).list }),
            monitor_info :=
              (ovr_hidraw_read ctx d.exist st.opens fl.private_data st.monitor_info).monitor_info }
          = [] := by
        simp [op_accepted]
      rw [hrem, hacc, List.append_nil]
      exact hev
    · refine ⟨fl, ?_, ?_⟩
      · dsimp only
        rw [Function.update_noteq (fun h => hcf h.symm), hf]
      · simp [op_accepted, op_removed, hcf]


theorem ops_enabled_cons (op : ovr_op) (ops : List ovr_op) (st st1 : ovr_state)
    (hio : op_is_io op) (hen : ovr_enabled op st) (happ : ovr_apply op st = some st1)
    (h : ops_enabled ops st1) : ops_enabled (op :: ops) st :=
  ⟨hio, hen, fun st2 h2 => by rw [happ] at h2; cases h2; exact h⟩

theorem st_queued_reachable : ovr_reachable st_queued :=
  ovr_reachable.step (ovr_op.op_report_event 1 [4, 5] (fun _ => false)) _ st_queued
    (ovr_reachable.step (ovr_op.op_report_event 1 [1, 2, 3] (fun _ => false)) st_opened _
      st_opened_reachable
      ⟨{ minor := 0, exist := true, open_count := 1, list := [7], hid := hid_echo }, rfl, rfl⟩
      rfl)
    ⟨{ minor := 0, exist := true, open_count := 1, list := [7], hid := hid_echo }, rfl, rfl⟩
    rfl

/-- C10: for every sequence of deliveries and reads, each invoked where the
kernel can invoke it, and every open file `f`: the run is defined, `f` stays
open, and the reports removed from the ring of `f` by its reads, followed by
those still queued at the end, are the reports queued at the start followed by
those the deliveries accepted into that ring, in the same order.  So the `k`-th
report removed is the `k`-th of them; for a ring that starts empty it is the
`k`-th report accepted: no reordering, no duplication. -/
theorem c10_session_fifo (f : Nat) :
    ∀ (ops : List ovr_op) (st : ovr_state) (fl : file),
      ovr_inv st → st.files f = some fl → ops_enabled ops st →
      ∃ acc rem st2 fl2, run_session f ops st = some (acc, rem, st2) ∧
        st2.files f = some fl2 ∧
        ring_events fl.private_data ++ acc = rem ++ ring_events fl2.private_data ∧
        (∀ k, k < rem.length → rem[k]? = (ring_events fl.private_data ++ acc)[k]?) ∧
        (ring_events fl.private_data = [] → ∀ k, k < rem.length → rem[k]? = acc[k]?) := by
  intro ops
  induction ops with
  | nil =>
    intro st fl _ hf _
    exact ⟨[], [], st, fl, rfl, hf, by simp, by simp, by simp⟩
  | cons op ops ih =>
    intro st fl hi hf hen
    obtain ⟨hio, hop, hrest⟩ := hen
    obtain ⟨st1, happ, hi1⟩ := inv_step op st hi hop
    obtain ⟨fl1, hf1, hstep⟩ := io_step_session st st1 op f fl hi hio hop happ hf
    obtain ⟨acc, rem, st2, fl2, hrun, hf2, heq, _, _⟩ := ih st1 fl1 hi1 hf1 (hrest st1 happ)
    have hall : ring_events fl.private_data ++ (op_accepted f op st st1 ++ acc) =
        (op_removed f op st ++ rem) ++ ring_events fl2.private_data := by
      rw [← List.append_assoc, hstep, List.append_assoc, heq, List.append_assoc]
    refine ⟨op_accepted f op st st1 ++ acc, op_removed f op st ++ rem, st2, fl2, ?_, hf2,
      hall, ?_, ?_⟩
    · simp only [run_session, happ, hrun]
    · intro k hk
      rw [hall, List.getElem?_append_left hk]
    · intro hnil k hk
      have h2 := hall
      rw [hnil, List.nil_append] at h2
      rw [h2, List.getElem?_append_left hk]

/-- C10, instance: from the state with `[1,2,3]` and `[4,5]` queued for file 7,
deliver `[6]` and read once. -/
theorem c10_session_fifo_witness :
    ∃ acc rem st2 fl2,
      run_session 7 [ovr_op.op_report_event 1 [6] (fun _ => false),
          ovr_op.op_read ctx_nonblock] st_queued = some (acc, rem, st2) ∧
        st2.files 7 = some fl2 ∧
        ring_events (file_deliver false [4, 5]
            (file_deliver false [1, 2, 3]
              { minor := 0, private_data := hidraw_list_zero 1 })).private_data ++ acc =
          rem ++ ring_events fl2.private_data ∧
        (∀ k, k < rem.length → rem[k]? =
          (ring_events (file_deliver false [4, 5]
            (file_deliver false [1, 2, 3]
              { minor := 0, private_data := hidraw_list_zero 1 })).private_data ++ acc)[k]?) ∧
        (ring_events (file_deliver false [4, 5]
            (file_deliver false [1, 2, 3]
              { minor := 0, private_data := hidraw_list_zero 1 })).private_data = [] →
          ∀ k, k < rem.length → rem[k]? = acc[k]?) :=
  c10_session_fifo 7
    [ovr_op.op_report_event 1 [6] (fun _ => false), ovr_op.op_read ctx_nonblock] st_queued
    (file_deliver false [4, 5]
      (file_deliver false [1, 2, 3] { minor := 0, private_data := hidraw_list_zero 1 }))
    (reachable_inv st_queued st_queued_reachable) rfl
    (ops_enabled_cons _ _ st_queued st_queued3 trivial
      ⟨{ minor := 0, exist := true, open_count := 1, list := [7], hid := hid_echo }, rfl, rfl⟩
      rfl
      (ops_enabled_cons _ _ st_queued3 st_queued3_read trivial
        ⟨file_deliver false [6] (file_deliver false [4, 5]
          (file_deliver false [1, 2, 3] { minor := 0, private_data := hidraw_list_zero 1 })),
          rfl⟩
        rfl trivial))

/-- One iteration of the read loop on a ring that is not empty, for any slot
contents. -/
theorem read_loop_succ_nonempty (ctx : read_ctx) (exist : Bool) (opens : Int) (n : Nat)
    (out : List Nat) (freed : List (Option (List Nat))) (l : hidraw_list)
    (mi : Nat → Nat → Nat) (hne : l.head ≠ l.tail) :
    ovr_hidraw_read_loop ctx exist opens (n + 1) out freed l mi =
      match (l.buffer l.tail).value with
      | some v =>
        if ctx.copy_to_user_fails then
          { ret := read_ret.ret (-EFAULT), out := out, freed := freed, list := l,
            monitor_info := mi }
        else if min (l.buffer l.tail).len ctx.count = 0 then
          ovr_hidraw_read_loop ctx exist opens n (v.take (min (l.buffer l.tail).len ctx.count))
            (freed ++ [some v]) (ring_pop l) (monitor_note_read opens mi ctx.file ctx.jiffies)
        else
          { ret := read_ret.ret (Int.ofNat (min (l.buffer l.tail).len ctx.count)),
            out := v.take (min (l.buffer l.tail).len ctx.count), freed := freed ++ [some v],
            list := ring_pop l,
            monitor_info := monitor_note_read opens mi ctx.file ctx.jiffies }
      | none => ovr_hidraw_read_loop ctx exist opens n out (freed ++ [none]) (ring_pop l) mi := by
  have hlen : (if (l.buffer l.tail).len > ctx.count then ctx.count else (l.buffer l.tail).len) =
      min (l.buffer l.tail).len ctx.count := by
    split_ifs with h
    · exact (Nat.min_eq_right (Nat.le_of_lt h)).symm
    · exact (Nat.min_eq_left (Nat.le_of_not_lt h)).symm
  rw [ovr_hidraw_read_loop]
  simp only [hne, if_false, hlen]

/-- A call of the read loop that ends parked in `schedule()` has found the ring
empty, the device existing, no signal pending and `O_NONBLOCK` clear. -/
theorem read_loop_sleeping (ctx : read_ctx) (exist : Bool) (opens : Int) :
    ∀ (fuel : Nat) (out : List Nat) (freed : List (Option (List Nat))) (l : hidraw_list)
      (mi : Nat → Nat → Nat),
      (ovr_hidraw_read_loop ctx exist opens fuel out freed l mi).ret = read_ret.sleeping →
      (ovr_hidraw_read_loop ctx exist opens fuel out freed l mi).list.head =
        (ovr_hidraw_read_loop ctx exist opens fuel out freed l mi).list.tail ∧
      exist = true ∧ ctx.nonblock = false ∧ ctx.signal_pending = false := by
  intro fuel
  induction fuel with
  | zero => intro out freed l mi h; simp [ovr_hidraw_read_loop] at h
  | succ n ih =>
    intro out freed l mi h
    by_cases he : l.head = l.tail
    · rw [read_loop_empty ctx exist opens n out freed l mi he] at h ⊢
      simp only at h ⊢
      cases hs : ctx.signal_pending <;> cases hx : exist <;> cases hn : ctx.nonblock <;>
        simp [hs, hx, hn] at h ⊢
      exact he
    · rw [read_loop_succ_nonempty ctx exist opens n out freed l mi he] at h ⊢
      cases hv : (l.buffer l.tail).value with
      | none =>
        simp only [hv] at h ⊢
        exact ih _ _ _ _ h
      | some v =>
        simp only [hv] at h ⊢
        split_ifs at h ⊢ with hf hz
        exact ih _ _ _ _ h

/-- The `kfree` log of a call of the read loop extends the log it started with. -/
theorem read_loop_freed_extends (ctx : read_ctx) (exist : Bool) (opens : Int) :
    ∀ (fuel : Nat) (out : List Nat) (freed : List (Option (List Nat))) (l : hidraw_list)
      (mi : Nat → Nat → Nat),
      ∃ extra, (ovr_hidraw_read_loop ctx exist opens fuel out freed l mi).freed =
        freed ++ extra := by
  intro fuel
  induction fuel with
  | zero => intro out freed l mi; exact ⟨[], by simp [ovr_hidraw_read_loop]⟩
  | succ n ih =>
    intro out freed l mi
    by_cases he : l.head = l.tail
    · rw [read_loop_empty ctx exist opens n out freed l mi he]
      exact ⟨[], by simp⟩
    · rw [read_loop_succ_nonempty ctx exist opens n out freed l mi he]
      cases hv : (l.buffer l.tail).value with
      | none =>
        simp only
        obtain ⟨extra, h⟩ := ih out (freed ++ [none]) (ring_pop l) mi
        exact ⟨[none] ++ extra, by rw [h]; simp⟩
      | some v =>
        simp only
        split_ifs with hf hz
        · exact ⟨[], by simp⟩
        · obtain ⟨extra, h⟩ := ih (v.take (min (l.buffer l.tail).len ctx.count))
            (freed ++ [some v]) (ring_pop l) (monitor_note_read opens mi ctx.file ctx.jiffies)
          exact ⟨[some v] ++ extra, by rw [h]; simp⟩
        · exact ⟨[some v], rfl⟩

/-- A call of the read loop on a ring that is not empty is not parked without
having freed a slot. -/
theorem read_loop_nonempty_not_parked_at_once (ctx : read_ctx) (exist : Bool) (opens : Int)
    (fuel : Nat) (out : List Nat) (l : hidraw_list) (mi : Nat → Nat → Nat)
    (hne : l.head ≠ l.tail) :
    ¬ ((ovr_hidraw_read_loop ctx exist opens fuel out [] l mi).ret = read_ret.sleeping ∧
       (ovr_hidraw_read_loop ctx exist opens fuel out [] l mi).freed = []) := by
  cases fuel with
  | zero => simp [ovr_hidraw_read_loop]
  | succ n =>
    rw [read_loop_succ_nonempty ctx exist opens n out [] l mi hne]
    cases hv : (l.buffer l.tail).value with
    | none =>
      simp only
      obtain ⟨extra, h⟩ := read_loop_freed_extends ctx exist opens n out ([] ++ [none])
        (ring_pop l) mi
      rw [h]; simp
    | some v =>
      simp only
      split_ifs with hf hz
      · simp
      · obtain ⟨extra, h⟩ := read_loop_freed_extends ctx exist opens n
          (v.take (min (l.buffer l.tail).len ctx.count))
          ([] ++ [some v]) (ring_pop l) (monitor_note_read opens mi ctx.file ctx.jiffies)
        rw [h]; simp
      · simp

/-- The event mask of `ovr_hidraw_poll` and the wait loop of `ovr_hidraw_read`
on the same ring.  Poll reports readable (`POLLIN | POLLRDNORM`) exactly when
`head != tail`, hang-up (`POLLERR | POLLHUP`) exactly when the ring is empty
and the device no longer exists, and nothing (0) exactly when the ring is empty
and the device exists.  With `O_NONBLOCK` clear and no signal pending, poll
reports nothing exactly when the read parks the caller with nothing consumed;
whenever a read parks, poll reports nothing on the ring it leaves; and on a
ring that is not empty a read whose oldest report yields a positive byte
count does not park.  A read that consumes reports of byte count 0 is outside
these statements. -/
theorem poll_zero_iff_read_parks_at_once (ctx : read_ctx) (exist : Bool) (opens : Int)
    (l : hidraw_list) (mi : Nat → Nat → Nat)
    (hb : ctx.nonblock = false) (hs : ctx.signal_pending = false) :
    (ovr_hidraw_poll exist l = POLLIN ||| POLLRDNORM ↔ l.head ≠ l.tail) ∧
    (ovr_hidraw_poll exist l = POLLERR ||| POLLHUP ↔ l.head = l.tail ∧ exist = false) ∧
    (ovr_hidraw_poll exist l = 0 ↔ l.head = l.tail ∧ exist = true) ∧
    (ovr_hidraw_poll exist l = 0 ↔
      (ovr_hidraw_read ctx exist opens l mi).ret = read_ret.sleeping ∧
      (ovr_hidraw_read ctx exist opens l mi).freed = []) ∧
    ((ovr_hidraw_read ctx exist opens l mi).ret = read_ret.sleeping →
      ovr_hidraw_poll exist (ovr_hidraw_read ctx exist opens l mi).list = 0) ∧
    (ring_wf l → l.head ≠ l.tail → 0 < min (l.buffer l.tail).len ctx.count →
      (ovr_hidraw_read ctx exist opens l mi).ret ≠ read_ret.sleeping) := by
  have hread : ovr_hidraw_read ctx exist opens l mi =
      ovr_hidraw_read_loop ctx exist opens (63 + 1) [] [] l mi := rfl
  have hp : POLLIN ||| POLLRDNORM = 65 := by decide
  have hq : POLLERR ||| POLLHUP = 24 := by decide
  refine ⟨?_, ?_, ?_, ?_, ?_, ?_⟩
  · unfold ovr_hidraw_poll; rw [hp, hq]
    by_cases he : l.head = l.tail <;> cases exist <;> simp [he]
  · unfold ovr_hidraw_poll; rw [hp, hq]
    by_cases he : l.head = l.tail <;> cases exist <;> simp [he]
  · unfold ovr_hidraw_poll; rw [hp, hq]
    by_cases he : l.head = l.tail <;> cases exist <;> simp [he]
  · by_cases he : l.head = l.tail
    · rw [hread, read_loop_empty ctx exist opens 63 [] [] l mi he, hb, hs]
      unfold ovr_hidraw_poll; rw [hp, hq]
      cases exist <;> simp [he]
    · have h1 := read_loop_nonempty_not_parked_at_once ctx exist opens (63 + 1) [] l mi he
      rw [← hread] at h1
      have h2 : ovr_hidraw_poll exist l ≠ 0 := by
        unfold ovr_hidraw_poll; rw [hp]; simp [he]
      exact ⟨fun h => absurd h h2, fun h => absurd h h1⟩
  · intro h
    rw [hread] at h ⊢
    obtain ⟨he, hx, _, _⟩ := read_loop_sleeping ctx exist opens (63 + 1) [] [] l mi h
    unfold ovr_hidraw_poll
    rw [if_neg (not_not.2 he), hx]
    rfl
  · intro hw hne hpos
    obtain ⟨v, hv, _⟩ := ring_pop_spec l hw hne
    rw [hread, read_loop_succ_nonempty ctx exist opens 63 [] [] l mi hne, hv]
    simp only
    rw [hv] at hpos
    split_ifs with hf hz
    · simp
    · simp only at hz hpos; omega
    · simp

/-- C11: poll and the blocking read disagree on a ring that is not empty.  With
the reports `[1,2,3]` and `[4,5]` queued for file 7 on the attached device,
`ovr_hidraw_poll` reports `POLLIN | POLLRDNORM`; yet a blocking read with
`count = 0` and no signal pending copies zero bytes, which leaves `ret == 0`,
frees both reports and parks the caller in `schedule()`.  Poll on the ring the
read leaves reports nothing.  With `count = 8` the same read returns the oldest
report and does not park. -/
theorem c11_poll_readable_but_read_parks :
    (st_queued.files 7).map (fun fl => ring_events fl.private_data) =
      some [[1, 2, 3], [4, 5]] ∧
    (st_queued.hidraws 1).map (fun d => d.exist) = some true ∧
    ovr_hidraw_poll_file st_queued 7 = some (POLLIN ||| POLLRDNORM) ∧
    (ovr_hidraw_read_file st_queued ctx_blocking_zero).map (fun r => (r.1.ret, r.1.out)) =
      some (read_ret.sleeping, []) ∧
    (ovr_hidraw_read_file st_queued ctx_blocking_zero).map (fun r => r.1.freed) =
      some [some [1, 2, 3], some [4, 5]] ∧
    (ovr_hidraw_read_file st_queued ctx_blocking_zero).bind
      (fun r => ovr_hidraw_poll_file r.2 7) = some 0 ∧
    (ovr_hidraw_read_file st_queued ctx_blocking).map (fun r => (r.1.ret, r.1.out)) =
      some (read_ret.ret 3, [1, 2, 3]) := by
  decide

/-- C12 as stated fails on the code in two points.  With slot 0 occupied,
`ovr_connect` installs the new device in slot 1 and returns 0, not the slot id;
and when the allocation of the device object fails it fails with `-ENOMEM`
although slot 1 is free. -/
theorem c12_connect_return_value_counterexample :
    st_attached.ovr_hidraw_table 0 = some 1 ∧ st_attached.ovr_hidraw_table 1 = none ∧
    (ovr_connect st_attached hid_echo (some 2) none).1 = 0 ∧
    (ovr_connect st_attached hid_echo (some 2) none).2.ovr_hidraw_table 1 = some 2 ∧
    ((ovr_connect st_attached hid_echo (some 2) none).2.hidraws 2).map
      (fun d => (d.minor, d.exist, d.open_count, d.list)) = some (1, true, 0, []) ∧
    (ovr_connect st_attached hid_echo none none).1 = -ENOMEM ∧
    (ovr_connect st_attached hid_echo none none).2.ovr_hidraw_table 1 = none := by
  decide

/-- C12 (as amended): when the device object is allocated and the device node
is created, `ovr_connect` returns 0 or `-EINVAL`.  It returns `-EINVAL`, with
the state unchanged, exactly when all `OVR_HIDRAW_MAX_DEVICES` slots are
occupied.  When it returns 0 it has installed the new device, with
`exist == 1`, `open == 0`, an empty session list and `minor` set to the slot
id, in the lowest-indexed empty slot; every other slot, every other device and
every file is unchanged, and the slot id is also stored in `ovr_minor` (with
`opens` reset to 0).  When the allocation fails it returns `-ENOMEM`, state
unchanged. -/
theorem c12_connect_lowest_free_slot (st : ovr_state) (hid : hid_device) (dev : Nat) :
    ((ovr_connect st hid (some dev) none).1 = 0 ∨
      (ovr_connect st hid (some dev) none).1 = -EINVAL) ∧
    ((ovr_connect st hid (some dev) none).1 = -EINVAL ↔
      ∀ m, m < OVR_HIDRAW_MAX_DEVICES → st.ovr_hidraw_table m ≠ none) ∧
    ((ovr_connect st hid (some dev) none).1 = -EINVAL →
      (ovr_connect st hid (some dev) none).2 = st) ∧
    ((ovr_connect st hid (some dev) none).1 = 0 →
      ∃ m, m < OVR_HIDRAW_MAX_DEVICES ∧ st.ovr_hidraw_table m = none ∧
        (∀ k, k < m → st.ovr_hidraw_table k ≠ none) ∧
        (ovr_connect st hid (some dev) none).2.ovr_hidraw_table m = some dev ∧
        (ovr_connect st hid (some dev) none).2.hidraws dev =
          some { minor := m, exist := true, open_count := 0, list := [], hid := hid } ∧
        (∀ k, k ≠ m → (ovr_connect st hid (some dev) none).2.ovr_hidraw_table k =
          st.ovr_hidraw_table k) ∧
        (∀ q, q ≠ dev → (ovr_connect st hid (some dev) none).2.hidraws q = st.hidraws q) ∧
        (ovr_connect st hid (some dev) none).2.files = st.files ∧
        (ovr_connect st hid (some dev) none).2.ovr_minor = m ∧
        (ovr_connect st hid (some dev) none).2.opens = 0) ∧
    (ovr_connect st hid none none).1 = -ENOMEM ∧ (ovr_connect st hid none none).2 = st := by
  have hne : (0 : Int) ≠ -EINVAL := by decide
  cases hm : first_free_minor st.ovr_hidraw_table with
  | none =>
    have hall := first_free_minor_none _ hm
    have hr : ovr_connect st hid (some dev) none = (-EINVAL, st) := by
      simp [ovr_connect, hm]
    rw [hr]
    refine ⟨Or.inr rfl, ⟨fun _ => hall, fun _ => rfl⟩, fun _ => rfl, fun h => ?_, rfl, rfl⟩
    exact absurd h.symm hne
  | some m =>
    obtain ⟨hlt, hfree, hlow⟩ := first_free_minor_spec _ m hm
    have hr : ovr_connect st hid (some dev) none =
        (0, { st with
                ovr_hidraw_table := Function.update st.ovr_hidraw_table m (some dev),
                hidraws := Function.update st.hidraws dev
                  (some { minor := m, exist := true, open_count := 0, list := [], hid := hid }),
                monitor_info := fun i j =>
                  if i < MONITOR_MAX ∧ j = 0 then 0 else st.monitor_info i j,
                opens := 0,
                ovr_minor := m }) := by
      simp [ovr_connect, hm]
    rw [hr]
    refine ⟨Or.inl rfl, ⟨fun h => absurd h hne, fun h => absurd hfree (h m hlt)⟩,
      fun h => absurd h hne, fun _ => ?_, rfl, rfl⟩
    refine ⟨m, hlt, hfree, hlow, ?_, ?_, ?_, ?_, rfl, rfl, rfl⟩
    · dsimp only; rw [Function.update_same]
    · dsimp only; rw [Function.update_same]
    · intro k hk; dsimp only; rw [Function.update_noteq hk]
    · intro q hq; dsimp only; rw [Function.update_noteq hq]

/-- C12, instance of the amended statement: a second device, at address 2,
connected while slot 0 is occupied. -/
theorem c12_connect_lowest_free_slot_witness :
    ((ovr_connect st_attached hid_echo (some 2) none).1 = 0 ∨
      (ovr_connect st_attached hid_echo (some 2) none).1 = -EINVAL) ∧
    ((ovr_connect st_attached hid_echo (some 2) none).1 = -EINVAL ↔
      ∀ m, m < OVR_HIDRAW_MAX_DEVICES → st_attached.ovr_hidraw_table m ≠ none) ∧
    ((ovr_connect st_attached hid_echo (some 2) none).1 = -EINVAL →
      (ovr_connect st_attached hid_echo (some 2) none).2 = st_attached) ∧
    ((ovr_connect st_attached hid_echo (some 2) none).1 = 0 →
      ∃ m, m < OVR_HIDRAW_MAX_DEVICES ∧ st_attached.ovr_hidraw_table m = none ∧
        (∀ k, k < m → st_attached.ovr_hidraw_table k ≠ none) ∧
        (ovr_connect st_attached hid_echo (some 2) none).2.ovr_hidraw_table m = some 2 ∧
        (ovr_connect st_attached hid_echo (some 2) none).2.hidraws 2 =
          some { minor := m, exist := true, open_count := 0, list := [], hid := hid_echo } ∧
        (∀ k, k ≠ m → (ovr_connect st_attached hid_echo (some 2) none).2.ovr_hidraw_table k =
          st_attached.ovr_hidraw_table k) ∧
        (∀ q, q ≠ 2 → (ovr_connect st_attached hid_echo (some 2) none).2.hidraws q =
          st_attached.hidraws q) ∧
        (ovr_connect st_attached hid_echo (some 2) none).2.files = st_attached.files ∧
        (ovr_connect st_attached hid_echo (some 2) none).2.ovr_minor = m ∧
        (ovr_connect st_attached hid_echo (some 2) none).2.opens = 0) ∧
    (ovr_connect st_attached hid_echo none none).1 = -ENOMEM ∧
    (ovr_connect st_attached hid_echo none none).2 = st_attached :=
  c12_connect_lowest_free_slot st_attached hid_echo 2

/-- C13: for a file whose slot holds an existing device with both raw-report
operations, a send or get request of length `count` below 2 or above
`HID_MAX_BUFFER_SIZE` ends with `-EINVAL` and no call of the transport.  With
`2 <= count <= HID_MAX_BUFFER_SIZE` the length is accepted: the request ends
without the transport only when the kernel buffer cannot be allocated
(`-ENOMEM`) or the user buffer cannot be read (`-EFAULT`), and otherwise the
transport operation is called once, with exactly `count`.  The write path is
the send request with `HID_OUTPUT_REPORT`; the ioctls `HIDIOCSFEATURE(len)` and
`HIDIOCGFEATURE(len)` are the send and get requests with `count = len` and
`HID_FEATURE_REPORT`. -/
theorem c13_control_length_bounds (HID_MAX_BUFFER_SIZE HID_MAX_DESCRIPTOR_SIZE : Nat)
    (st : ovr_state) (f : Nat) (fl : file) (p : Nat) (d : hidraw) (ctx : ctl_ctx)
    (count report_type dir : Nat)
    (output : List Nat → Nat → Nat → Int) (get : Nat → Nat → Nat → Int × List Nat)
    (hf : st.files f = some fl) (hm : fl.minor < OVR_HIDRAW_MAX_DEVICES)
    (ht : st.ovr_hidraw_table fl.minor = some p) (hd : st.hidraws p = some d)
    (hex : d.exist = true)
    (ho : d.hid.hid_output_raw_report = some output)
    (hg : d.hid.hid_get_raw_report = some get) :
    ((count < 2 ∨ HID_MAX_BUFFER_SIZE < count) →
      ovr_hidraw_send_report HID_MAX_BUFFER_SIZE st f ctx count report_type =
        some (ctl_fail (-EINVAL)) ∧
      ovr_hidraw_get_report HID_MAX_BUFFER_SIZE st f ctx count report_type =
        some (ctl_fail (-EINVAL))) ∧
    (2 ≤ count → count ≤ HID_MAX_BUFFER_SIZE →
      ovr_hidraw_send_report HID_MAX_BUFFER_SIZE st f ctx count report_type =
        some (if ctx.kmalloc_fails then ctl_fail (-ENOMEM)
              else if ctx.copy_from_user_fails then ctl_fail (-EFAULT)
              else { ret := output (ctx.ubuf.take count) count report_type,
                     calls := [transport_call.output_raw_report (ctx.ubuf.take count) count
                                report_type],
                     out := [] }) ∧
      ∃ res, ovr_hidraw_get_report HID_MAX_BUFFER_SIZE st f ctx count report_type = some res ∧
        (ctx.kmalloc_fails = true → res = ctl_fail (-ENOMEM)) ∧
        (ctx.kmalloc_fails = false → ctx.copy_from_user_fails = true →
          res = ctl_fail (-EFAULT)) ∧
        (ctx.kmalloc_fails = false → ctx.copy_from_user_fails = false →
          res.calls = [transport_call.get_raw_report (ctx.ubuf.headD 0) count report_type] ∧
          ((get (ctx.ubuf.headD 0) count report_type).1 < 0 →
            res.ret = (get (ctx.ubuf.headD 0) count report_type).1))) ∧
    ovr_hidraw_write HID_MAX_BUFFER_SIZE st f ctx count =
      ovr_hidraw_send_report HID_MAX_BUFFER_SIZE st f ctx count HID_OUTPUT_REPORT ∧
    ovr_hidraw_ioctl HID_MAX_BUFFER_SIZE HID_MAX_DESCRIPTOR_SIZE st f
        { dir := dir, type := 72, nr := 6, size := count } ctx =
      ovr_hidraw_send_report HID_MAX_BUFFER_SIZE st f ctx count HID_FEATURE_REPORT ∧
    ovr_hidraw_ioctl HID_MAX_BUFFER_SIZE HID_MAX_DESCRIPTOR_SIZE st f
        { dir := dir, type := 72, nr := 7, size := count } ctx =
      ovr_hidraw_get_report HID_MAX_BUFFER_SIZE st f ctx count HID_FEATURE_REPORT := by
  have hsend : ∀ rt, ovr_hidraw_send_report HID_MAX_BUFFER_SIZE st f ctx count rt =
      if count > HID_MAX_BUFFER_SIZE then some (ctl_fail (-EINVAL))
      else if count < 2 then some (ctl_fail (-EINVAL))
      else if ctx.kmalloc_fails then some (ctl_fail (-ENOMEM))
      else if ctx.copy_from_user_fails then some (ctl_fail (-EFAULT))
      else
        some { ret := output (ctx.ubuf.take count) count rt,
               calls := [transport_call.output_raw_report (ctx.ubuf.take count) count rt],
               out := [] } := by
    intro rt
    simp only [ovr_hidraw_send_report, hf, hm, not_true_eq_false, if_false, ht, hd, ho]
  have hget : ∀ rt, ovr_hidraw_get_report HID_MAX_BUFFER_SIZE st f ctx count rt =
      if count > HID_MAX_BUFFER_SIZE then some (ctl_fail (-EINVAL))
      else if count < 2 then some (ctl_fail (-EINVAL))
      else if ctx.kmalloc_fails then some (ctl_fail (-ENOMEM))
      else if ctx.copy_from_user_fails then some (ctl_fail (-EFAULT))
      else
        if (get (ctx.ubuf.headD 0) count rt).1 < 0 then
          some { ret := (get (ctx.ubuf.headD 0) count rt).1,
                 calls := [transport_call.get_raw_report (ctx.ubuf.headD 0) count rt],
                 out := [] }
        else
          if ctx.copy_to_user_fails then
            some { ret := -EFAULT,
                   calls := [transport_call.get_raw_report (ctx.ubuf.headD 0) count rt],
                   out := [] }
          else
            some { ret := Int.ofNat (if (get (ctx.ubuf.headD 0) count rt).1 < Int.ofNat count
                       then (get (ctx.ubuf.headD 0) count rt).1.toNat else count),
                   calls := [transport_call.get_raw_report (ctx.ubuf.headD 0) count rt],
                   out := (get (ctx.ubuf.headD 0) count rt).2.take
                     (if (get (ctx.ubuf.headD 0) count rt).1 < Int.ofNat count
                       then (get (ctx.ubuf.headD 0) count rt).1.toNat else count) } := by
    intro rt
    simp only [ovr_hidraw_get_report, hf, hm, not_true_eq_false, if_false, ht, hd, hg]
  refine ⟨?_, ?_, rfl, ?_, ?_⟩
  · intro h
    rw [hsend, hget]
    rcases h with h | h
    · by_cases h2 : count > HID_MAX_BUFFER_SIZE
      · rw [if_pos h2, if_pos h2]; exact ⟨rfl, rfl⟩
      · rw [if_neg h2, if_pos h, if_neg h2, if_pos h]; exact ⟨rfl, rfl⟩
    · have h2 : count > HID_MAX_BUFFER_SIZE := h
      rw [if_pos h2, if_pos h2]; exact ⟨rfl, rfl⟩
  · intro h2 hmax
    rw [hsend, hget]
    have hn1 : ¬ count > HID_MAX_BUFFER_SIZE := by omega
    have hn2 : ¬ count < 2 := by omega
    simp only [hn1, hn2, if_false]
    refine ⟨?_, ?_⟩
    · cases ctx.kmalloc_fails <;> cases ctx.copy_from_user_fails <;> simp
    · cases hk : ctx.kmalloc_fails
      · cases hc : ctx.copy_from_user_fails
        · simp only [Bool.false_eq_true, if_false]
          by_cases hneg : (get (ctx.ubuf.headD 0) count report_type).1 < 0
          · rw [if_pos hneg]
            exact ⟨_, rfl, by simp, by simp, fun _ _ => ⟨rfl, fun _ => rfl⟩⟩
          · rw [if_neg hneg]
            by_cases hto : ctx.copy_to_user_fails = true
            · rw [if_pos hto]
              exact ⟨_, rfl, by simp, by simp, fun _ _ => ⟨rfl, fun h => absurd h hneg⟩⟩
            · rw [if_neg hto]
              exact ⟨_, rfl, by simp, by simp, fun _ _ => ⟨rfl, fun h => absurd h hneg⟩⟩
        · simp only [Bool.false_eq_true, if_false, if_true]
          exact ⟨_, rfl, by simp, fun _ _ => rfl, by simp⟩
      · simp only [if_true]
        exact ⟨_, rfl, fun _ => rfl, by simp, by simp⟩
  · simp [ovr_hidraw_ioctl, hf, hm, ht, hd, hex, HIDIOCGRDESCSIZE, HIDIOCGRDESC,
      HIDIOCGRAWINFO]
  · simp [ovr_hidraw_ioctl, hf, hm, ht, hd, hex, HIDIOCGRDESCSIZE, HIDIOCGRDESC,
      HIDIOCGRAWINFO]

/-- C13, instance: two-byte requests through file 7 on the attached device,
with `HID_MAX_BUFFER_SIZE` taken as 4096. -/
theorem c13_control_length_bounds_witness :
    ((2 < 2 ∨ 4096 < 2) →
      ovr_hidraw_send_report 4096 st_opened 7 ctl_ok 2 HID_FEATURE_REPORT =
        some (ctl_fail (-EINVAL)) ∧
      ovr_hidraw_get_report 4096 st_opened 7 ctl_ok 2 HID_FEATURE_REPORT =
        some (ctl_fail (-EINVAL))) ∧
    (2 ≤ 2 → 2 ≤ 4096 →
      ovr_hidraw_send_report 4096 st_opened 7 ctl_ok 2 HID_FEATURE_REPORT =
        some (if ctl_ok.kmalloc_fails then ctl_fail (-ENOMEM)
              else if ctl_ok.copy_from_user_fails then ctl_fail (-EFAULT)
              else { ret := (fun _ count _ => Int.ofNat count) (ctl_ok.ubuf.take 2) 2
                              HID_FEATURE_REPORT,
                     calls := [transport_call.output_raw_report (ctl_ok.ubuf.take 2) 2
                                HID_FEATURE_REPORT],
                     out := [] }) ∧
      ∃ res, ovr_hidraw_get_report 4096 st_opened 7 ctl_ok 2 HID_FEATURE_REPORT = some res ∧
        (ctl_ok.kmalloc_fails = true → res = ctl_fail (-ENOMEM)) ∧
        (ctl_ok.kmalloc_fails = false → ctl_ok.copy_from_user_fails = true →
          res = ctl_fail (-EFAULT)) ∧
        (ctl_ok.kmalloc_fails = false → ctl_ok.copy_from_user_fails = false →
          res.calls = [transport_call.get_raw_report (ctl_ok.ubuf.headD 0) 2
            HID_FEATURE_REPORT] ∧
          (((fun _ count _ => (Int.ofNat count, List.replicate count 0) :
                Nat → Nat → Nat → Int × List Nat)
              (ctl_ok.ubuf.headD 0) 2 HID_FEATURE_REPORT).1 < 0 →
            res.ret = ((fun _ count _ => (Int.ofNat count, List.replicate count 0) :
                Nat → Nat → Nat → Int × List Nat)
              (ctl_ok.ubuf.headD 0) 2 HID_FEATURE_REPORT).1))) ∧
    ovr_hidraw_write 4096 st_opened 7 ctl_ok 2 =
      ovr_hidraw_send_report 4096 st_opened 7 ctl_ok 2 HID_OUTPUT_REPORT ∧
    ovr_hidraw_ioctl 4096 4096 st_opened 7 { dir := 3, type := 72, nr := 6, size := 2 } ctl_ok =
      ovr_hidraw_send_report 4096 st_opened 7 ctl_ok 2 HID_FEATURE_REPORT ∧
    ovr_hidraw_ioctl 4096 4096 st_opened 7 { dir := 3, type := 72, nr := 7, size := 2 } ctl_ok =
      ovr_hidraw_get_report 4096 st_opened 7 ctl_ok 2 HID_FEATURE_REPORT :=
  c13_control_length_bounds 4096 4096 st_opened 7
    { minor := 0, private_data := hidraw_list_zero 1 } 1
    { minor := 0, exist := true, open_count := 1, list := [7], hid := hid_echo }
    ctl_ok 2 HID_FEATURE_REPORT 3
    (fun _ count _ => Int.ofNat count)
    (fun _ count _ => (Int.ofNat count, List.replicate count 0))
    rfl (by decide) rfl rfl rfl rfl rfl

/-- The loop with the lock threaded through computes what the loop computes,
and leaves the lock as it was unless it broke out with `-ENOMEM`, in which case
it has released it once. -/
theorem loop_locked_spec (fails : Nat → Bool) (data : List Nat) :
    ∀ (nodes : List Nat) (i : Nat) (files : Nat → Option file) (lk : spinlock),
      (ovr_report_event_loop_locked fails data i nodes files lk).map (fun r => (r.1, r.2.1)) =
        ovr_report_event_loop fails data i nodes files ∧
      ∀ r, ovr_report_event_loop_locked fails data i nodes files lk = some r →
        (r.1 = 0 ∧ r.2.2 = lk) ∨ (r.1 = -ENOMEM ∧ r.2.2 = spin_unlock_irqrestore lk) := by
  intro nodes
  induction nodes with
  | nil =>
    intro i files lk
    refine ⟨rfl, fun r h => ?_⟩
    simp only [ovr_report_event_loop_locked, Option.some.injEq] at h
    subst h; exact Or.inl ⟨rfl, rfl⟩
  | cons f rest ih =>
    intro i files lk
    rw [ovr_report_event_loop_locked, ovr_report_event_loop]
    cases hfl : files f with
    | none => exact ⟨rfl, fun r h => by simp at h⟩
    | some fl =>
      simp only
      rcases hn : ovr_report_event_node (fails i) data fl.private_data with ⟨l, s⟩
      cases s
      · exact ih (i + 1) _ lk
      · refine ⟨rfl, fun r h => ?_⟩
        simp only [Option.some.injEq] at h
        subst h; exact Or.inr ⟨rfl, rfl⟩
      · exact ih (i + 1) _ lk

/-- Threading the lock through does not change what `ovr_report_event` does to
the state; the lock ends released once when `ret` is 0 and released twice, the
second time while not held, when `ret` is `-ENOMEM`. -/
theorem report_event_locked_spec (st : ovr_state) (dev : Nat) (data : List Nat)
    (fails : Nat → Bool) (lk : spinlock) :
    (ovr_report_event_locked st dev data fails lk).map (fun r => (r.1, r.2.1)) =
      ovr_report_event st dev data fails ∧
    ∀ r, ovr_report_event_locked st dev data fails lk = some r →
      (r.1 = 0 ∧ r.2.2 = spin_unlock_irqrestore (spin_lock_irqsave lk)) ∨
      (r.1 = -ENOMEM ∧
        r.2.2 = spin_unlock_irqrestore (spin_unlock_irqrestore (spin_lock_irqsave lk))) := by
  unfold ovr_report_event_locked ovr_report_event
  cases hd : st.hidraws dev with
  | none => exact ⟨rfl, fun r h => by simp at h⟩
  | some d =>
    simp only
    obtain ⟨hmap, hlk⟩ := loop_locked_spec fails data d.list 0 st.files (spin_lock_irqsave lk)
    cases hl : ovr_report_event_loop_locked fails data 0 d.list st.files (spin_lock_irqsave lk) with
    | none =>
      rw [hl] at hmap
      simp only [Option.map_none'] at hmap
      rw [← hmap]
      exact ⟨rfl, fun r h => by simp at h⟩
    | some r0 =>
      rw [hl] at hmap
      simp only [Option.map_some'] at hmap
      rw [← hmap]
      refine ⟨rfl, fun r h => ?_⟩
      simp only [Option.some.injEq] at h
      subst h
      rcases hlk r0 hl with ⟨h1, h2⟩ | ⟨h1, h2⟩
      · exact Or.inl ⟨h1, by simp only [h2]⟩
      · exact Or.inr ⟨h1, by simp only [h2]⟩

/-- C15: on the path on which the copy fails, `ovr_report_event` releases
`list_lock` twice.  For the device with the single session of file 7 and a
failing `kmemdup`, starting with the lock free: the lock is acquired once and
released twice, the second release being made while the lock is not held.
When the copy succeeds it is acquired once and released once. -/
theorem c15_double_unlock_on_copy_failure :
    (ovr_report_event_locked st_opened 1 [42] (fun _ => true) list_lock_free).map
        (fun r => (r.1, r.2.2)) =
      some (-ENOMEM, { held := false, acquired := 1, released := 2, bad_release := 1 }) ∧
    (ovr_report_event_locked st_opened 1 [42] (fun _ => false) list_lock_free).map
        (fun r => (r.1, r.2.2)) =
      some (0, { held := false, acquired := 1, released := 1, bad_release := 0 }) := by
  decide

/-! ## The monitor variables -/

theorem monitor_find_some (mi : Nat → Nat → Nat) (key i : Nat)
    (h : monitor_find mi key = some i) :
    i < MONITOR_MAX ∧ mi i 0 = key ∧ ∀ j, j < i → mi j 0 ≠ key := by
  unfold monitor_find at h
  rw [List.find?_range_eq_some] at h
  obtain ⟨h1, h2, h3⟩ := h
  refine ⟨List.mem_range.1 h2, by simpa using h1, ?_⟩
  intro j hj
  have := h3 j hj
  simpa using this

theorem monitor_find_none (mi : Nat → Nat → Nat) (key : Nat)
    (h : monitor_find mi key = none) :
    ∀ i, i < MONITOR_MAX → mi i 0 ≠ key := by
  unfold monitor_find at h
  rw [List.find?_range_eq_none] at h
  intro i hi
  have := h i hi
  simpa using this

theorem monitor_note_read_col0 (opens : Int) (mi : Nat → Nat → Nat) (file jiffies a : Nat) :
    monitor_note_read opens mi file jiffies a 0 = mi a 0 := by
  unfold monitor_note_read
  split_ifs
  · cases monitor_find mi file with
    | none => rfl
    | some i => simp [monitor_set]
  · rfl

theorem monitor_note_open_col0 (mi : Nat → Nat → Nat) (file jiffies pid a : Nat) :
    monitor_note_open mi file jiffies pid a 0 =
      if monitor_find mi 0 = some a then file else mi a 0 := by
  unfold monitor_note_open
  cases h : monitor_find mi 0 with
  | none => simp
  | some i =>
    by_cases hai : a = i
    · subst hai; simp [monitor_set]
    · have : i ≠ a := fun e => hai e.symm
      simp [monitor_set, hai, this]

theorem monitor_note_release_col0 (mi : Nat → Nat → Nat) (file a : Nat) :
    monitor_note_release mi file a 0 =
      if monitor_find mi file = some a then 0 else mi a 0 := by
  unfold monitor_note_release
  cases h : monitor_find mi file with
  | none => simp
  | some i =>
    by_cases hai : a = i
    · subst hai; simp [monitor_set]
    · have : i ≠ a := fun e => hai e.symm
      simp [monitor_set, hai, this]

theorem read_loop_col0 (ctx : read_ctx) (exist : Bool) (opens : Int) (a : Nat) :
    ∀ (fuel : Nat) (out : List Nat) (freed : List (Option (List Nat))) (l : hidraw_list)
      (mi : Nat → Nat → Nat),
      (ovr_hidraw_read_loop ctx exist opens fuel out freed l mi).monitor_info a 0 = mi a 0 := by
  intro fuel
  induction fuel with
  | zero => intro out freed l mi; rfl
  | succ n ih =>
    intro out freed l mi
    by_cases he : l.head = l.tail
    · rw [read_loop_empty ctx exist opens n out freed l mi he]
    · rw [read_loop_succ_nonempty ctx exist opens n out freed l mi he]
      cases (l.buffer l.tail).value with
      | none => exact ih _ _ _ _
      | some v =>
        simp only
        split_ifs
        · rfl
        · rw [ih]; exact monitor_note_read_col0 _ _ _ _ _
        · exact monitor_note_read_col0 _ _ _ _ _

/-- What `ovr_report_event` does to the files: none is opened or closed, and
every minor is kept. -/
theorem report_event_files (st : ovr_state) (dev : Nat) (d : hidraw) (data : List Nat)
    (fails : Nat → Bool) (hi : ovr_inv st) (hd : st.hidraws dev = some d) :
    ∃ ret files1, ovr_report_event st dev data fails = some (ret, { st with files := files1 }) ∧
      ∀ g, (st.files g = none → files1 g = none) ∧
        ∀ gl, st.files g = some gl → ∃ gl1, files1 g = some gl1 ∧ gl1.minor = gl.minor := by
  obtain ⟨_, _, hfiles⟩ := hi.dev_list dev d hd
  obtain ⟨ret, files1, hloop, hrel⟩ := loop_preserve fails data d.list 0 st.files
    (fun g hg => (hfiles g hg).imp fun _ h => h.1)
  refine ⟨ret, files1, by simp [ovr_report_event, hd, hloop], fun g => ⟨(hrel g).1, ?_⟩⟩
  intro gl hgl
  obtain ⟨gl1, h1, h2, _⟩ := (hrel g).2 gl hgl
  exact ⟨gl1, h1, h2⟩

theorem mon_inv_init : mon_inv ovr_init := by
  constructor
  · rfl
  · intro h; simp [ovr_init] at h
  · intro _ i _ h; simp [ovr_init] at h
  · intro _ i j _ _ _ h; simp [ovr_init] at h

theorem mon_connect (st : ovr_state) (hid : hid_device) (kzalloc : Option Nat)
    (err : Option Int) (hm : mon_inv st) : mon_inv (ovr_connect st hid kzalloc err).2 := by
  rcases connect_eq st hid kzalloc err with h | ⟨dev, m, _, _, _, heq⟩
  · rw [h]; exact hm
  · rw [heq]
    constructor
    · exact hm.files_nonnull
    · intro h; exact absurd h (lt_irrefl 0)
    · intro _ i hi hne
      dsimp only at hne
      rw [if_pos ⟨hi, rfl⟩] at hne
      exact absurd rfl hne
    · intro _ i j hi _ _ hne
      dsimp only at hne
      rw [if_pos ⟨hi, rfl⟩] at hne
      exact absurd rfl hne

theorem mon_disconnect (st : ovr_state) (q : Nat) (d : hidraw) (hi : ovr_inv st)
    (hm : mon_inv st) (hd : st.hidraws q = some d) (st1 : ovr_state)
    (happ : ovr_disconnect st q = some st1) : mon_inv st1 := by
  obtain ⟨htab, _⟩ := hi.dev_table q d hd
  obtain ⟨hm64, _⟩ := hi.table_dev _ _ htab
  rw [disconnect_eq st q d hd hm64, Option.some.injEq] at happ
  subst happ
  by_cases hprim : d.minor = st.ovr_minor
  · -- the primary device goes: `opens = 0`, `ovr_minor = -1`
    constructor
    · split_ifs <;> exact hm.files_nonnull
    · intro h
      split_ifs at h <;> simp [hprim] at h
    · intro h
      split_ifs at h <;> simp [hprim] at h
    · intro h
      split_ifs at h <;> simp [hprim] at h
  · have hop : ∀ p0 d0, st.ovr_hidraw_table st.ovr_minor = some p0 → st.hidraws p0 = some d0 →
        p0 ≠ q := by
      intro p0 d0 h0 h1 e
      subst e
      obtain ⟨_, d2, hd2, hdm⟩ := hi.table_dev _ _ h0
      rw [hd] at hd2; cases hd2
      exact hprim hdm
    constructor
    · split_ifs <;> exact hm.files_nonnull
    · intro h
      have h0 : 0 < st.opens := by split_ifs at h <;> simpa [hprim] using h
      obtain ⟨hlt, p0, d0, ht0, hd0, ho0⟩ := hm.opens_dev h0
      have hpq := hop p0 d0 ht0 hd0
      have hmm : st.ovr_minor ≠ d.minor := fun e => hprim e.symm
      split_ifs
      · simp only [hprim, if_false]
        exact ⟨hlt, p0, d0, ht0, by rw [Function.update_noteq hpq]; exact hd0, ho0⟩
      · simp only [hprim, if_false]
        exact ⟨hlt, p0, d0, by rw [Function.update_noteq hmm]; exact ht0,
          by rw [Function.update_noteq hpq]; exact hd0, ho0⟩
    · intro h i hi0 hne
      have h1 : st.ovr_minor ≠ MINOR_NONE := by split_ifs at h <;> simpa [hprim] using h
      have hne1 : st.monitor_info i 0 ≠ 0 := by split_ifs at hne <;> exact hne
      obtain ⟨fl, hfl, hmin⟩ := hm.rows_open h1 i hi0 hne1
      split_ifs <;> simp only [hprim, if_false] <;> exact ⟨fl, hfl, hmin⟩
    · intro h i j hi0 hj0 heq hne
      have h1 : st.ovr_minor ≠ MINOR_NONE := by split_ifs at h <;> simpa [hprim] using h
      have hne1 : st.monitor_info i 0 ≠ 0 := by split_ifs at hne <;> exact hne
      have heq1 : st.monitor_info i 0 = st.monitor_info j 0 := by split_ifs at heq <;> exact heq
      exact hm.rows_unique h1 i j hi0 hj0 heq1 hne1

theorem mon_open (st : ovr_state) (minor f : Nat) (kf : Bool) (jiffies pid : Nat)
    (hi : ovr_inv st) (hm : mon_inv st) (hlt : minor < OVR_HIDRAW_MAX_DEVICES)
    (hf0 : f ≠ 0) (hfresh : st.files f = none) (r : Int) (st1 : ovr_state)
    (happ : ovr_hidraw_open st minor f kf jiffies pid = some (r, st1)) : mon_inv st1 := by
  rcases open_eq st minor f kf jiffies pid hlt with ⟨h, _⟩ | ⟨h, _⟩ | ⟨_, _, _, h⟩ |
    ⟨p, d, _, ht, hd, h⟩ <;>
    simp only [h, Option.some.injEq, Prod.mk.injEq, reduceCtorEq] at happ
  · rw [← happ.2]; exact hm
  · rw [← happ.2]; exact hm
  · rw [← happ.2]
    obtain ⟨_, d0, hd0, hdm⟩ := hi.table_dev minor p ht
    rw [hd] at hd0; cases hd0
    have h0f : (0 : Nat) ≠ f := fun e => hf0 e.symm
    -- a row entry that is an open file is not the fresh `f`
    have hrow_ne : ∀ g gl, st.files g = some gl → g ≠ f := by
      intro g gl hg e; rw [e, hfresh] at hg; cases hg
    by_cases hprim : minor = st.ovr_minor
    · have hnn : st.ovr_minor ≠ MINOR_NONE := by
        rw [← hprim]; intro e; rw [e] at hlt; exact absurd hlt (by decide)
      constructor
      · dsimp only; rw [Function.update_noteq h0f]; exact hm.files_nonnull
      · intro _
        dsimp only
        rw [if_pos hprim, ← hprim]
        exact ⟨hlt, p, { d with list := d.list ++ [f], open_count := d.open_count + 1 }, ht,
          Function.update_same _ _ _, rfl⟩
      · intro _ i hi0 hne
        dsimp only at hne ⊢
        rw [if_pos hprim, monitor_note_open_col0] at hne ⊢
        by_cases hrow : monitor_find st.monitor_info 0 = some i
        · rw [if_pos hrow]
          exact ⟨_, Function.update_same _ _ _, hprim⟩
        · rw [if_neg hrow] at hne ⊢
          obtain ⟨fl, hfl, hmin⟩ := hm.rows_open hnn i hi0 hne
          exact ⟨fl, by rw [Function.update_noteq (hrow_ne _ fl hfl)]; exact hfl, hmin⟩
      · intro _ i j hi0 hj0 heq hne
        dsimp only at heq hne
        rw [if_pos hprim, monitor_note_open_col0] at hne
        rw [if_pos hprim, monitor_note_open_col0, monitor_note_open_col0] at heq
        by_cases hri : monitor_find st.monitor_info 0 = some i
        · by_cases hrj : monitor_find st.monitor_info 0 = some j
          · rw [hri] at hrj; exact Option.some.inj hrj
          · rw [if_pos hri, if_neg hrj] at heq
            have hnz : st.monitor_info j 0 ≠ 0 := by rw [← heq]; exact hf0
            obtain ⟨fl, hfl, _⟩ := hm.rows_open hnn j hj0 hnz
            exact absurd heq.symm (hrow_ne _ fl hfl)
        · rw [if_neg hri] at heq hne
          by_cases hrj : monitor_find st.monitor_info 0 = some j
          · rw [if_pos hrj] at heq
            obtain ⟨fl, hfl, _⟩ := hm.rows_open hnn i hi0 hne
            exact absurd heq (hrow_ne _ fl hfl)
          · rw [if_neg hrj] at heq
            exact hm.rows_unique hnn i j hi0 hj0 heq hne
    · constructor
      · dsimp only; rw [Function.update_noteq h0f]; exact hm.files_nonnull
      · intro h0
        dsimp only at h0 ⊢
        rw [if_neg hprim] at h0 ⊢
        obtain ⟨hlt0, p0, d0, ht0, hd0, ho0⟩ := hm.opens_dev h0
        have hpp : p0 ≠ p := by
          intro e; subst e
          obtain ⟨_, d2, hd2, hdm2⟩ := hi.table_dev _ _ ht0
          rw [hd] at hd2; cases hd2
          exact hprim (hdm.symm.trans hdm2)
        exact ⟨hlt0, p0, d0, ht0, by rw [Function.update_noteq hpp]; exact hd0, ho0⟩
      · intro hnn i hi0 hne
        dsimp only at hne ⊢
        rw [if_neg hprim] at hne ⊢
        obtain ⟨fl, hfl, hmin⟩ := hm.rows_open hnn i hi0 hne
        exact ⟨fl, by rw [Function.update_noteq (hrow_ne _ fl hfl)]; exact hfl, hmin⟩
      · intro hnn i j hi0 hj0 heq hne
        dsimp only at heq hne
        rw [if_neg hprim] at heq hne
        exact hm.rows_unique hnn i j hi0 hj0 heq hne

/-- Column 0 of `monitor_info` after `ovr_hidraw_release` of `f`, in a state
satisfying the invariants: with `ovr_minor` valid no row carries `f` any more;
when the minor of the file is not `ovr_minor` the table is untouched. -/
theorem release_rows (st : ovr_state) (f : Nat) (fl : file) (hi : ovr_inv st)
    (hm : mon_inv st) (hf : st.files f = some fl) :
    ∃ st1, ovr_hidraw_release st f = some (0, st1) ∧
      st1.files = Function.update st.files f none ∧
      st1.ovr_minor = st.ovr_minor ∧
      st1.opens = (if fl.minor = st.ovr_minor then
        (match st.hidraws fl.private_data.hidraw with
         | some d => d.open_count - 1
         | none => st.opens) else st.opens) ∧
      st1.monitor_info =
        (if fl.minor = st.ovr_minor then monitor_note_release st.monitor_info f
         else st.monitor_info) ∧
      (st.ovr_minor ≠ MINOR_NONE → ∀ i, i < MONITOR_MAX → st1.monitor_info i 0 ≠ f) := by
  obtain ⟨d, hd, heq⟩ := release_eq st f fl hi hf
  have hf0 : f ≠ 0 := fun e => by rw [e, hm.files_nonnull] at hf; cases hf
  have hmi : ∀ mi : Nat → Nat → Nat, mi =
      (if fl.minor = st.ovr_minor then monitor_note_release st.monitor_info f
       else st.monitor_info) →
      st.ovr_minor ≠ MINOR_NONE → ∀ i, i < MONITOR_MAX → mi i 0 ≠ f := by
    intro mi hs hnn i hi0
    rw [hs]
    by_cases hprim : fl.minor = st.ovr_minor
    · rw [if_pos hprim, monitor_note_release_col0]
      by_cases hrow : monitor_find st.monitor_info f = some i
      · rw [if_pos hrow]; exact fun e => hf0 e.symm
      · rw [if_neg hrow]
        intro e
        cases hfind : monitor_find st.monitor_info f with
        | none => exact monitor_find_none _ _ hfind i hi0 e
        | some i0 =>
          obtain ⟨h1, h2, _⟩ := monitor_find_some _ _ _ hfind
          have := hm.rows_unique hnn i i0 hi0 h1 (e.trans h2.symm) (by rw [e]; exact hf0)
          rw [this] at hrow
          exact hrow hfind
    · rw [if_neg hprim]
      intro e
      obtain ⟨gl, hgl, hmin⟩ := hm.rows_open hnn i hi0 (by rw [e]; exact hf0)
      rw [e, hf] at hgl; cases hgl
      exact hprim hmin
  by_cases hfree : d.open_count - 1 = 0 ∧ d.exist = false
  · rw [if_pos hfree] at heq
    refine ⟨_, heq, rfl, rfl, ?_, rfl, hmi _ rfl⟩
    rw [hd]
  · rw [if_neg hfree] at heq
    refine ⟨_, heq, rfl, rfl, ?_, rfl, hmi _ rfl⟩
    rw [hd]

theorem mon_release (st : ovr_state) (f : Nat) (fl : file) (hi : ovr_inv st)
    (hm : mon_inv st) (hf : st.files f = some fl) (r : Int) (st1 : ovr_state)
    (happ : ovr_hidraw_release st f = some (r, st1)) : mon_inv st1 := by
  obtain ⟨st2, h2, hfiles, hom, hopens, hmi, hrows⟩ := release_rows st f fl hi hm hf
  rw [h2, Option.some.injEq, Prod.mk.injEq] at happ
  obtain ⟨_, e⟩ := happ
  subst e
  obtain ⟨d, hd, heq⟩ := release_eq st f fl hi hf
  obtain ⟨hlt, htab, d0, hd0, hmem, hdm, hoc, hnd⟩ := inv_file_table st hi f fl hf
  rw [hd] at hd0; cases hd0
  rw [h2, Option.some.injEq, Prod.mk.injEq] at heq
  have hf0 : f ≠ 0 := fun e => by rw [e, hm.files_nonnull] at hf; cases hf
  constructor
  · rw [hfiles]
    rw [Function.update_noteq (fun e => hf0 e.symm)]
    exact hm.files_nonnull
  · intro h0
    rw [hom]
    rw [hopens, hd] at h0 ⊢
    by_cases hprim : fl.minor = st.ovr_minor
    · rw [if_pos hprim] at h0 ⊢
      simp only at h0 ⊢
      have hnf : ¬ (d.open_count - 1 = 0 ∧ d.exist = false) := fun h => by
        rw [h.1] at h0; exact absurd h0 (lt_irrefl 0)
      rw [if_neg hnf] at heq
      rw [← hprim]
      refine ⟨hlt, fl.private_data.hidraw,
        { d with list := d.list.erase f, open_count := d.open_count - 1 }, ?_, ?_, rfl⟩
      · rw [heq.2]; exact htab
      · rw [heq.2]; exact Function.update_same _ _ _
    · rw [if_neg hprim] at h0 ⊢
      obtain ⟨hlt0, p0, d0, ht0, hd0, ho0⟩ := hm.opens_dev h0
      have hpp : p0 ≠ fl.private_data.hidraw := by
        intro e; subst e
        obtain ⟨_, d2, hd2, hdm2⟩ := hi.table_dev _ _ ht0
        rw [hd] at hd2; cases hd2
        exact hprim (hdm.symm.trans hdm2)
      have hmm : st.ovr_minor ≠ fl.minor := fun e => hprim e.symm
      by_cases hfree : d.open_count - 1 = 0 ∧ d.exist = false
      · rw [if_pos hfree] at heq
        refine ⟨hlt0, p0, d0, ?_, ?_, ho0⟩
        · rw [heq.2]; dsimp only; rw [Function.update_noteq hmm]; exact ht0
        · rw [heq.2]; dsimp only; rw [Function.update_noteq hpp]; exact hd0
      · rw [if_neg hfree] at heq
        refine ⟨hlt0, p0, d0, ?_, ?_, ho0⟩
        · rw [heq.2]; exact ht0
        · rw [heq.2]; dsimp only; rw [Function.update_noteq hpp]; exact hd0
  · intro hnn i hi0 hne
    rw [hom] at hnn ⊢
    have hnef := hrows hnn i hi0
    rw [hfiles, Function.update_noteq hnef]
    rw [hmi] at hne ⊢
    by_cases hprim : fl.minor = st.ovr_minor
    · rw [if_pos hprim, monitor_note_release_col0] at hne ⊢
      by_cases hrow : monitor_find st.monitor_info f = some i
      · rw [if_pos hrow] at hne; exact absurd rfl hne
      · rw [if_neg hrow] at hne ⊢
        exact hm.rows_open hnn i hi0 hne
    · rw [if_neg hprim] at hne ⊢
      exact hm.rows_open hnn i hi0 hne
  · intro hnn i j hi0 hj0 heq0 hne
    rw [hom] at hnn
    rw [hmi] at heq0 hne
    by_cases hprim : fl.minor = st.ovr_minor
    · rw [if_pos hprim, monitor_note_release_col0] at hne
      rw [if_pos hprim, monitor_note_release_col0, monitor_note_release_col0] at heq0
      by_cases hri : monitor_find st.monitor_info f = some i
      · rw [if_pos hri] at hne; exact absurd rfl hne
      · rw [if_neg hri] at hne heq0
        by_cases hrj : monitor_find st.monitor_info f = some j
        · rw [if_pos hrj] at heq0; exact absurd heq0 hne
        · rw [if_neg hrj] at heq0
          exact hm.rows_unique hnn i j hi0 hj0 heq0 hne
    · rw [if_neg hprim] at heq0 hne
      exact hm.rows_unique hnn i j hi0 hj0 heq0 hne

/-- The monitor invariant depends on the open files only through which ones are
open and on which minor. -/
theorem mon_files (st : ovr_state) (files1 : Nat → Option file) (mi : Nat → Nat → Nat)
    (hm : mon_inv st)
    (hfiles : ∀ g, (st.files g = none → files1 g = none) ∧
        ∀ gl, st.files g = some gl → ∃ gl1, files1 g = some gl1 ∧ gl1.minor = gl.minor)
    (hcol : ∀ a, mi a 0 = st.monitor_info a 0) :
    mon_inv { st with files := files1, monitor_info := mi } := by
  constructor
  · exact (hfiles 0).1 hm.files_nonnull
  · exact hm.opens_dev
  · intro hnn i hi0 hne
    dsimp only at hnn hne ⊢
    rw [hcol] at hne ⊢
    obtain ⟨gl, hgl, hmin⟩ := hm.rows_open hnn i hi0 hne
    obtain ⟨gl1, hgl1, hmin1⟩ := (hfiles _).2 gl hgl
    exact ⟨gl1, hgl1, hmin1.trans hmin⟩
  · intro hnn i j hi0 hj0 heq hne
    dsimp only at hnn hne heq
    rw [hcol] at hne
    rw [hcol, hcol] at heq
    exact hm.rows_unique hnn i j hi0 hj0 heq hne

theorem mon_report_event (st : ovr_state) (dev : Nat) (d : hidraw) (data : List Nat)
    (fails : Nat → Bool) (hi : ovr_inv st) (hm : mon_inv st) (hd : st.hidraws dev = some d)
    (r : Int) (st1 : ovr_state)
    (happ : ovr_report_event st dev data fails = some (r, st1)) : mon_inv st1 := by
  obtain ⟨ret, files1, h, hfiles⟩ := report_event_files st dev d data fails hi hd
  rw [h, Option.some.injEq, Prod.mk.injEq] at happ
  rw [← happ.2]
  exact mon_files st files1 st.monitor_info hm hfiles (fun _ => rfl)

theorem mon_read (st : ovr_state) (ctx : read_ctx) (fl : file) (hi : ovr_inv st)
    (hm : mon_inv st) (hf : st.files ctx.file = some fl) (r : read_result) (st1 : ovr_state)
    (happ : ovr_hidraw_read_file st ctx = some (r, st1)) : mon_inv st1 := by
  obtain ⟨_, _, d, hd, _⟩ := inv_file_table st hi ctx.file fl hf
  rw [read_file_eq st ctx fl d hf hd, Option.some.injEq, Prod.mk.injEq] at happ
  rw [← happ.2]
  refine mon_files st _ _ hm ?_ ?_
  · intro g
    by_cases hg : g = ctx.file
    · subst hg
      rw [Function.update_same]
      refine ⟨fun h => ?_, fun gl h => ?_⟩
      · rw [hf] at h; cases h
      · rw [hf] at h; cases h
        exact ⟨_, rfl, rfl⟩
    · rw [Function.update_noteq hg]
      exact ⟨fun h => h, fun gl h => ⟨gl, h, rfl⟩⟩
  · intro a
    exact read_loop_col0 ctx d.exist st.opens a _ _ _ _ _

/-- Every operation the kernel can invoke preserves the monitor invariant. -/
theorem mon_step (op : ovr_op) (st st1 : ovr_state) (hi : ovr_inv st) (hm : mon_inv st)
    (hen : ovr_enabled op st) (happ : ovr_apply op st = some st1) : mon_inv st1 := by
  cases op with
  | op_serial len sg =>
    simp only [ovr_apply, Option.some.injEq] at happ
    rw [← happ]
    exact ⟨hm.files_nonnull, hm.opens_dev, hm.rows_open, hm.rows_unique⟩
  | op_connect hid kzalloc err =>
    simp only [ovr_apply, Option.some.injEq] at happ
    rw [← happ]
    exact mon_connect st hid kzalloc err hm
  | op_disconnect hidraw =>
    obtain ⟨d, hd, _⟩ := hen
    exact mon_disconnect st hidraw d hi hm hd st1 happ
  | op_open minor f kf jiffies pid =>
    obtain ⟨hlt, hf0, hfresh⟩ := hen
    simp only [ovr_apply, Option.map_eq_some', Prod.exists, exists_eq_right] at happ
    obtain ⟨r, h⟩ := happ
    exact mon_open st minor f kf jiffies pid hi hm hlt hf0 hfresh r st1 h
  | op_release f =>
    obtain ⟨fl, hf⟩ := hen
    simp only [ovr_apply, Option.map_eq_some', Prod.exists, exists_eq_right] at happ
    obtain ⟨r, h⟩ := happ
    exact mon_release st f fl hi hm hf r st1 h
  | op_report_event dev data fails =>
    obtain ⟨d, hd, _⟩ := hen
    simp only [ovr_apply, Option.map_eq_some', Prod.exists, exists_eq_right] at happ
    obtain ⟨r, h⟩ := happ
    exact mon_report_event st dev d data fails hi hm hd r st1 h
  | op_read ctx =>
    obtain ⟨fl, hf⟩ := hen
    simp only [ovr_apply, Option.map_eq_some', Prod.exists, exists_eq_right] at happ
    obtain ⟨r, h⟩ := happ
    exact mon_read st ctx fl hi hm hf r st1 h

theorem reachable_mon (st : ovr_state) (hr : ovr_reachable st) : mon_inv st := by
  induction hr with
  | init => exact mon_inv_init
  | step op st st1 hr0 hen happ ih =>
    exact mon_step op st st1 (reachable_inv st hr0) ih hen happ

/-! ## C14: the monitor row of a closed session -/

/-- C14, counterexample: file 7 opens the primary device and gets row 0 of
`monitor_info`; the device is disconnected, which stores `-1` in `ovr_minor`;
the close of file 7 then succeeds, the file is gone, and row 0 still carries
the address 7. -/
theorem c14_close_after_detach_counterexample :
    st_opened.monitor_info 0 0 = 7 ∧
    st_detached.ovr_minor = MINOR_NONE ∧
    (st_detached.files 7).isSome = true ∧
    (ovr_hidraw_release st_detached 7).map (fun r => r.1) = some 0 ∧
    (ovr_hidraw_release st_detached 7).map (fun r => (r.2.files 7).isSome) = some false ∧
    (ovr_hidraw_release st_detached 7).map (fun r => r.2.monitor_info 0 0) = some 7 := by
  decide

/-- C14, amended: in every reachable state the close of an open file succeeds
and, while `ovr_minor` is not the value stored by `ovr_disconnect`, leaves no
row of `monitor_info` with the address of that file in column 0; a close on
another minor than `ovr_minor`, so every close after the primary device
was disconnected, leaves `monitor_info` as it was. -/
theorem c14_close_clears_monitor_row (st : ovr_state) (f : Nat) (hr : ovr_reachable st)
    (hf : (st.files f).isSome = true) :
    ∃ st1, ovr_hidraw_release st f = some (0, st1) ∧
      st1.files f = none ∧
      (st.ovr_minor ≠ MINOR_NONE →
        ∀ i, i < MONITOR_MAX → st1.monitor_info i 0 ≠ f) ∧
      (st.ovr_minor = MINOR_NONE → st1.monitor_info = st.monitor_info) ∧
      (∀ fl, st.files f = some fl → fl.minor ≠ st.ovr_minor →
        st1.monitor_info = st.monitor_info) := by
  obtain ⟨fl, hfl⟩ := Option.isSome_iff_exists.1 hf
  have hi := reachable_inv st hr
  have hm := reachable_mon st hr
  obtain ⟨st1, h1, hfiles, _, _, hmi, hrows⟩ := release_rows st f fl hi hm hfl
  obtain ⟨hlt, _⟩ := inv_file_table st hi f fl hfl
  refine ⟨st1, h1, ?_, hrows, ?_, ?_⟩
  · rw [hfiles, Function.update_same]
  · intro hn
    have hne : fl.minor ≠ st.ovr_minor := by
      intro e
      rw [e, hn] at hlt
      exact absurd hlt (by decide)
    rw [hmi, if_neg hne]
  · intro gl hgl hne
    rw [hfl] at hgl; cases hgl
    rw [hmi, if_neg hne]

/-- C14, instance: with files 7 and 8 open on the primary device, the close of
file 7. -/
theorem c14_close_clears_monitor_row_witness :
    ovr_reachable st_two ∧ (st_two.files 7).isSome = true ∧ st_two.ovr_minor ≠ MINOR_NONE ∧
    st_two.monitor_info 0 0 = 7 ∧
    ∃ st1, ovr_hidraw_release st_two 7 = some (0, st1) ∧
      st1.files 7 = none ∧
      (st_two.ovr_minor ≠ MINOR_NONE →
        ∀ i, i < MONITOR_MAX → st1.monitor_info i 0 ≠ 7) ∧
      (st_two.ovr_minor = MINOR_NONE → st1.monitor_info = st_two.monitor_info) ∧
      (∀ fl, st_two.files 7 = some fl → fl.minor ≠ st_two.ovr_minor →
        st1.monitor_info = st_two.monitor_info) :=
  ⟨st_two_reachable, by decide, by decide, by decide,
    c14_close_clears_monitor_row st_two 7 st_two_reachable (by decide)⟩

/-! ## C16: the index used by `ovr_monitor_work` -/

/-- C16: in every reachable state with `opens > 0`, `ovr_minor` is below
`OVR_HIDRAW_MAX_DEVICES`, is not the value stored by `ovr_disconnect`, its slot
of `ovr_hidraw_table` holds an allocated device, and `opens` is the `open`
count of that device; so `ovr_monitor_work` runs to its end in every reachable
state, whatever the allocation of its buffer does, and leaves `opens`,
`ovr_minor`, the table and the devices as they were. -/
theorem c16_monitor_index_valid (st : ovr_state) (hr : ovr_reachable st) :
    (0 < st.opens →
      st.ovr_minor < OVR_HIDRAW_MAX_DEVICES ∧ st.ovr_minor ≠ MINOR_NONE ∧
      ∃ p d, st.ovr_hidraw_table st.ovr_minor = some p ∧ st.hidraws p = some d ∧
        d.open_count = st.opens) ∧
    ∀ kmalloc_fails, ∃ r, ovr_monitor_work st kmalloc_fails = some r ∧
      r.st.opens = st.opens ∧ r.st.ovr_minor = st.ovr_minor ∧
      r.st.ovr_hidraw_table = st.ovr_hidraw_table ∧ r.st.hidraws = st.hidraws := by
  have hm := reachable_mon st hr
  constructor
  · intro h0
    obtain ⟨hlt, p, d, hp, hd, ho⟩ := hm.opens_dev h0
    refine ⟨hlt, ?_, p, d, hp, hd, ho⟩
    intro e
    rw [e] at hlt
    exact absurd hlt (by decide)
  · intro kf
    by_cases h0 : 0 < st.opens
    · obtain ⟨hlt, p, d, hp, hd, _⟩ := hm.opens_dev h0
      simp only [ovr_monitor_work, gt_iff_lt, h0, if_true, hlt, not_true_eq_false, if_false,
        hp, hd]
      split_ifs <;> exact ⟨_, rfl, rfl, rfl, rfl, rfl⟩
    · simp only [ovr_monitor_work, gt_iff_lt, h0, if_false]
      exact ⟨_, rfl, rfl, rfl, rfl, rfl⟩

/-- C16, instance: with file 7 open on the primary device `opens` is 1. -/
theorem c16_monitor_index_valid_witness :
    ovr_reachable st_opened ∧ 0 < st_opened.opens ∧
    (0 < st_opened.opens →
      st_opened.ovr_minor < OVR_HIDRAW_MAX_DEVICES ∧ st_opened.ovr_minor ≠ MINOR_NONE ∧
      ∃ p d, st_opened.ovr_hidraw_table st_opened.ovr_minor = some p ∧
        st_opened.hidraws p = some d ∧ d.open_count = st_opened.opens) ∧
    ∀ kmalloc_fails, ∃ r, ovr_monitor_work st_opened kmalloc_fails = some r ∧
      r.st.opens = st_opened.opens ∧ r.st.ovr_minor = st_opened.ovr_minor ∧
      r.st.ovr_hidraw_table = st_opened.ovr_hidraw_table ∧ r.st.hidraws = st_opened.hidraws :=
  ⟨st_opened_reachable, by decide, c16_monitor_index_valid st_opened st_opened_reachable⟩

/-! ## The serial length -/

theorem char_of_size_t_range (sg : Bool) (n : Nat) :
    -128 ≤ char_of_size_t sg n ∧ char_of_size_t sg n ≤ 255 := by
  unfold char_of_size_t
  cases sg
  · simp only [Bool.false_eq_true, if_false, Int.ofNat_eq_coe]
    omega
  · simp only [if_true, Int.ofNat_eq_coe]
    omega

/-- Only `op_serial` writes `ovr_serial_len`. -/
theorem serial_len_step (op : ovr_op) (st st1 : ovr_state) (hi : ovr_inv st)
    (hen : ovr_enabled op st) (happ : ovr_apply op st = some st1) :
    st1.ovr_serial_len = st.ovr_serial_len ∨
    ∃ n sg, op = ovr_op.op_serial n sg ∧
      st1.ovr_serial_len = char_of_size_t sg (min n OVR_HIDRAW_MAX_SERIAL) := by
  cases op with
  | op_serial n sg =>
    simp only [ovr_apply, Option.some.injEq] at happ
    rw [← happ]
    exact Or.inr ⟨n, sg, rfl, rfl⟩
  | op_connect hid kzalloc err =>
    simp only [ovr_apply, Option.some.injEq] at happ
    rw [← happ]
    left
    rcases connect_eq st hid kzalloc err with h | ⟨dev, m, _, _, _, h⟩
    · rw [h]
    · rw [h]
  | op_disconnect hidraw =>
    obtain ⟨d, hd, _⟩ := hen
    have hlt := (hi.table_dev _ _ (hi.dev_table _ _ hd).1).1
    simp only [ovr_apply] at happ
    rw [disconnect_eq st hidraw d hd hlt, Option.some.injEq] at happ
    rw [← happ]
    left
    split_ifs <;> rfl
  | op_open minor f kf jiffies pid =>
    obtain ⟨hlt, _, _⟩ := hen
    simp only [ovr_apply, Option.map_eq_some', Prod.exists, exists_eq_right] at happ
    obtain ⟨r, h⟩ := happ
    left
    rcases open_eq st minor f kf jiffies pid hlt with ⟨h1, _⟩ | ⟨h1, _⟩ | ⟨_, _, _, h1⟩ |
      ⟨_, _, _, _, _, h1⟩
    · rw [h1] at h; cases h; rfl
    · rw [h1] at h; cases h; rfl
    · rw [h1] at h; cases h
    · rw [h1] at h; cases h; rfl
  | op_release f =>
    obtain ⟨fl, hf⟩ := hen
    simp only [ovr_apply, Option.map_eq_some', Prod.exists, exists_eq_right] at happ
    obtain ⟨r, h⟩ := happ
    obtain ⟨d, _, heq⟩ := release_eq st f fl hi hf
    rw [heq, Option.some.injEq, Prod.mk.injEq] at h
    rw [← h.2]
    left
    split_ifs <;> rfl
  | op_report_event dev data fails =>
    obtain ⟨d, hd, _⟩ := hen
    simp only [ovr_apply, Option.map_eq_some', Prod.exists, exists_eq_right] at happ
    obtain ⟨r, h⟩ := happ
    obtain ⟨ret, files1, h1, _⟩ := inv_report_event st dev d data fails hi hd
    rw [h1, Option.some.injEq, Prod.mk.injEq] at h
    rw [← h.2]
    exact Or.inl rfl
  | op_read ctx =>
    obtain ⟨fl, hf⟩ := hen
    simp only [ovr_apply, Option.map_eq_some', Prod.exists, exists_eq_right] at happ
    obtain ⟨r, h⟩ := happ
    obtain ⟨_, _, d, hd, _⟩ := inv_file_table st hi ctx.file fl hf
    rw [read_file_eq st ctx fl d hf hd, Option.some.injEq, Prod.mk.injEq] at h
    rw [← h.2]
    exact Or.inl rfl

/-- In every reachable state `ovr_serial_len` is a value of an 8-bit `char`. -/
theorem reachable_serial_len (st : ovr_state) (hr : ovr_reachable st) :
    -128 ≤ st.ovr_serial_len ∧ st.ovr_serial_len ≤ 255 := by
  induction hr with
  | init => decide
  | step op st st1 hr0 hen happ ih =>
    rcases serial_len_step op st st1 (reachable_inv st hr0) hen happ with h | ⟨n, sg, _, h⟩
    · rw [h]; exact ih
    · rw [h]; exact char_of_size_t_range sg _

/-- The ioctl of type `S`, number 7, after the probe stored the length of the
serial string: a serial of 256 characters or more stores 0 in the `char`, and
the ioctl returns `-EINVAL`; a serial of 12 characters is returned with
length 12; one of 200 characters stores 200 where `char` is unsigned and
-56 where it is signed. -/
theorem serial_ioctl_wraps :
    (∀ sg, char_of_size_t sg (min 256 OVR_HIDRAW_MAX_SERIAL) = 0) ∧
    (∀ sg, char_of_size_t sg (min 300 OVR_HIDRAW_MAX_SERIAL) = 0) ∧
    (∀ sg, char_of_size_t sg (min 12 OVR_HIDRAW_MAX_SERIAL) = 12) ∧
    char_of_size_t false (min 200 OVR_HIDRAW_MAX_SERIAL) = 200 ∧
    char_of_size_t true (min 200 OVR_HIDRAW_MAX_SERIAL) = -56 ∧
    (ovr_apply (ovr_op.op_serial 256 false) st_opened).bind
      (fun st => ovr_hidraw_ioctl 4096 4096 st 7 { dir := 2, type := 83, nr := 7, size := 0 }
        ctl_ok) = some (ctl_fail (-EINVAL)) ∧
    (ovr_apply (ovr_op.op_serial 12 false) st_opened).bind
      (fun st => ovr_hidraw_ioctl 4096 4096 st 7 { dir := 2, type := 83, nr := 7, size := 0 }
        ctl_ok) = some (ctl_fail 12) := by
  decide

end HidOvr
